import Mathlib

/-!
Mini-FEM: the GASPI communication layer (`src/GASPI_handler.cc`)

A shallow embedding of the six functions of `GASPI_handler.cc`.

* C `int` values are mathematical integers; every place where the C code
  converts between `int` and an unsigned library type, or where `int`
  arithmetic can leave the 32-bit range, goes through an explicit wrap.
* A function of the handler is a value of `Prog`: the tree of the operations it
  performs on its environment (GASPI primitives, `new[]`, `delete[]`), each
  with a continuation that receives what the environment answered.
* `Prog.run` executes such a tree for one rank against an arbitrary
  environment and records the operations in order.
* `World`, `step` and `exec` execute the trees of all ranks of a group
  together, with notification slots, notifications in transit and the two
  collectives (barrier, all-reduce).
-/

namespace MiniFEM

/-! ## Machine integers -/

/-- Two's-complement wrap of an integer to the range of a 32-bit C `int`
(`[-2^31, 2^31)`); 2147483648 is `2^31`, 4294967296 is `2^32`. -/
def wrapInt (x : Int) : Int := (x + 2147483648) % 4294967296 - 2147483648

/-- Conversion of a C `int` to a 32-bit unsigned value
(`gaspi_notification_t`): reduction modulo `2^32`. -/
def toUInt (x : Int) : Nat := (x % 4294967296).toNat

/-- Conversion of a 32-bit unsigned value to a C `int`. -/
def toInt (v : Nat) : Int := wrapInt (v : Int)

/-- Conversion of a C `int` to `gaspi_size_t` (64-bit unsigned): reduction
modulo `2^64` (18446744073709551616). -/
def toSize (x : Int) : Nat := (x % 18446744073709551616).toNat

/-- The unsigned 32-bit subtraction `v - 1`. -/
def usub1 (v : Nat) : Nat := (v + 4294967295) % 4294967296

/-! ## Operations on the environment -/

/-- Return code of a GASPI primitive. -/
inductive ReturnCode where
  | GASPI_SUCCESS
  | GASPI_TIMEOUT
  | GASPI_ERROR
  deriving DecidableEq, Repr

/-- One operation of the handler on its environment, with the values of the
arguments at the call site.  Every blocking primitive is called with
`GASPI_BLOCK` and every collective on `GASPI_GROUP_ALL`; these constants are
not recorded.  A rank or notification id argument is the value of the `int`
expression at the call site; the value of a notify is the expression
converted to the 32-bit unsigned `gaspi_notification_t`; segment and queue
ids, sizes and addresses are natural numbers.  `new_array` and `delete_array` are the C++ `new int [n]` and
`delete[] p`; all other constructors are GASPI primitives. -/
inductive Op where
  | new_array (n : Int)
  | delete_array (p : Nat)
  | gaspi_wait (queueID : Nat)
  | gaspi_barrier
  | gaspi_segment_delete (segmentID : Nat)
  | gaspi_proc_term
  | gaspi_queue_size_max
  | gaspi_queue_size (queueID : Nat)
  | gaspi_allreduce (localValue : Int)
  | gaspi_notify (segmentID : Nat) (target : Int) (notifyID : Int) (value : Nat)
      (queueID : Nat)
  | gaspi_notify_waitsome (segmentID : Nat) (first : Int) (num : Nat)
  | gaspi_notify_reset (segmentID : Nat) (notifyID : Nat)
  | gaspi_segment_create (segmentID : Nat) (size : Nat)
  | gaspi_segment_ptr (segmentID : Nat)
  deriving DecidableEq, Repr

/-- The GASPI primitives among the operations (everything but `new[]` and
`delete[]`). -/
def Op.isPrimitive : Op → Bool
  | .new_array _ => false
  | .delete_array _ => false
  | _ => true

/-- Notifications. -/
def Op.isNotify : Op → Bool
  | .gaspi_notify _ _ _ _ _ => true
  | _ => false

/-- Region creations. -/
def Op.isCreate : Op → Bool
  | .gaspi_segment_create _ _ => true
  | _ => false

/-- Region destructions. -/
def Op.isSegmentDelete : Op → Bool
  | .gaspi_segment_delete _ => true
  | _ => false

/-- A program of one rank: it returns, or the process exits, or it performs
an operation and continues with the return code and the raw value the
environment wrote to the output parameter of the operation. -/
inductive Prog (α : Type) where
  | ret : α → Prog α
  | abort : Prog α
  | call : Op → (ReturnCode → Nat → Prog α) → Prog α

/-- Modelled from the spec: the macro `SUCCESS_OR_DIE` of `GASPI_handler.h`
(the header is not among the sources).  It evaluates the primitive call once;
any return code other than `GASPI_SUCCESS` is immediately fatal to the
process, never ignored and never retried. -/
def SUCCESS_OR_DIE {α : Type} (op : Op) (k : Nat → Prog α) : Prog α :=
  Prog.call op (fun rc out => if rc = ReturnCode.GASPI_SUCCESS then k out else Prog.abort)

/-! ## The functions of `GASPI_handler.cc` -/

/-- `GASPI_finalize`: frees the destination offset array, flushes the queue
and frees the segments.  `intfDestIndex` is the address held by the pointer. -/
def GASPI_finalize (intfDestIndex : Nat) (nbBlocks rank : Int)
    (srcDataSegmentID destDataSegmentID srcOffsetSegmentID destOffsetSegmentID : Nat)
    (queueID : Nat) : Prog Unit :=
  if nbBlocks < 2 then Prog.ret () else
  Prog.call (Op.delete_array intfDestIndex) fun _ _ =>
  SUCCESS_OR_DIE (Op.gaspi_wait queueID) fun _ =>
  SUCCESS_OR_DIE Op.gaspi_barrier fun _ =>
  SUCCESS_OR_DIE (Op.gaspi_segment_delete srcDataSegmentID) fun _ =>
  SUCCESS_OR_DIE (Op.gaspi_segment_delete destDataSegmentID) fun _ =>
  SUCCESS_OR_DIE (Op.gaspi_segment_delete srcOffsetSegmentID) fun _ =>
  SUCCESS_OR_DIE (Op.gaspi_segment_delete destOffsetSegmentID) fun _ =>
  SUCCESS_OR_DIE Op.gaspi_proc_term fun _ =>
  Prog.ret ()

/-- `GASPI_wait_for_queue_half_full`: waits until the queue is empty if it is
at least half full.  The two sizes are `gaspi_number_t` (unsigned), the
division is the integer division of C. -/
def GASPI_wait_for_queue_half_full (queueID : Nat) : Prog Unit :=
  SUCCESS_OR_DIE Op.gaspi_queue_size_max fun queueSizeMax =>
  SUCCESS_OR_DIE (Op.gaspi_queue_size queueID) fun queueSize =>
  if queueSize ≥ queueSizeMax / 2 then
    SUCCESS_OR_DIE (Op.gaspi_wait queueID) fun _ => Prog.ret ()
  else Prog.ret ()

/-- The loop `for (i = 0; i < nbIntf; i++) if (nbDCcomm[i] > localMax)
localMax = nbDCcomm[i];` with `count` iterations left, at index `i`. -/
def localMaxLoop (nbDCcomm : Nat → Int) : Nat → Nat → Int → Int
  | 0, _, localMax => localMax
  | count + 1, i, localMax =>
      localMaxLoop nbDCcomm count (i + 1)
        (if nbDCcomm i > localMax then nbDCcomm i else localMax)

/-- `GASPI_max_nb_communications`: the value returned is the content of
`*globalMax` after the call.  The all-reduce is called for one `int` with
`GASPI_OP_MAX`. -/
def GASPI_max_nb_communications (nbDCcomm : Nat → Int) (globalMax : Int)
    (nbIntf nbBlocks rank : Int) : Prog Int :=
  if nbBlocks < 2 then Prog.ret globalMax else
  let localMax := localMaxLoop nbDCcomm nbIntf.toNat 0 0
  SUCCESS_OR_DIE (Op.gaspi_allreduce localMax) fun out =>
  Prog.ret (toInt out)

/-- The send loop of both exchanges: for each interface, notify the adjacent
domain `neighborsList[i]-1` with notification id `rank` and value
`data[i]+1`, on the destination offset segment.  `count` iterations are left,
at index `i`; `k` is the rest of the function. -/
def sendLoop {α : Type} (data neighborsList : Nat → Int) (rank : Int)
    (destOffsetSegmentID queueID : Nat) (k : Prog α) : Nat → Nat → Prog α
  | 0, _ => k
  | count + 1, i =>
      SUCCESS_OR_DIE (Op.gaspi_notify destOffsetSegmentID (wrapInt (neighborsList i - 1))
          rank (toUInt (wrapInt (data i + 1))) queueID) fun _ =>
      sendLoop data neighborsList rank destOffsetSegmentID queueID k count (i + 1)

/-- The receive loop of both exchanges: for each interface, wait for the
notification with id `neighborsList[i]-1` (one id), reset it, and hand the
value read to `store`, the statement that consumes `notifyValue`. -/
def recvLoop {α σ : Type} (neighborsList : Nat → Int) (destOffsetSegmentID : Nat)
    (store : Nat → Nat → σ → σ) (k : σ → Prog α) : Nat → Nat → σ → Prog α
  | 0, _, s => k s
  | count + 1, i, s =>
      SUCCESS_OR_DIE (Op.gaspi_notify_waitsome destOffsetSegmentID
          (wrapInt (neighborsList i - 1)) 1) fun notifyID =>
      SUCCESS_OR_DIE (Op.gaspi_notify_reset destOffsetSegmentID notifyID) fun notifyValue =>
      recvLoop neighborsList destOffsetSegmentID store k count (i + 1) (store i notifyValue s)

/-- The body shared by the two exchanges after the `nbBlocks` test: send
loop, receive loop, barrier. -/
def exchange {σ : Type} (data neighborsList : Nat → Int) (nbIntf rank : Int)
    (destOffsetSegmentID queueID : Nat) (store : Nat → Nat → σ → σ) (s : σ) : Prog σ :=
  sendLoop data neighborsList rank destOffsetSegmentID queueID
    (recvLoop neighborsList destOffsetSegmentID store
      (fun s1 => SUCCESS_OR_DIE Op.gaspi_barrier fun _ => Prog.ret s1)
      nbIntf.toNat 0 s)
    nbIntf.toNat 0

/-- The statement `(*nbNotifications) += (notifyValue - 1);`: `int` plus
`unsigned`, computed modulo `2^32` and stored back into the `int`. -/
def addNotifications (_i : Nat) (notifyValue : Nat) (nbNotifications : Int) : Int :=
  toInt ((toUInt nbNotifications + usub1 notifyValue) % 4294967296)

/-- The statement `intfDestIndex[i] = notifyValue - 1;`. -/
def storeDestIndex (i : Nat) (notifyValue : Nat) (intfDestIndex : Nat → Int) : Nat → Int :=
  Function.update intfDestIndex i (toInt (usub1 notifyValue))

/-- `GASPI_nb_notifications_exchange`: the value returned is the content of
`*nbNotifications` after the call. -/
def GASPI_nb_notifications_exchange (neighborsList nbDCcomm : Nat → Int)
    (nbNotifications : Int) (nbIntf nbBlocks rank : Int)
    (destOffsetSegmentID queueID : Nat) : Prog Int :=
  if nbBlocks < 2 then Prog.ret nbNotifications else
  exchange nbDCcomm neighborsList nbIntf rank destOffsetSegmentID queueID
    addNotifications nbNotifications

/-- `GASPI_offset_exchange`: `intfDestIndex` is the content of the destination
offset array, the value returned its content after the call. -/
def GASPI_offset_exchange (intfDestIndex intfIndex neighborsList : Nat → Int)
    (nbIntf nbBlocks rank : Int) (destOffsetSegmentID queueID : Nat) : Prog (Nat → Int) :=
  if nbBlocks < 2 then Prog.ret intfDestIndex else
  exchange intfIndex neighborsList nbIntf rank destOffsetSegmentID queueID
    storeDestIndex intfDestIndex

/-- The output parameters of `GASPI_init`: the four segment pointers and the
pointer to the destination offset array (addresses, 0 for null), the four
segment ids and the queue id. -/
structure InitOutputs where
  srcDataSegment : Nat
  destDataSegment : Nat
  srcOffsetSegment : Nat
  destOffsetSegment : Nat
  intfDestIndex : Nat
  srcDataSegmentID : Nat
  destDataSegmentID : Nat
  srcOffsetSegmentID : Nat
  destOffsetSegmentID : Nat
  queueID : Nat
  deriving DecidableEq, Repr

/-- The initialiser `nbIntfNodes * operatorDim * sizeof (double)`: the first
product is an `int` product, the second is taken in `gaspi_size_t`. -/
def dataSegmentSize (nbIntfNodes operatorDim : Int) : Nat :=
  (toSize (wrapInt (nbIntfNodes * operatorDim)) * 8) % 18446744073709551616

/-- The initialiser `nbIntfNodes * sizeof (int)`, taken in `gaspi_size_t`. -/
def offsetSegmentSize (nbIntfNodes : Int) : Nat :=
  (toSize nbIntfNodes * 4) % 18446744073709551616

/-- `GASPI_init`: `o` holds the output parameters before the call, the value
returned holds them after the call.  The expression `new int [nbIntf]` with a
negative `nbIntf` throws `std::bad_array_new_length` before anything is
allocated; nothing catches it, so the process ends there. -/
def GASPI_init (o : InitOutputs) (nbIntf nbIntfNodes nbBlocks rank operatorDim : Int) :
    Prog InitOutputs :=
  if nbBlocks < 2 then Prog.ret o else
  if nbIntf < 0 then Prog.abort else
  Prog.call (Op.new_array nbIntf) fun _ p =>
  let o1 := { o with intfDestIndex := p }
  let o2 := { o1 with srcDataSegmentID := 0, destDataSegmentID := 1,
                      srcOffsetSegmentID := 3, destOffsetSegmentID := 4, queueID := 0 }
  SUCCESS_OR_DIE (Op.gaspi_segment_create o2.srcDataSegmentID
      (dataSegmentSize nbIntfNodes operatorDim)) fun _ =>
  SUCCESS_OR_DIE (Op.gaspi_segment_create o2.destDataSegmentID
      (dataSegmentSize nbIntfNodes operatorDim)) fun _ =>
  SUCCESS_OR_DIE (Op.gaspi_segment_create o2.srcOffsetSegmentID
      (offsetSegmentSize nbIntfNodes)) fun _ =>
  SUCCESS_OR_DIE (Op.gaspi_segment_create o2.destOffsetSegmentID
      (offsetSegmentSize nbIntfNodes)) fun _ =>
  SUCCESS_OR_DIE (Op.gaspi_segment_ptr o2.srcDataSegmentID) fun srcDataSegmentPtr =>
  SUCCESS_OR_DIE (Op.gaspi_segment_ptr o2.destDataSegmentID) fun destDataSegmentPtr =>
  SUCCESS_OR_DIE (Op.gaspi_segment_ptr o2.srcOffsetSegmentID) fun srcOffsetSegmentPtr =>
  SUCCESS_OR_DIE (Op.gaspi_segment_ptr o2.destOffsetSegmentID) fun destOffsetSegmentPtr =>
  Prog.ret { o2 with srcDataSegment := srcDataSegmentPtr,
                     destDataSegment := destDataSegmentPtr,
                     srcOffsetSegment := srcOffsetSegmentPtr,
                     destOffsetSegment := destOffsetSegmentPtr }

/-! ## One rank against an arbitrary environment -/

/-- What the environment answers to an operation: the return code and the raw
value written to the output parameter. -/
structure Reply where
  rc : ReturnCode
  out : Nat
  deriving DecidableEq, Repr

/-- An environment answers the operation issued as the `k`-th of a run. -/
abbrev Env := Nat → Op → Reply

/-- How a run ends. -/
inductive Outcome (α : Type) where
  | returned : α → Outcome α
  | aborted : Outcome α

/-- The operations of a run in order, and how it ended. -/
structure Run (α : Type) where
  trace : List Op
  outcome : Outcome α

/-- Runs a program against an environment; `tr` holds the operations already
performed. -/
def Prog.run {α : Type} (env : Env) : Prog α → List Op → Run α
  | Prog.ret a, tr => ⟨tr, Outcome.returned a⟩
  | Prog.abort, tr => ⟨tr, Outcome.aborted⟩
  | Prog.call op k, tr =>
      Prog.run env (k (env tr.length op).rc (env tr.length op).out) (tr ++ [op])

/-- The environment in which every operation succeeds and writes `0`. -/
def envOk : Env := fun _ _ => ⟨ReturnCode.GASPI_SUCCESS, 0⟩

/-! ## Vocabulary for statements about runs -/

/-- The notify that the send loop of an exchange issues for interface `i`. -/
def notifyAt (data neighborsList : Nat → Int) (rank : Int)
    (destOffsetSegmentID queueID : Nat) (i : Nat) : Op :=
  Op.gaspi_notify destOffsetSegmentID (wrapInt (neighborsList i - 1)) rank
    (toUInt (wrapInt (data i + 1))) queueID

/-- Every operation a program can issue, whatever the environment answers,
satisfies `P`. -/
inductive AllOps {α : Type} (P : Op → Prop) : Prog α → Prop where
  | ret (a : α) : AllOps P (Prog.ret a)
  | abort : AllOps P Prog.abort
  | call (op : Op) (k : ReturnCode → Nat → Prog α) :
      P op → (∀ rc out, AllOps P (k rc out)) → AllOps P (Prog.call op k)

/-- Every GASPI primitive of the program is called under `SUCCESS_OR_DIE`;
`new[]` and `delete[]` are not GASPI primitives. -/
inductive Guarded {α : Type} : Prog α → Prop where
  | ret (a : α) : Guarded (Prog.ret a)
  | abort : Guarded Prog.abort
  | prim (op : Op) (k : Nat → Prog α) :
      (∀ out, Guarded (k out)) → Guarded (SUCCESS_OR_DIE op k)
  | mem (op : Op) (k : ReturnCode → Nat → Prog α) :
      op.isPrimitive = false → (∀ rc out, Guarded (k rc out)) → Guarded (Prog.call op k)

/-- Occupancy of queue `queueID` of the calling rank after it issued `ops`,
each with success, starting from occupancy `occ`: posting a notification to
the queue adds one entry, a completed `gaspi_wait` on the queue leaves it
empty, nothing else changes it. -/
def queueOccupancy (queueID : Nat) : Nat → List Op → Nat
  | occ, [] => occ
  | occ, Op.gaspi_notify _ _ _ _ q :: ops =>
      queueOccupancy queueID (if q = queueID then occ + 1 else occ) ops
  | occ, Op.gaspi_wait q :: ops =>
      queueOccupancy queueID (if q = queueID then 0 else occ) ops
  | occ, _ :: ops => queueOccupancy queueID occ ops

/-- The operations of a run and whether it returned normally. -/
def Run.summary {α : Type} (R : Run α) : List Op × Bool :=
  (R.trace, match R.outcome with
            | Outcome.returned _ => true
            | Outcome.aborted => false)

/-- A call of one of the six functions of the handler, with its arguments. -/
inductive EntryCall where
  | finalize (intfDestIndex : Nat) (nbBlocks rank : Int)
      (srcDataSegmentID destDataSegmentID srcOffsetSegmentID destOffsetSegmentID : Nat)
      (queueID : Nat)
  | wait_for_queue_half_full (queueID : Nat)
  | max_nb_communications (nbDCcomm : Nat → Int) (globalMax nbIntf nbBlocks rank : Int)
  | nb_notifications_exchange (neighborsList nbDCcomm : Nat → Int)
      (nbNotifications nbIntf nbBlocks rank : Int) (destOffsetSegmentID queueID : Nat)
  | offset_exchange (intfDestIndex intfIndex neighborsList : Nat → Int)
      (nbIntf nbBlocks rank : Int) (destOffsetSegmentID queueID : Nat)
  | init (o : InitOutputs) (nbIntf nbIntfNodes nbBlocks rank operatorDim : Int)

/-- Runs a call of the handler against an environment. -/
def EntryCall.run (env : Env) : EntryCall → List Op × Bool
  | EntryCall.finalize p nbBlocks rank s1 s2 s3 s4 q =>
      ((GASPI_finalize p nbBlocks rank s1 s2 s3 s4 q).run env []).summary
  | EntryCall.wait_for_queue_half_full q =>
      ((GASPI_wait_for_queue_half_full q).run env []).summary
  | EntryCall.max_nb_communications nbDCcomm globalMax nbIntf nbBlocks rank =>
      ((GASPI_max_nb_communications nbDCcomm globalMax nbIntf nbBlocks rank).run env []).summary
  | EntryCall.nb_notifications_exchange nl nbDCcomm total nbIntf nbBlocks rank seg q =>
      ((GASPI_nb_notifications_exchange nl nbDCcomm total nbIntf nbBlocks rank seg q).run
        env []).summary
  | EntryCall.offset_exchange tbl intfIndex nl nbIntf nbBlocks rank seg q =>
      ((GASPI_offset_exchange tbl intfIndex nl nbIntf nbBlocks rank seg q).run env []).summary
  | EntryCall.init o nbIntf nbIntfNodes nbBlocks rank operatorDim =>
      ((GASPI_init o nbIntf nbIntfNodes nbBlocks rank operatorDim).run env []).summary

/-- An environment in which the operation issued as number `k` fails and
every other one succeeds. -/
def envFailAt (k : Nat) : Env := fun j _ =>
  if j = k then ⟨ReturnCode.GASPI_ERROR, 0⟩ else ⟨ReturnCode.GASPI_SUCCESS, 0⟩

/-- An environment that reports queue capacity `C` and occupancy `n`, every
operation succeeding. -/
def envQueue (C n : Nat) : Env := fun _ op =>
  match op with
  | Op.gaspi_queue_size_max => ⟨ReturnCode.GASPI_SUCCESS, C⟩
  | Op.gaspi_queue_size _ => ⟨ReturnCode.GASPI_SUCCESS, n⟩
  | _ => ⟨ReturnCode.GASPI_SUCCESS, 0⟩

/-! ## A group of ranks

All ranks of the group run together.  A notify posts a notification, which
is in transit until it is delivered into the slot `(target, segment, id)` of
the target; notifications in transit are delivered in any order.
`gaspi_notify_waitsome` blocks while all the slots it watches hold 0;
`gaspi_notify_reset` reads a slot and sets it to 0.  The barrier and the
all-reduce complete for all ranks at once, when every rank has called them. -/

/-- A notification in transit. -/
structure Notification where
  target : Nat
  segmentID : Nat
  notifyID : Int
  value : Nat
  deriving DecidableEq, Repr

/-- The state of a group: the rest of the program of every rank, the
notification slots (rank, segment, notification id), 0 for an empty slot, and
the notifications in transit. -/
structure World (α : Type) where
  procs : Nat → Prog α
  slots : Nat × Nat × Int → Nat
  inflight : List Notification

/-- The group before any rank has started: no notification pending. -/
def World.start {α : Type} (procs : Nat → Prog α) : World α :=
  ⟨procs, fun _ => 0, []⟩

/-- What happens next in the group: rank `r` performs its next point-to-point
operation, or the notification at position `idx` of those in transit is
delivered, or the barrier completes, or the all-reduce completes. -/
inductive Label where
  | rank (r : Nat)
  | deliver (idx : Nat)
  | barrier
  | allreduce
  deriving DecidableEq, Repr

/-- The first id among `first, first+1, ..., first+num-1` whose slot is not
empty. -/
def firstPending (slot : Int → Nat) : Int → Nat → Option Int
  | _, 0 => none
  | first, num + 1 =>
      if slot first ≠ 0 then some first else firstPending slot (first + 1) num

/-- Rank `r` performs its next operation if it is a notify, a waitsome that
is not blocked, or a reset.  A notify to a rank outside the group or with the
value 0 returns an error. -/
def stepRank {α : Type} (n : Nat) (w : World α) (r : Nat) : World α :=
  match w.procs r with
  | Prog.call (Op.gaspi_notify seg target id value _) k =>
      if 0 ≤ target ∧ target < n ∧ value ≠ 0 then
        { w with procs := Function.update w.procs r (k ReturnCode.GASPI_SUCCESS 0),
                 inflight := w.inflight ++ [⟨target.toNat, seg, id, value⟩] }
      else
        { w with procs := Function.update w.procs r (k ReturnCode.GASPI_ERROR 0) }
  | Prog.call (Op.gaspi_notify_waitsome seg first num) k =>
      match firstPending (fun id => w.slots (r, seg, id)) first num with
      | some id =>
          { w with procs := Function.update w.procs r (k ReturnCode.GASPI_SUCCESS id.toNat) }
      | none => w
  | Prog.call (Op.gaspi_notify_reset seg id) k =>
      { w with procs := Function.update w.procs r
                 (k ReturnCode.GASPI_SUCCESS (w.slots (r, seg, (id : Int)))),
               slots := Function.update w.slots (r, seg, (id : Int)) 0 }
  | _ => w

/-- Delivery of the notification at position `idx` of those in transit. -/
def stepDeliver {α : Type} (w : World α) (idx : Nat) : World α :=
  match w.inflight[idx]? with
  | some m =>
      { w with slots := Function.update w.slots (m.target, m.segmentID, m.notifyID) m.value,
               inflight := w.inflight.eraseIdx idx }
  | none => w

/-- Whether `f` holds of every rank below `n`. -/
def allRanks (n : Nat) (f : Nat → Bool) : Bool := (List.range n).all f

/-- The program is at a barrier call. -/
def atBarrier {α : Type} : Prog α → Bool
  | Prog.call Op.gaspi_barrier _ => true
  | _ => false

/-- The program after its barrier call has succeeded. -/
def passBarrier {α : Type} : Prog α → Prog α
  | Prog.call Op.gaspi_barrier k => k ReturnCode.GASPI_SUCCESS 0
  | p => p

/-- The barrier completes when all ranks are at it. -/
def stepBarrier {α : Type} (n : Nat) (w : World α) : World α :=
  if allRanks n (fun r => atBarrier (w.procs r)) then
    { w with procs := fun r => if r < n then passBarrier (w.procs r) else w.procs r }
  else w

/-- The value a program at an all-reduce call contributes. -/
def contribution {α : Type} : Prog α → Option Int
  | Prog.call (Op.gaspi_allreduce v) _ => some v
  | _ => none

/-- The program after its all-reduce call has succeeded with `result`. -/
def passAllreduce {α : Type} (result : Nat) : Prog α → Prog α
  | Prog.call (Op.gaspi_allreduce _) k => k ReturnCode.GASPI_SUCCESS result
  | p => p

/-- The maximum of `v 0, ..., v k`. -/
def reduceMax (v : Nat → Int) : Nat → Int
  | 0 => v 0
  | k + 1 => max (reduceMax v k) (v (k + 1))

/-- The all-reduce (operator maximum, one `int`) completes when all ranks
are at it; every rank receives the maximum of the contributions. -/
def stepAllreduce {α : Type} (n : Nat) (w : World α) : World α :=
  if allRanks n (fun r => (contribution (w.procs r)).isSome) then
    let globalValue := reduceMax (fun q => (contribution (w.procs q)).getD 0) (n - 1)
    { w with procs := fun r =>
        if r < n then passAllreduce (toUInt globalValue) (w.procs r) else w.procs r }
  else w

/-- One step of a group of `n` ranks; a label that cannot be performed leaves
the state as it is. -/
def step {α : Type} (n : Nat) (w : World α) : Label → World α
  | Label.rank r => if r < n then stepRank n w r else w
  | Label.deliver idx => stepDeliver w idx
  | Label.barrier => stepBarrier n w
  | Label.allreduce => stepAllreduce n w

/-- The state after a schedule. -/
def exec {α : Type} (n : Nat) : List Label → World α → World α
  | [], w => w
  | l :: ls, w => exec n ls (step n w l)

/-- The program has returned. -/
def isReturned {α : Type} : Prog α → Bool
  | Prog.ret _ => true
  | _ => false

/-- All ranks of the group have returned. -/
def allReturned {α : Type} (n : Nat) (w : World α) : Bool :=
  allRanks n (fun r => isReturned (w.procs r))

/-- The value a returned program returned. -/
def result? {α : Type} : Prog α → Option α
  | Prog.ret a => some a
  | _ => none

end MiniFEM
namespace MiniFEM

/-! ## One exchange round on a group: vocabulary of the proofs -/

/-- The inputs of one exchange round: the number of ranks, and for every rank
the number of interfaces, the neighbour list and the data array (local
offsets, or communication counts); the segment and queue ids; the statement
that consumes a received value and the initial content of what it updates. -/
structure Round (σ : Type) where
  n : Nat
  nbIntf : Nat → Nat
  neighborsList : Nat → Nat → Int
  data : Nat → Nat → Int
  seg : Nat
  queue : Nat
  store : Nat → Nat → σ → σ
  init : Nat → σ

/-- The least index `j ≥ i` among the next `count` with `f j = x`, and
`i + count` if there is none. -/
def findFrom (f : Nat → Int) (x : Int) : Nat → Nat → Nat
  | 0, i => i
  | count + 1, i => if f i = x then i else findFrom f x count (i + 1)

/-- Where a rank stands in an exchange: about to notify for interface `i`,
about to wait for interface `i`, about to reset for interface `i`, at the
barrier, or returned. -/
inductive Pos where
  | send (i : Nat)
  | wait (i : Nat)
  | reset (i : Nat)
  | barrier
  | done
  deriving DecidableEq, Repr

namespace Round

variable {σ : Type} (G : Round σ)

/-- The program rank `r` runs in the round. -/
def prog (r : Nat) : Prog σ :=
  exchange (G.data r) (G.neighborsList r) (G.nbIntf r) r G.seg G.queue G.store (G.init r)

/-- The rank named by interface `i` of rank `r` (neighbour entries are numbered
from 1). -/
def peer (r i : Nat) : Nat := (G.neighborsList r i - 1).toNat

/-- The interface of the peer that names `r` back. -/
def peerIndex (r i : Nat) : Nat :=
  findFrom (G.neighborsList (G.peer r i)) (r + 1) (G.nbIntf (G.peer r i)) 0

/-- The value rank `q` notifies for its interface `j`. -/
def payload (q j : Nat) : Nat := toUInt (wrapInt (G.data q j + 1))

/-- The value rank `r` is to receive for its interface `i`. -/
def expected (r i : Nat) : Nat := G.payload (G.peer r i) (G.peerIndex r i)

/-- What rank `r` holds once it consumed the values of its first `i`
interfaces. -/
def recvState (r : Nat) : Nat → σ
  | 0 => G.init r
  | i + 1 => G.store i (G.expected r i) (recvState r i)

/-- The receive loop of rank `r` from interface `i` on, followed by the
barrier. -/
def recvProg (r i : Nat) (s : σ) : Prog σ :=
  recvLoop (G.neighborsList r) G.seg G.store
    (fun s1 => SUCCESS_OR_DIE Op.gaspi_barrier fun _ => Prog.ret s1) (G.nbIntf r - i) i s

/-- The rest of the program of rank `r` at a position. -/
def progAt (r : Nat) : Pos → Prog σ
  | Pos.send i =>
      sendLoop (G.data r) (G.neighborsList r) r G.seg G.queue
        (G.recvProg r 0 (G.init r)) (G.nbIntf r - i) i
  | Pos.wait i => G.recvProg r i (G.recvState r i)
  | Pos.reset i =>
      SUCCESS_OR_DIE (Op.gaspi_notify_reset G.seg (G.peer r i)) fun notifyValue =>
        G.recvProg r (i + 1) (G.store i notifyValue (G.recvState r i))
  | Pos.barrier =>
      SUCCESS_OR_DIE Op.gaspi_barrier fun _ => Prog.ret (G.recvState r (G.nbIntf r))
  | Pos.done => Prog.ret (G.recvState r (G.nbIntf r))

/-- The position before the wait for interface `i`, the barrier after the
last interface. -/
def recvPos (r i : Nat) : Pos := if i < G.nbIntf r then Pos.wait i else Pos.barrier

/-- The position before the notify for interface `i`, the receive loop after
the last interface. -/
def sendPos (r i : Nat) : Pos := if i < G.nbIntf r then Pos.send i else G.recvPos r 0

/-- Positions name an interface of the rank. -/
def PosValid (r : Nat) : Pos → Prop
  | Pos.send i => i < G.nbIntf r
  | Pos.wait i => i < G.nbIntf r
  | Pos.reset i => i < G.nbIntf r
  | _ => True

/-- The notify for interface `j` has been issued. -/
def sent : Pos → Nat → Prop
  | Pos.send i, j => j < i
  | _, _ => True

/-- The value of interface `i` has been read and its slot reset. -/
def consumed : Pos → Nat → Prop
  | Pos.send _, _ => False
  | Pos.wait i1, i => i < i1
  | Pos.reset i1, i => i < i1
  | _, _ => True

/-- An upper bound of the number of steps a rank at a position still takes,
counting two for a notify (the notify and its delivery). -/
def rem (r : Nat) : Pos → Nat
  | Pos.send i => 2 * (G.nbIntf r - i) + 2 * G.nbIntf r + 2
  | Pos.wait i => 2 * (G.nbIntf r - i) + 2
  | Pos.reset i => 2 * (G.nbIntf r - i) + 1
  | Pos.barrier => 1
  | Pos.done => 0

/-- The notification rank `q` posts for its interface `j`. -/
def message (q j : Nat) : Notification := ⟨G.peer q j, G.seg, (q : Int), G.payload q j⟩

/-- The inputs are well formed: at least two ranks, their number an `int`;
every neighbour entry names a rank of the group (numbered from 1); the
neighbour lists are mutually consistent and without repetition; the data are
non-negative `int`s. -/
structure WellFormed : Prop where
  two_le : 2 ≤ G.n
  n_lt : G.n < 2147483648
  range : ∀ r, r < G.n → ∀ i, i < G.nbIntf r →
    1 ≤ G.neighborsList r i ∧ G.neighborsList r i ≤ G.n
  sym : ∀ r, r < G.n → ∀ i, i < G.nbIntf r →
    ∃ j, j < G.nbIntf (G.peer r i) ∧ G.neighborsList (G.peer r i) j = (r : Int) + 1
  nodup : ∀ r, r < G.n → ∀ i j, i < G.nbIntf r → j < G.nbIntf r →
    G.neighborsList r i = G.neighborsList r j → i = j
  data_nonneg : ∀ r, r < G.n → ∀ i, i < G.nbIntf r →
    0 ≤ G.data r i ∧ G.data r i < 2147483648

/-- The invariant of a round: every rank stands at a position of its
program; what is in transit and what is in the slots was notified by the
rank the slot belongs to; a value waited for and found stays until it is
reset; a notification issued is in transit, or in its slot, or consumed; and
ranks leave the barrier together. -/
structure Inv (w : World σ) (pos : Nat → Pos) : Prop where
  at_pos : ∀ r, r < G.n → w.procs r = G.progAt r (pos r) ∧ G.PosValid r (pos r)
  transit : ∀ m, m ∈ w.inflight →
    ∃ q, q < G.n ∧ ∃ j, j < G.nbIntf q ∧ sent (pos q) j ∧ m = G.message q j
  slot : ∀ r s id, r < G.n → w.slots (r, s, id) ≠ 0 →
    ∃ q, q < G.n ∧ ∃ j, j < G.nbIntf q ∧ sent (pos q) j ∧ G.peer q j = r ∧ s = G.seg
      ∧ id = (q : Int) ∧ w.slots (r, s, id) = G.payload q j
  found : ∀ r, r < G.n → ∀ i, pos r = Pos.reset i →
    w.slots (r, G.seg, ((G.peer r i : Nat) : Int)) ≠ 0
  arrives : ∀ q, q < G.n → ∀ j, j < G.nbIntf q → sent (pos q) j →
    ∀ i, i < G.nbIntf (G.peer q j) → G.neighborsList (G.peer q j) i = (q : Int) + 1 →
      G.message q j ∈ w.inflight ∨ w.slots (G.peer q j, G.seg, (q : Int)) ≠ 0
        ∨ consumed (pos (G.peer q j)) i
  together : (∃ r, r < G.n ∧ pos r = Pos.done) → ∀ r, r < G.n → pos r = Pos.done

/-- The measure that decreases with every step of a round. -/
def measure (w : World σ) (pos : Nat → Pos) : Nat :=
  (Finset.range G.n).sum (fun r => G.rem r (pos r)) + w.inflight.length

end Round

/-- The round of the offset exchange: the data are the local offsets
(`intfIndex`), a received value is stored into the destination offset
array. -/
def offsetRound (n : Nat) (nbIntf : Nat → Nat)
    (neighborsList intfIndex intfDestIndex : Nat → Nat → Int) (seg queue : Nat) :
    Round (Nat → Int) :=
  { n := n, nbIntf := nbIntf, neighborsList := neighborsList, data := intfIndex,
    seg := seg, queue := queue, store := storeDestIndex, init := intfDestIndex }

/-- The group in which every rank calls `GASPI_offset_exchange`. -/
def offsetExchangeWorld (n : Nat) (nbIntf : Nat → Nat)
    (neighborsList intfIndex intfDestIndex : Nat → Nat → Int) (seg queue : Nat) :
    World (Nat → Int) :=
  World.start (fun r => GASPI_offset_exchange (intfDestIndex r) (intfIndex r)
    (neighborsList r) (nbIntf r) n r seg queue)

/-- Two ranks, one interface each: rank 0 lists domain 2, rank 1 lists
domain 1. -/
def twoRankNeighbors : Nat → Nat → Int := fun r _ => if r = 0 then 2 else 1

/-- Local offsets `[5]` on rank 0 and `[12]` on rank 1. -/
def twoRankOffsets : Nat → Nat → Int := fun r _ => if r = 0 then 5 else 12

/-- A schedule of the two ranks: both notify, both notifications are
delivered, each rank waits and resets, the barrier completes. -/
def twoRankSchedule : List Label :=
  [Label.rank 0, Label.rank 1, Label.deliver 0, Label.deliver 0, Label.rank 0, Label.rank 0,
   Label.rank 1, Label.rank 1, Label.barrier]

/-- The group in which every rank calls `GASPI_max_nb_communications`. -/
def maxWorld (n : Nat) (nbIntf : Nat → Nat) (nbDCcomm : Nat → Nat → Int)
    (globalMax : Nat → Int) : World Int :=
  World.start (fun r => GASPI_max_nb_communications (nbDCcomm r) (globalMax r) (nbIntf r) n r)

/-- The local maximum of the spec: the maximum over all entries of the
per-interface count array of a rank (counts are natural numbers; no entry
gives 0). -/
def specLocalMax (counts : Nat → Int) (nbIntf : Nat) : Nat :=
  (Finset.range nbIntf).sup (fun i => (counts i).toNat)

/-- The global maximum of the spec: `max(m_0, ..., m_{n-1})` of the local
maxima. -/
def specGlobalMax (n : Nat) (nbIntf : Nat → Nat) (nbDCcomm : Nat → Nat → Int) : Nat :=
  (Finset.range n).sup (fun r => specLocalMax (nbDCcomm r) (nbIntf r))

/-- Two ranks: rank 0 has two interfaces, rank 1 has one. -/
def twoRankNbIntf : Nat → Nat := fun r => if r = 0 then 2 else 1

/-- Communication counts `[3, 7]` on rank 0 and `[4]` on rank 1. -/
def twoRankCounts : Nat → Nat → Int :=
  fun r i => if r = 0 then (if i = 0 then 3 else 7) else 4

end MiniFEM
namespace MiniFEM

/-! ## Vocabulary of the count exchange, the trace shape and the pairing -/

/-- The operations of the receive loop when every call succeeds: for each
interface the waitsome on the id `neighborsList[i]-1` and the reset of the id
the environment returned for it; `k` operations were issued before. -/
def recvOps (env : Env) (neighborsList : Nat → Int) (seg : Nat) : Nat → Nat → Nat → List Op
  | 0, _, _ => []
  | count + 1, i, k =>
      Op.gaspi_notify_waitsome seg (wrapInt (neighborsList i - 1)) 1
      :: Op.gaspi_notify_reset seg
          (env k (Op.gaspi_notify_waitsome seg (wrapInt (neighborsList i - 1)) 1)).out
      :: recvOps env neighborsList seg count (i + 1) (k + 2)

/-- Waits for a notification. -/
def Op.isWait : Op → Bool
  | .gaspi_notify_waitsome _ _ _ => true
  | _ => false

/-- The environment of a receiver whose resets all read the value `v`: every
operation succeeds, a reset writes `v`, a waitsome the id it watches first,
everything else writes 0. -/
def envReset (v : Nat) : Env := fun _ op =>
  match op with
  | Op.gaspi_notify_reset _ _ => ⟨ReturnCode.GASPI_SUCCESS, v⟩
  | Op.gaspi_notify_waitsome _ first _ => ⟨ReturnCode.GASPI_SUCCESS, first.toNat⟩
  | _ => ⟨ReturnCode.GASPI_SUCCESS, 0⟩

/-- The round of the count exchange: the data are the communication counts
(`nbDCcomm`), a received value is added to the running total. -/
def countRound (n : Nat) (nbIntf : Nat → Nat) (neighborsList nbDCcomm : Nat → Nat → Int)
    (nbNotifications : Nat → Int) (seg queue : Nat) : Round Int :=
  { n := n, nbIntf := nbIntf, neighborsList := neighborsList, data := nbDCcomm,
    seg := seg, queue := queue, store := addNotifications, init := nbNotifications }

/-- The group in which every rank calls `GASPI_nb_notifications_exchange`. -/
def countExchangeWorld (n : Nat) (nbIntf : Nat → Nat)
    (neighborsList nbDCcomm : Nat → Nat → Int) (nbNotifications : Nat → Int)
    (seg queue : Nat) : World Int :=
  World.start (fun r => GASPI_nb_notifications_exchange (neighborsList r) (nbDCcomm r)
    (nbNotifications r) (nbIntf r) n r seg queue)

/-- The number of notifications pending for a slot (rank, segment, id): those
in transit towards it, and the one it holds if it is not empty. -/
def pending {α : Type} (w : World α) (key : Nat × Nat × Int) : Nat :=
  (w.inflight.filter
      (fun m => decide ((m.target, m.segmentID, m.notifyID) = key))).length
    + (if w.slots key = 0 then 0 else 1)

namespace Round

variable {σ : Type} (G : Round σ)

/-- The exact part of the invariant of a round: a notification is in transit
at most once; while it is in transit its slot is empty and its receiver has
not consumed it; a slot that holds a value has not been consumed; no slot
outside the group is written; what a rank consumed its peer had notified. -/
structure Exact (w : World σ) (pos : Nat → Pos) : Prop where
  nodup : w.inflight.Nodup
  in_transit : ∀ q, q < G.n → ∀ j, j < G.nbIntf q → G.message q j ∈ w.inflight →
    w.slots (G.peer q j, G.seg, (q : Int)) = 0
      ∧ ∀ i, i < G.nbIntf (G.peer q j) → G.neighborsList (G.peer q j) i = (q : Int) + 1 →
          ¬ consumed (pos (G.peer q j)) i
  in_slot : ∀ r, r < G.n → ∀ q : Nat, w.slots (r, G.seg, (q : Int)) ≠ 0 →
    ∀ i, i < G.nbIntf r → G.neighborsList r i = (q : Int) + 1 → ¬ consumed (pos r) i
  outside : ∀ r s id, G.n ≤ r → w.slots (r, s, id) = 0
  was_sent : ∀ r, r < G.n → ∀ i, i < G.nbIntf r → consumed (pos r) i →
    ∀ j, j < G.nbIntf (G.peer r i) → G.neighborsList (G.peer r i) j = (r : Int) + 1 →
      sent (pos (G.peer r i)) j

end Round

/-- Three ranks: rank 0 lists domains 2 and 3, ranks 1 and 2 list domain 1. -/
def threeRankNbIntf : Nat → Nat := fun r => if r = 0 then 2 else 1

/-- The neighbour lists of the three ranks. -/
def threeRankNeighbors : Nat → Nat → Int :=
  fun r i => if r = 0 then (if i = 0 then 2 else 3) else 1

/-- Communication counts: ranks 1 and 2 each hold 1073741824 (`2^30`) for
rank 0, rank 0 holds 1 for each of them. -/
def threeRankCounts : Nat → Nat → Int := fun r _ => if r = 0 then 1 else 1073741824

/-- A schedule of the three ranks: all notifies, all deliveries, every rank
waits and resets for each of its interfaces, the barrier completes. -/
def threeRankSchedule : List Label :=
  [Label.rank 0, Label.rank 0, Label.rank 1, Label.rank 2,
   Label.deliver 0, Label.deliver 0, Label.deliver 0, Label.deliver 0,
   Label.rank 0, Label.rank 0, Label.rank 0, Label.rank 0,
   Label.rank 1, Label.rank 1, Label.rank 2, Label.rank 2, Label.barrier]

/-- Communication counts `[3]` on rank 0 and `[4]` on rank 1. -/
def twoRankCommCounts : Nat → Nat → Int := fun r _ => if r = 0 then 3 else 4

/-- Running totals 10 on rank 0 and 20 on rank 1 before the exchange. -/
def twoRankTotals : Nat → Int := fun r => if r = 0 then 10 else 20

end MiniFEM
namespace MiniFEM

/-! ## Runs of one rank: basic facts -/

theorem run_ret {α : Type} (env : Env) (a : α) (tr : List Op) :
    (Prog.ret a).run env tr = ⟨tr, Outcome.returned a⟩ := rfl

theorem run_abort {α : Type} (env : Env) (tr : List Op) :
    (Prog.abort : Prog α).run env tr = ⟨tr, Outcome.aborted⟩ := rfl

theorem run_call {α : Type} (env : Env) (op : Op) (k : ReturnCode → Nat → Prog α)
    (tr : List Op) :
    (Prog.call op k).run env tr
      = (k (env tr.length op).rc (env tr.length op).out).run env (tr ++ [op]) := rfl

theorem run_die {α : Type} (env : Env) (op : Op) (k : Nat → Prog α) (tr : List Op) :
    (SUCCESS_OR_DIE op k).run env tr
      = if (env tr.length op).rc = ReturnCode.GASPI_SUCCESS
        then (k (env tr.length op).out).run env (tr ++ [op])
        else ⟨tr ++ [op], Outcome.aborted⟩ := by
  unfold SUCCESS_OR_DIE
  rw [run_call]
  split <;> rfl

/-- A run only appends to the operations already performed. -/
theorem run_trace_extends {α : Type} (env : Env) (p : Prog α) :
    ∀ tr : List Op, ∃ l, (p.run env tr).trace = tr ++ l := by
  induction p with
  | ret a => intro tr; exact ⟨[], by simp [run_ret]⟩
  | abort => intro tr; exact ⟨[], by simp [run_abort]⟩
  | call op k ih =>
      intro tr
      obtain ⟨l, hl⟩ := ih (env tr.length op).rc (env tr.length op).out (tr ++ [op])
      exact ⟨op :: l, by rw [run_call, hl]; simp⟩

theorem AllOps.die {α : Type} {P : Op → Prop} (op : Op) (k : Nat → Prog α)
    (hop : P op) (hk : ∀ out, AllOps P (k out)) : AllOps P (SUCCESS_OR_DIE op k) := by
  unfold SUCCESS_OR_DIE
  refine AllOps.call op _ hop ?_
  intro rc out
  split
  · exact hk out
  · exact AllOps.abort

theorem AllOps.run_trace {α : Type} {P : Op → Prop} (env : Env) {p : Prog α}
    (hp : AllOps P p) :
    ∀ tr : List Op, (∀ op ∈ tr, P op) → ∀ op ∈ (p.run env tr).trace, P op := by
  induction hp with
  | ret a => intro tr htr; simpa [run_ret] using htr
  | abort => intro tr htr; simpa [run_abort] using htr
  | call op k hop _ ih =>
      intro tr htr
      rw [run_call]
      apply ih
      intro o ho
      rcases List.mem_append.mp ho with h | h
      · exact htr o h
      · rw [List.mem_singleton.mp h]; exact hop

/-- A program that issues no operation satisfying `f` leaves the `f`-part of
the trace as it was. -/
theorem AllOps.filter_run {α : Type} (f : Op → Bool) (env : Env) {p : Prog α}
    (hp : AllOps (fun op => f op = false) p) :
    ∀ tr : List Op, ((p.run env tr).trace).filter f = tr.filter f := by
  induction hp with
  | ret a => intro tr; simp [run_ret]
  | abort => intro tr; simp [run_abort]
  | call op k hop _ ih =>
      intro tr
      rw [run_call, ih]
      simp [List.filter_append, hop]

theorem allOps_sendLoop {α : Type} {P : Op → Prop} (data nl : Nat → Int) (rank : Int)
    (seg q : Nat) (k : Prog α) (hk : AllOps P k) :
    ∀ count i, (∀ j, i ≤ j → j < i + count → P (notifyAt data nl rank seg q j)) →
      AllOps P (sendLoop data nl rank seg q k count i) := by
  intro count
  induction count with
  | zero => intro i _; exact hk
  | succ c ih =>
      intro i h
      unfold sendLoop
      refine AllOps.die _ _ (h i (le_refl i) (by omega)) ?_
      intro _
      exact ih (i + 1) (fun j h1 h2 => h j (by omega) (by omega))

theorem allOps_recvLoop {α σ : Type} {P : Op → Prop} (nl : Nat → Int) (seg : Nat)
    (store : Nat → Nat → σ → σ) (k : σ → Prog α) (hk : ∀ s, AllOps P (k s))
    (hw : ∀ first num, P (Op.gaspi_notify_waitsome seg first num))
    (hr : ∀ id, P (Op.gaspi_notify_reset seg id)) :
    ∀ count i s, AllOps P (recvLoop nl seg store k count i s) := by
  intro count
  induction count with
  | zero => intro i s; exact hk s
  | succ c ih =>
      intro i s
      unfold recvLoop
      refine AllOps.die _ _ (hw _ _) ?_
      intro notifyID
      refine AllOps.die _ _ (hr _) ?_
      intro notifyValue
      exact ih _ _

/-- The part of an exchange after the send loop issues no notify. -/
theorem recvLoop_no_notify {σ : Type} (nl : Nat → Int) (seg : Nat)
    (store : Nat → Nat → σ → σ) (count i : Nat) (s : σ) :
    AllOps (fun op => op.isNotify = false)
      (recvLoop nl seg store
        (fun s1 => SUCCESS_OR_DIE Op.gaspi_barrier fun _ => Prog.ret s1) count i s) := by
  apply allOps_recvLoop
  · intro s1
    exact AllOps.die _ _ rfl (fun _ => AllOps.ret _)
  · intro _ _; rfl
  · intro _; rfl

/-- Every operation of an exchange is a primitive call under
`SUCCESS_OR_DIE`. -/
theorem guarded_sendLoop {α : Type} (data nl : Nat → Int) (rank : Int)
    (seg q : Nat) (k : Prog α) (hk : Guarded k) :
    ∀ count i, Guarded (sendLoop data nl rank seg q k count i) := by
  intro count
  induction count with
  | zero => intro i; exact hk
  | succ c ih =>
      intro i
      unfold sendLoop
      exact Guarded.prim _ _ (fun _ => ih (i + 1))

theorem guarded_recvLoop {α σ : Type} (nl : Nat → Int) (seg : Nat)
    (store : Nat → Nat → σ → σ) (k : σ → Prog α) (hk : ∀ s, Guarded (k s)) :
    ∀ count i s, Guarded (recvLoop nl seg store k count i s) := by
  intro count
  induction count with
  | zero => intro i s; exact hk s
  | succ c ih =>
      intro i s
      unfold recvLoop
      exact Guarded.prim _ _ (fun _ => Guarded.prim _ _ (fun _ => ih _ _))

theorem guarded_exchange {σ : Type} (data nl : Nat → Int) (nbIntf rank : Int)
    (seg q : Nat) (store : Nat → Nat → σ → σ) (s : σ) :
    Guarded (exchange data nl nbIntf rank seg q store s) := by
  unfold exchange
  apply guarded_sendLoop
  apply guarded_recvLoop
  intro s1
  exact Guarded.prim _ _ (fun _ => Guarded.ret _)

theorem guarded_finalize (p : Nat) (nbBlocks rank : Int) (s1 s2 s3 s4 q : Nat) :
    Guarded (GASPI_finalize p nbBlocks rank s1 s2 s3 s4 q) := by
  unfold GASPI_finalize
  split
  · exact Guarded.ret _
  · refine Guarded.mem _ _ rfl (fun _ _ => ?_)
    repeat (refine Guarded.prim _ _ (fun _ => ?_))
    exact Guarded.ret _

theorem guarded_wait_for_queue_half_full (q : Nat) :
    Guarded (GASPI_wait_for_queue_half_full q) := by
  unfold GASPI_wait_for_queue_half_full
  refine Guarded.prim _ _ (fun _ => Guarded.prim _ _ (fun _ => ?_))
  split
  · exact Guarded.prim _ _ (fun _ => Guarded.ret _)
  · exact Guarded.ret _

theorem guarded_max_nb_communications (nbDCcomm : Nat → Int)
    (globalMax nbIntf nbBlocks rank : Int) :
    Guarded (GASPI_max_nb_communications nbDCcomm globalMax nbIntf nbBlocks rank) := by
  unfold GASPI_max_nb_communications
  split
  · exact Guarded.ret _
  · exact Guarded.prim _ _ (fun _ => Guarded.ret _)

theorem guarded_init (o : InitOutputs) (nbIntf nbIntfNodes nbBlocks rank operatorDim : Int) :
    Guarded (GASPI_init o nbIntf nbIntfNodes nbBlocks rank operatorDim) := by
  unfold GASPI_init
  split
  · exact Guarded.ret _
  · split
    · exact Guarded.abort
    · refine Guarded.mem _ _ rfl (fun _ _ => ?_)
      repeat (refine Guarded.prim _ _ (fun _ => ?_))
      exact Guarded.ret _

theorem getElem?_after (tr l : List Op) (op : Op) :
    (tr ++ [op] ++ l)[tr.length]? = some op := by
  rw [List.append_assoc, List.getElem?_append_right (le_refl _)]
  simp

/-- Fail-fast for a guarded program: a failing primitive call is the last
operation of the run and the run ends in abort. -/
theorem Guarded.aborts_at_failure {α : Type} (env : Env) {p : Prog α} (hp : Guarded p) :
    ∀ (tr : List Op) (j : Nat) (op : Op), tr.length ≤ j →
      (p.run env tr).trace[j]? = some op → op.isPrimitive = true →
      (env j op).rc ≠ ReturnCode.GASPI_SUCCESS →
      (p.run env tr).outcome = Outcome.aborted ∧ (p.run env tr).trace.length = j + 1 := by
  induction hp with
  | ret a =>
      intro tr j op hj hget _ _
      rw [run_ret] at hget
      simp [List.getElem?_eq_none hj] at hget
  | abort =>
      intro tr j op hj hget _ _
      rw [run_abort] at hget
      simp [List.getElem?_eq_none hj] at hget
  | prim op0 k _ ih =>
      intro tr j op hj hget hprim hfail
      rw [run_die] at hget ⊢
      by_cases hs : (env tr.length op0).rc = ReturnCode.GASPI_SUCCESS
      · rw [if_pos hs] at hget ⊢
        rcases Nat.eq_or_lt_of_le hj with h | h
        · exfalso
          obtain ⟨l, hl⟩ := run_trace_extends env (k (env tr.length op0).out) (tr ++ [op0])
          rw [hl, ← h, getElem?_after] at hget
          rw [← h, ← Option.some.inj hget] at hfail
          exact hfail hs
        · exact ih _ (tr ++ [op0]) j op (by simp; omega) hget hprim hfail
      · rw [if_neg hs] at hget ⊢
        have hlt : j < (tr ++ [op0]).length := by
          by_contra hc
          simp [List.getElem?_eq_none (not_lt.mp hc)] at hget
        simp at hlt
        refine ⟨rfl, ?_⟩
        simp
        omega
  | mem op0 k hmem _ ih =>
      intro tr j op hj hget hprim hfail
      rw [run_call] at hget ⊢
      rcases Nat.eq_or_lt_of_le hj with h | h
      · exfalso
        obtain ⟨l, hl⟩ := run_trace_extends env
          (k (env tr.length op0).rc (env tr.length op0).out) (tr ++ [op0])
        rw [hl, ← h, getElem?_after] at hget
        rw [← Option.some.inj hget, hmem] at hprim
        exact Bool.false_ne_true hprim
      · exact ih _ _ (tr ++ [op0]) j op (by simp; omega) hget hprim hfail

end MiniFEM
namespace MiniFEM

/-! ## Claims about one rank -/

/-- C2: with fewer than two ranks (`nbBlocks < 2`) each of `GASPI_init`,
`GASPI_offset_exchange`, `GASPI_nb_notifications_exchange`,
`GASPI_max_nb_communications` and `GASPI_finalize` performs no operation at all
(no primitive, no allocation, no release) and returns with every output equal
to its value before the call. -/
theorem single_rank_is_noop (env : Env) (nbBlocks : Int) (h : nbBlocks < 2)
    (o : InitOutputs) (intfDestIndex intfIndex neighborsList nbDCcomm : Nat → Int)
    (nbNotifications globalMax nbIntf nbIntfNodes rank operatorDim : Int)
    (p s1 s2 s3 s4 seg queueID : Nat) :
    (GASPI_init o nbIntf nbIntfNodes nbBlocks rank operatorDim).run env []
        = ⟨[], Outcome.returned o⟩
    ∧ (GASPI_offset_exchange intfDestIndex intfIndex neighborsList nbIntf nbBlocks rank
        seg queueID).run env [] = ⟨[], Outcome.returned intfDestIndex⟩
    ∧ (GASPI_nb_notifications_exchange neighborsList nbDCcomm nbNotifications nbIntf
        nbBlocks rank seg queueID).run env [] = ⟨[], Outcome.returned nbNotifications⟩
    ∧ (GASPI_max_nb_communications nbDCcomm globalMax nbIntf nbBlocks rank).run env []
        = ⟨[], Outcome.returned globalMax⟩
    ∧ (GASPI_finalize p nbBlocks rank s1 s2 s3 s4 queueID).run env []
        = ⟨[], Outcome.returned ()⟩ := by
  refine ⟨?_, ?_, ?_, ?_, ?_⟩
  · simp [GASPI_init, h, run_ret]
  · simp [GASPI_offset_exchange, h, run_ret]
  · simp [GASPI_nb_notifications_exchange, h, run_ret]
  · simp [GASPI_max_nb_communications, h, run_ret]
  · simp [GASPI_finalize, h, run_ret]

/-- Witness of C2: one rank, an environment in which every operation would
fail. -/
theorem single_rank_is_noop_witness :
    (1 : Int) < 2
    ∧ ((GASPI_init ⟨0, 0, 0, 0, 0, 7, 7, 7, 7, 7⟩ 3 10 1 0 9).run (envFailAt 0) []
        = ⟨[], Outcome.returned ⟨0, 0, 0, 0, 0, 7, 7, 7, 7, 7⟩⟩
    ∧ (GASPI_offset_exchange (fun _ => 0) (fun _ => 5) (fun _ => 2) 3 1 0
        4 0).run (envFailAt 0) [] = ⟨[], Outcome.returned (fun _ => 0)⟩
    ∧ (GASPI_nb_notifications_exchange (fun _ => 2) (fun _ => 1) 11 3
        1 0 4 0).run (envFailAt 0) [] = ⟨[], Outcome.returned 11⟩
    ∧ (GASPI_max_nb_communications (fun _ => 1) 13 3 1 0).run (envFailAt 0) []
        = ⟨[], Outcome.returned 13⟩
    ∧ (GASPI_finalize 0 1 0 0 1 3 4 0).run (envFailAt 0) []
        = ⟨[], Outcome.returned ()⟩) :=
  ⟨by decide,
   single_rank_is_noop (envFailAt 0) 1 (by decide) ⟨0, 0, 0, 0, 0, 7, 7, 7, 7, 7⟩
     (fun _ => 0) (fun _ => 5) (fun _ => 2) (fun _ => 1) 11 13 3 10 0 9 0 0 1 3 4 4 0⟩

/-- Decoding the value sent for a non-negative `int` gives it back. -/
theorem decode_payload (o : Int) (h0 : 0 ≤ o) (h1 : o < 2147483648) :
    toInt (usub1 (toUInt (wrapInt (o + 1)))) = o := by
  unfold toInt usub1 toUInt wrapInt
  omega

theorem payload_ne_zero (x : Int) (h0 : 0 ≤ x) (h1 : x < 2147483648) :
    toUInt (wrapInt (x + 1)) ≠ 0 := by
  unfold toUInt wrapInt
  omega

/-- Every notify of an exchange with non-negative `int` data carries a
non-zero value, in every environment. -/
theorem exchange_payload_ne_zero {σ : Type} (env : Env) (data nl : Nat → Int)
    (nbIntf rank : Int) (seg q : Nat) (store : Nat → Nat → σ → σ) (s : σ)
    (hdata : ∀ i : Nat, (i : Int) < nbIntf → 0 ≤ data i ∧ data i < 2147483648) :
    ∀ op ∈ ((exchange data nl nbIntf rank seg q store s).run env []).trace,
      ∀ sg t id v qq, op = Op.gaspi_notify sg t id v qq → v ≠ 0 := by
  refine AllOps.run_trace (P := fun op => ∀ sg t id v qq,
    op = Op.gaspi_notify sg t id v qq → v ≠ 0) env ?_ [] ?_
  · unfold exchange
    apply allOps_sendLoop
    · apply allOps_recvLoop
      · intro s1
        exact AllOps.die _ _ (by intro _ _ _ _ _ h; cases h)
          (fun _ => AllOps.ret _)
      · intro _ _ _ _ _ _ _ h; cases h
      · intro _ _ _ _ _ _ h; cases h
    · intro j _ hj sg t id v qq h
      unfold notifyAt at h
      injection h with _ _ _ hv _
      rw [← hv]
      have hjn : (j : Int) < nbIntf := by omega
      exact payload_ne_zero _ (hdata j hjn).1 (hdata j hjn).2
  · intro op hop
    cases hop

/-- C4: sentinel invariant.  With at least two ranks and every per-interface
input (local offset, respectively communication count) a non-negative `int`,
every value passed to `gaspi_notify` by `GASPI_offset_exchange` and by
`GASPI_nb_notifications_exchange` differs from the reserved value 0, whatever
the environment answers. -/
theorem notify_payload_never_sentinel (env : Env) (data neighborsList intfDestIndex : Nat → Int)
    (nbNotifications nbIntf nbBlocks rank : Int) (seg queueID : Nat)
    (h2 : 2 ≤ nbBlocks)
    (hdata : ∀ i : Nat, (i : Int) < nbIntf → 0 ≤ data i ∧ data i < 2147483648) :
    (∀ op ∈ ((GASPI_offset_exchange intfDestIndex data neighborsList nbIntf nbBlocks rank
          seg queueID).run env []).trace,
        ∀ sg t id v qq, op = Op.gaspi_notify sg t id v qq → v ≠ 0)
    ∧ (∀ op ∈ ((GASPI_nb_notifications_exchange neighborsList data nbNotifications nbIntf
          nbBlocks rank seg queueID).run env []).trace,
        ∀ sg t id v qq, op = Op.gaspi_notify sg t id v qq → v ≠ 0) := by
  constructor
  · rw [GASPI_offset_exchange, if_neg (not_lt.mpr h2)]
    exact exchange_payload_ne_zero env data neighborsList nbIntf rank seg queueID _ _ hdata
  · rw [GASPI_nb_notifications_exchange, if_neg (not_lt.mpr h2)]
    exact exchange_payload_ne_zero env data neighborsList nbIntf rank seg queueID _ _ hdata

/-- Witness of C4: two ranks, one interface with local offset 0 (the logical
value that would collide with the sentinel without the bias). -/
theorem notify_payload_never_sentinel_witness :
    (2 : Int) ≤ 2
    ∧ (∀ i : Nat, (i : Int) < 1 →
        0 ≤ (fun _ : Nat => (0 : Int)) i ∧ (fun _ : Nat => (0 : Int)) i < 2147483648)
    ∧ ((∀ op ∈ ((GASPI_offset_exchange (fun _ => 0) (fun _ => 0) (fun _ => 2) 1 2 0
          4 0).run envOk []).trace,
        ∀ sg t id v qq, op = Op.gaspi_notify sg t id v qq → v ≠ 0)
      ∧ (∀ op ∈ ((GASPI_nb_notifications_exchange (fun _ => 2) (fun _ => 0) 0 1
          2 0 4 0).run envOk []).trace,
        ∀ sg t id v qq, op = Op.gaspi_notify sg t id v qq → v ≠ 0)) :=
  ⟨by decide, fun _ _ => ⟨le_refl _, by norm_num⟩,
   notify_payload_never_sentinel envOk (fun _ => 0) (fun _ => 2) (fun _ => 0) 0 1 2 0 4 0
     (by decide) (fun _ _ => ⟨le_refl _, by norm_num⟩)⟩

/-- C5: teardown ordering.  With at least two ranks and every primitive
succeeding, `GASPI_finalize` releases the destination offset array and then
invokes exactly: the drain of the given queue, the barrier, one destroy of
each of the four segment ids passed in (source data, destination data, source
offset, destination offset), the termination of the runtime.  Hence at every
segment destroy the queue, drained and not posted to since, is empty. -/
theorem finalize_order (env : Env) (intfDestIndex : Nat) (nbBlocks rank : Int)
    (srcDataSegmentID destDataSegmentID srcOffsetSegmentID destOffsetSegmentID : Nat)
    (queueID : Nat) (h2 : 2 ≤ nbBlocks)
    (hok : ∀ k op, (env k op).rc = ReturnCode.GASPI_SUCCESS) :
    let R := (GASPI_finalize intfDestIndex nbBlocks rank srcDataSegmentID destDataSegmentID
      srcOffsetSegmentID destOffsetSegmentID queueID).run env []
    R.outcome = Outcome.returned ()
    ∧ R.trace.filter Op.isPrimitive
        = [Op.gaspi_wait queueID, Op.gaspi_barrier,
           Op.gaspi_segment_delete srcDataSegmentID,
           Op.gaspi_segment_delete destDataSegmentID,
           Op.gaspi_segment_delete srcOffsetSegmentID,
           Op.gaspi_segment_delete destOffsetSegmentID,
           Op.gaspi_proc_term]
    ∧ R.trace = Op.delete_array intfDestIndex :: R.trace.filter Op.isPrimitive
    ∧ (∀ (k : Nat) (op : Op) (occ : Nat), R.trace[k]? = some op → op.isSegmentDelete = true →
        Op.gaspi_wait queueID ∈ R.trace.take k ∧ Op.gaspi_barrier ∈ R.trace.take k
        ∧ queueOccupancy queueID occ (R.trace.take k) = 0) := by
  have htr : ((GASPI_finalize intfDestIndex nbBlocks rank srcDataSegmentID destDataSegmentID
      srcOffsetSegmentID destOffsetSegmentID queueID).run env [])
      = ⟨[Op.delete_array intfDestIndex, Op.gaspi_wait queueID, Op.gaspi_barrier,
           Op.gaspi_segment_delete srcDataSegmentID,
           Op.gaspi_segment_delete destDataSegmentID,
           Op.gaspi_segment_delete srcOffsetSegmentID,
           Op.gaspi_segment_delete destOffsetSegmentID,
           Op.gaspi_proc_term], Outcome.returned ()⟩ := by
    simp [GASPI_finalize, not_lt.mpr h2, run_ret, run_die, run_call, hok]
  intro R
  have hR : R = _ := htr
  rw [hR]
  refine ⟨rfl, by simp [Op.isPrimitive], by simp [Op.isPrimitive], ?_⟩
  intro k op occ hk hdel
  have hlt : k < 8 := by
    by_contra hc
    simp [List.getElem?_eq_none (l := [Op.delete_array intfDestIndex, Op.gaspi_wait queueID,
      Op.gaspi_barrier, Op.gaspi_segment_delete srcDataSegmentID,
      Op.gaspi_segment_delete destDataSegmentID, Op.gaspi_segment_delete srcOffsetSegmentID,
      Op.gaspi_segment_delete destOffsetSegmentID, Op.gaspi_proc_term]) (not_lt.mp hc)] at hk
  interval_cases k <;> simp at hk <;> subst hk <;>
    simp [Op.isSegmentDelete] at hdel <;> simp [queueOccupancy]

/-- Witness of C5. -/
theorem finalize_order_witness :
    (2 : Int) ≤ 2 ∧ (∀ k op, (envOk k op).rc = ReturnCode.GASPI_SUCCESS)
    ∧ (let R := (GASPI_finalize 64 2 0 0 1 3 4 0).run envOk []
       R.outcome = Outcome.returned ()
       ∧ R.trace.filter Op.isPrimitive
          = [Op.gaspi_wait 0, Op.gaspi_barrier, Op.gaspi_segment_delete 0,
             Op.gaspi_segment_delete 1, Op.gaspi_segment_delete 3,
             Op.gaspi_segment_delete 4, Op.gaspi_proc_term]
       ∧ R.trace = Op.delete_array 64 :: R.trace.filter Op.isPrimitive
       ∧ (∀ (k : Nat) (op : Op) (occ : Nat), R.trace[k]? = some op →
          op.isSegmentDelete = true →
          Op.gaspi_wait 0 ∈ R.trace.take k ∧ Op.gaspi_barrier ∈ R.trace.take k
          ∧ queueOccupancy 0 occ (R.trace.take k) = 0)) :=
  ⟨by decide, fun _ _ => rfl,
   finalize_order envOk 64 2 0 0 1 3 4 0 (by decide) (fun _ _ => rfl)⟩

/-- C6: queue flow control.  When the queue primitives report capacity `C` and
occupancy `n`, `GASPI_wait_for_queue_half_full` invokes the blocking drain of
the queue exactly once if `n ≥ C/2` (the integer quotient of the code) and
returns without invoking it if `n < C/2`. -/
theorem queue_flow_control (env : Env) (queueID C n : Nat)
    (hC : env 0 Op.gaspi_queue_size_max = ⟨ReturnCode.GASPI_SUCCESS, C⟩)
    (hn : env 1 (Op.gaspi_queue_size queueID) = ⟨ReturnCode.GASPI_SUCCESS, n⟩) :
    let R := (GASPI_wait_for_queue_half_full queueID).run env []
    (C / 2 ≤ n →
        R.trace = [Op.gaspi_queue_size_max, Op.gaspi_queue_size queueID,
                   Op.gaspi_wait queueID]
        ∧ ((env 2 (Op.gaspi_wait queueID)).rc = ReturnCode.GASPI_SUCCESS →
            R.outcome = Outcome.returned ()))
    ∧ (n < C / 2 →
        R.trace = [Op.gaspi_queue_size_max, Op.gaspi_queue_size queueID]
        ∧ R.outcome = Outcome.returned ()) := by
  intro R
  constructor
  · intro h
    have hR : R = if (env 2 (Op.gaspi_wait queueID)).rc = ReturnCode.GASPI_SUCCESS
        then ⟨[Op.gaspi_queue_size_max, Op.gaspi_queue_size queueID,
                Op.gaspi_wait queueID], Outcome.returned ()⟩
        else ⟨[Op.gaspi_queue_size_max, Op.gaspi_queue_size queueID,
                Op.gaspi_wait queueID], Outcome.aborted⟩ := by
      simp [R, GASPI_wait_for_queue_half_full, run_die, run_ret, hC, hn, h]
    rw [hR]
    constructor
    · split <;> rfl
    · intro hs
      rw [if_pos hs]
  · intro h
    have hR : R = ⟨[Op.gaspi_queue_size_max, Op.gaspi_queue_size queueID],
        Outcome.returned ()⟩ := by
      simp [R, GASPI_wait_for_queue_half_full, run_die, run_ret, hC, hn, not_le.mpr h]
    rw [hR]
    exact ⟨rfl, rfl⟩

/-- Witness of C6: capacity 1024, occupancy 512. -/
theorem queue_flow_control_witness :
    envQueue 1024 512 0 Op.gaspi_queue_size_max = ⟨ReturnCode.GASPI_SUCCESS, 1024⟩
    ∧ envQueue 1024 512 1 (Op.gaspi_queue_size 0) = ⟨ReturnCode.GASPI_SUCCESS, 512⟩
    ∧ (let R := (GASPI_wait_for_queue_half_full 0).run (envQueue 1024 512) []
      (1024 / 2 ≤ 512 →
          R.trace = [Op.gaspi_queue_size_max, Op.gaspi_queue_size 0, Op.gaspi_wait 0]
          ∧ ((envQueue 1024 512 2 (Op.gaspi_wait 0)).rc = ReturnCode.GASPI_SUCCESS →
              R.outcome = Outcome.returned ()))
      ∧ (512 < 1024 / 2 →
          R.trace = [Op.gaspi_queue_size_max, Op.gaspi_queue_size 0]
          ∧ R.outcome = Outcome.returned ())) :=
  ⟨rfl, rfl, queue_flow_control (envQueue 1024 512) 0 1024 512 rfl rfl⟩

end MiniFEM
namespace MiniFEM

theorem guarded_entry (c : EntryCall) :
    ∃ (α : Type) (p : Prog α), Guarded p ∧ ∀ env, c.run env = (p.run env []).summary := by
  cases c with
  | finalize p nbBlocks rank s1 s2 s3 s4 q =>
      exact ⟨_, _, guarded_finalize p nbBlocks rank s1 s2 s3 s4 q, fun _ => rfl⟩
  | wait_for_queue_half_full q =>
      exact ⟨_, _, guarded_wait_for_queue_half_full q, fun _ => rfl⟩
  | max_nb_communications nbDCcomm globalMax nbIntf nbBlocks rank =>
      exact ⟨_, _, guarded_max_nb_communications nbDCcomm globalMax nbIntf nbBlocks rank,
        fun _ => rfl⟩
  | nb_notifications_exchange nl nbDCcomm total nbIntf nbBlocks rank seg q =>
      refine ⟨_, GASPI_nb_notifications_exchange nl nbDCcomm total nbIntf nbBlocks rank seg q,
        ?_, fun _ => rfl⟩
      unfold GASPI_nb_notifications_exchange
      split
      · exact Guarded.ret _
      · exact guarded_exchange _ _ _ _ _ _ _ _
  | offset_exchange tbl intfIndex nl nbIntf nbBlocks rank seg q =>
      refine ⟨_, GASPI_offset_exchange tbl intfIndex nl nbIntf nbBlocks rank seg q,
        ?_, fun _ => rfl⟩
      unfold GASPI_offset_exchange
      split
      · exact Guarded.ret _
      · exact guarded_exchange _ _ _ _ _ _ _ _
  | init o nbIntf nbIntfNodes nbBlocks rank operatorDim =>
      exact ⟨_, _, guarded_init o nbIntf nbIntfNodes nbBlocks rank operatorDim, fun _ => rfl⟩

theorem summary_fst {α : Type} (R : Run α) : R.summary.1 = R.trace := rfl

theorem summary_snd_false {α : Type} (R : Run α) (h : R.outcome = Outcome.aborted) :
    R.summary.2 = false := by
  unfold Run.summary
  rw [h]

/-- C8: fail-fast.  In a run of any of the six functions of the handler, in
any environment, if the primitive call issued as operation number `k` reports
anything but success, then the run ends in abort and that call is its last
operation (it is not retried and nothing is invoked after it); so a run that
returns normally has had every primitive call succeed. -/
theorem fail_fast (c : EntryCall) (env : Env) :
    (∀ (k : Nat) (op : Op), (c.run env).1[k]? = some op → op.isPrimitive = true →
        (env k op).rc ≠ ReturnCode.GASPI_SUCCESS →
        (c.run env).2 = false ∧ (c.run env).1.length = k + 1)
    ∧ ((c.run env).2 = true →
        ∀ (k : Nat) (op : Op), (c.run env).1[k]? = some op → op.isPrimitive = true →
          (env k op).rc = ReturnCode.GASPI_SUCCESS) := by
  obtain ⟨α, p, hp, hrun⟩ := guarded_entry c
  have key : ∀ (k : Nat) (op : Op), (c.run env).1[k]? = some op → op.isPrimitive = true →
      (env k op).rc ≠ ReturnCode.GASPI_SUCCESS →
      (c.run env).2 = false ∧ (c.run env).1.length = k + 1 := by
    intro k op hk hprim hfail
    rw [hrun env, summary_fst] at hk ⊢
    obtain ⟨h1, h2⟩ := hp.aborts_at_failure env [] k op (Nat.zero_le _) hk hprim hfail
    exact ⟨summary_snd_false _ h1, h2⟩
  refine ⟨key, ?_⟩
  intro hret k op hk hprim
  by_contra hfail
  rw [(key k op hk hprim hfail).1] at hret
  exact Bool.false_ne_true hret

/-- Witness of C8: `GASPI_finalize` on two ranks when the first segment
destroy (operation 3) fails. -/
theorem fail_fast_witness :
    ((EntryCall.finalize 64 2 0 0 1 3 4 0).run (envFailAt 3)).1[3]?
        = some (Op.gaspi_segment_delete 0)
    ∧ (Op.gaspi_segment_delete 0).isPrimitive = true
    ∧ (envFailAt 3 3 (Op.gaspi_segment_delete 0)).rc ≠ ReturnCode.GASPI_SUCCESS
    ∧ ((EntryCall.finalize 64 2 0 0 1 3 4 0).run (envFailAt 3)).2 = false
    ∧ ((EntryCall.finalize 64 2 0 0 1 3 4 0).run (envFailAt 3)).1.length = 3 + 1 :=
  ⟨rfl, rfl, by decide,
   (fail_fast (EntryCall.finalize 64 2 0 0 1 3 4 0) (envFailAt 3)).1 3
     (Op.gaspi_segment_delete 0) rfl rfl (by decide)⟩

/-- C9 (the code at the failing input): with 238609295 interface nodes and a
tensor operator of dimension 9 the `int` product `nbIntfNodes * operatorDim`
leaves the `int` range; the two data segments are created with size
18446744056529682488 and not with 238609295 × 9 × 8 = 17179869240 bytes; the
offset segments, whose size is computed in `gaspi_size_t`, get 238609295 × 4
bytes. -/
theorem init_data_region_size_overflow :
    ((GASPI_init ⟨0, 0, 0, 0, 0, 0, 0, 0, 0, 0⟩ 1 238609295 2 0 9).run envOk []).trace.filter
        Op.isCreate
      = [Op.gaspi_segment_create 0 18446744056529682488,
         Op.gaspi_segment_create 1 18446744056529682488,
         Op.gaspi_segment_create 3 (238609295 * 4),
         Op.gaspi_segment_create 4 (238609295 * 4)]
    ∧ (18446744056529682488 : Nat) ≠ 238609295 * 9 * 8
    ∧ ¬ ((238609295 : Int) * 9 < 2147483648) := by
  refine ⟨by rfl, by decide, by decide⟩

theorem dataSegmentSize_in_range (nbIntfNodes operatorDim : Int)
    (h0 : 0 ≤ nbIntfNodes * operatorDim) (h1 : nbIntfNodes * operatorDim < 2147483648) :
    (dataSegmentSize nbIntfNodes operatorDim : Int) = nbIntfNodes * operatorDim * 8 := by
  unfold dataSegmentSize toSize wrapInt
  generalize nbIntfNodes * operatorDim = x at h0 h1
  omega

theorem offsetSegmentSize_in_range (nbIntfNodes : Int)
    (h0 : 0 ≤ nbIntfNodes) (h1 : nbIntfNodes < 2147483648) :
    (offsetSegmentSize nbIntfNodes : Int) = nbIntfNodes * 4 := by
  unfold offsetSegmentSize toSize
  omega

/-- Region creation when the `int` product does not overflow: with at least
two ranks, every primitive succeeding, non-negative `int` arguments and
`nbIntfNodes * operatorDim` within the `int` range, `GASPI_init` issues exactly
four segment creations, with the distinct ids 0, 1, 3, 4, the data segments of
`nbIntfNodes × operatorDim × 8` bytes and the offset segments of
`nbIntfNodes × 4` bytes, whatever `rank`, the outputs on entry and the number
`nbIntf ≥ 0` of interfaces. -/
theorem init_region_creation_in_range (env : Env) (o : InitOutputs)
    (nbIntf nbIntfNodes nbBlocks rank operatorDim : Int) (h2 : 2 ≤ nbBlocks)
    (hi : 0 ≤ nbIntf)
    (hok : ∀ k op, (env k op).rc = ReturnCode.GASPI_SUCCESS)
    (hn : 0 ≤ nbIntfNodes) (hd : 0 ≤ operatorDim)
    (hprod : nbIntfNodes * operatorDim < 2147483648) (hn1 : nbIntfNodes < 2147483648) :
    ∃ dataSize offsetSize : Nat,
      (dataSize : Int) = nbIntfNodes * operatorDim * 8
      ∧ (offsetSize : Int) = nbIntfNodes * 4
      ∧ ((GASPI_init o nbIntf nbIntfNodes nbBlocks rank operatorDim).run env []).trace.filter
          Op.isCreate
        = [Op.gaspi_segment_create 0 dataSize, Op.gaspi_segment_create 1 dataSize,
           Op.gaspi_segment_create 3 offsetSize, Op.gaspi_segment_create 4 offsetSize] := by
  refine ⟨dataSegmentSize nbIntfNodes operatorDim, offsetSegmentSize nbIntfNodes,
    dataSegmentSize_in_range _ _ (mul_nonneg hn hd) hprod,
    offsetSegmentSize_in_range _ hn hn1, ?_⟩
  simp [GASPI_init, not_lt.mpr h2, not_lt.mpr hi, run_ret, run_die, run_call, hok,
    Op.isCreate]

/-- The notifies of a run of the send loop are the notifies of the interfaces
`i, i+1, ...` in order: all `count` of them when every call succeeds, fewer
when one of them fails. -/
theorem sendLoop_notifies {α : Type} (env : Env) (data nl : Nat → Int) (rank : Int)
    (seg q : Nat) (k : Prog α) (hk : AllOps (fun op => op.isNotify = false) k) :
    ∀ (count i : Nat) (tr : List Op), ∃ c, c ≤ count
      ∧ ((sendLoop data nl rank seg q k count i).run env tr).trace.filter Op.isNotify
          = tr.filter Op.isNotify ++ (List.range' i c).map (notifyAt data nl rank seg q)
      ∧ ((∀ j op, (env j op).rc = ReturnCode.GASPI_SUCCESS) → c = count) := by
  intro count
  induction count with
  | zero =>
      intro i tr
      refine ⟨0, le_refl _, ?_, fun _ => rfl⟩
      simp [sendLoop, hk.filter_run Op.isNotify env tr]
  | succ n ih =>
      intro i tr
      unfold sendLoop
      rw [run_die]
      by_cases hs : (env tr.length (Op.gaspi_notify seg (wrapInt (nl i - 1)) rank
          (toUInt (wrapInt (data i + 1))) q)).rc = ReturnCode.GASPI_SUCCESS
      · rw [if_pos hs]
        obtain ⟨c, hc, htr, hall⟩ := ih (i + 1)
          (tr ++ [Op.gaspi_notify seg (wrapInt (nl i - 1)) rank
            (toUInt (wrapInt (data i + 1))) q])
        refine ⟨c + 1, by omega, ?_, fun h => by rw [hall h]⟩
        rw [htr, List.range'_succ]
        simp [List.filter_append, Op.isNotify, notifyAt]
      · rw [if_neg hs]
        refine ⟨1, by omega, ?_, fun h => absurd (h _ _) hs⟩
        simp [List.filter_append, Op.isNotify, notifyAt]

theorem exchange_notifies {σ : Type} (env : Env) (data nl : Nat → Int)
    (nbIntf rank : Int) (seg q : Nat) (store : Nat → Nat → σ → σ) (s : σ) :
    ∃ c, c ≤ nbIntf.toNat
      ∧ ((exchange data nl nbIntf rank seg q store s).run env []).trace.filter Op.isNotify
          = (List.range' 0 c).map (notifyAt data nl rank seg q)
      ∧ ((∀ j op, (env j op).rc = ReturnCode.GASPI_SUCCESS) → c = nbIntf.toNat) := by
  obtain ⟨c, hc, htr, hall⟩ := sendLoop_notifies env data nl rank seg q _
    (recvLoop_no_notify nl seg store nbIntf.toNat 0 s) nbIntf.toNat 0 []
  exact ⟨c, hc, by simpa [exchange] using htr, hall⟩

theorem wrapInt_sub_one (x : Int) (h0 : -2147483648 < x) (h1 : x < 2147483648) :
    wrapInt (x - 1) = x - 1 := by
  unfold wrapInt
  omega

/-- C10: notify addressing in the offset exchange.  With at least two ranks,
for every interface index `i` below `nbIntf` whose neighbour entry is an `int`
above the least one, the `i`-th notify that `GASPI_offset_exchange` issues (it
issues it when the calls before it succeeded) is on the destination offset
segment, addressed to the rank of the neighbour of interface `i`, which is
`neighborsList[i] - 1` (the entries number the domains from 1), tagged with the
caller's own rank as notification id, and carries `intfIndex[i] + 1` as the
unsigned 32-bit notification value, which is the number `intfIndex[i] + 1` for
every non-negative `int` offset. -/
theorem notify_addressing (env : Env) (intfDestIndex intfIndex neighborsList : Nat → Int)
    (nbIntf nbBlocks rank : Int) (seg queueID i : Nat) (h2 : 2 ≤ nbBlocks)
    (hi : (i : Int) < nbIntf)
    (hnl : -2147483648 < neighborsList i ∧ neighborsList i < 2147483648) :
    (∀ op, (((GASPI_offset_exchange intfDestIndex intfIndex neighborsList nbIntf nbBlocks
          rank seg queueID).run env []).trace.filter Op.isNotify)[i]? = some op →
        op = Op.gaspi_notify seg (neighborsList i - 1) rank
          (toUInt (wrapInt (intfIndex i + 1))) queueID)
    ∧ ((∀ j op, (env j op).rc = ReturnCode.GASPI_SUCCESS) →
        (((GASPI_offset_exchange intfDestIndex intfIndex neighborsList nbIntf nbBlocks
          rank seg queueID).run env []).trace.filter Op.isNotify)[i]?
        = some (Op.gaspi_notify seg (neighborsList i - 1) rank
            (toUInt (wrapInt (intfIndex i + 1))) queueID))
    ∧ (0 ≤ intfIndex i → intfIndex i < 2147483648 →
        ((toUInt (wrapInt (intfIndex i + 1)) : Nat) : Int) = intfIndex i + 1) := by
  rw [GASPI_offset_exchange, if_neg (not_lt.mpr h2)]
  obtain ⟨c, hc, htr, hall⟩ := exchange_notifies env intfIndex neighborsList nbIntf rank
    seg queueID storeDestIndex intfDestIndex
  have hat : notifyAt intfIndex neighborsList rank seg queueID i
      = Op.gaspi_notify seg (neighborsList i - 1) rank
          (toUInt (wrapInt (intfIndex i + 1))) queueID := by
    unfold notifyAt
    rw [wrapInt_sub_one _ hnl.1 hnl.2]
  rw [htr]
  refine ⟨?_, ?_, ?_⟩
  · intro op hop
    rw [List.getElem?_map] at hop
    by_cases hic : i < c
    · rw [List.getElem?_range' 0 1 hic] at hop
      simp at hop
      rw [← hop, hat]
    · rw [List.getElem?_eq_none (by simpa using hic)] at hop
      simp at hop
  · intro hok
    have hic : i < c := by rw [hall hok]; omega
    rw [List.getElem?_map, List.getElem?_range' 0 1 hic]
    simp [hat]
  · intro h0 h1
    unfold toUInt wrapInt
    omega

/-- Witness of C10: rank 0 of two ranks, one interface towards the domain
numbered 2, local offset 5. -/
theorem notify_addressing_witness :
    (2 : Int) ≤ 2 ∧ ((0 : Nat) : Int) < 1
    ∧ (-2147483648 < (fun _ : Nat => (2 : Int)) 0 ∧ (fun _ : Nat => (2 : Int)) 0 < 2147483648)
    ∧ ((∀ op, (((GASPI_offset_exchange (fun _ => 0) (fun _ => 5) (fun _ => 2) 1 2
          0 4 0).run envOk []).trace.filter Op.isNotify)[0]? = some op →
        op = Op.gaspi_notify 4 ((fun _ : Nat => (2 : Int)) 0 - 1) 0
          (toUInt (wrapInt ((fun _ : Nat => (5 : Int)) 0 + 1))) 0)
      ∧ ((∀ j op, (envOk j op).rc = ReturnCode.GASPI_SUCCESS) →
        (((GASPI_offset_exchange (fun _ => 0) (fun _ => 5) (fun _ => 2) 1 2
          0 4 0).run envOk []).trace.filter Op.isNotify)[0]?
        = some (Op.gaspi_notify 4 ((fun _ : Nat => (2 : Int)) 0 - 1) 0
            (toUInt (wrapInt ((fun _ : Nat => (5 : Int)) 0 + 1))) 0))
      ∧ (0 ≤ (fun _ : Nat => (5 : Int)) 0 → (fun _ : Nat => (5 : Int)) 0 < 2147483648 →
        ((toUInt (wrapInt ((fun _ : Nat => (5 : Int)) 0 + 1)) : Nat) : Int)
          = (fun _ : Nat => (5 : Int)) 0 + 1)) :=
  ⟨by decide, by decide, ⟨by decide, by decide⟩,
   notify_addressing envOk (fun _ => 0) (fun _ => 5) (fun _ => 2) 1 2 0 4 0 0
     (by decide) (by decide) ⟨by decide, by decide⟩⟩

end MiniFEM
namespace MiniFEM

/-! ## One exchange round on a group -/

theorem findFrom_eq (f : Nat → Int) (x : Int) :
    ∀ (count i j : Nat), i ≤ j → j < i + count → f j = x →
      (∀ j1, i ≤ j1 → j1 < j → f j1 ≠ x) → findFrom f x count i = j := by
  intro count
  induction count with
  | zero => intro i j h1 h2; omega
  | succ c ih =>
      intro i j h1 h2 hj hmin
      unfold findFrom
      by_cases hi : f i = x
      · rw [if_pos hi]
        by_contra hne
        exact hmin i (le_refl i) (by omega) hi
      · rw [if_neg hi]
        have hij : i ≠ j := fun h => hi (h ▸ hj)
        exact ih (i + 1) j (by omega) (by omega) hj
          (fun j1 h3 h4 => hmin j1 (by omega) h4)

theorem sum_range_change (f g : Nat → Nat) (r0 : Nat) :
    ∀ n, r0 < n → (∀ r, r ≠ r0 → g r = f r) →
      (∑ r ∈ Finset.range n, g r) + f r0 = (∑ r ∈ Finset.range n, f r) + g r0 := by
  intro n
  induction n with
  | zero => intro h; omega
  | succ k ih =>
      intro h hfg
      rw [Finset.sum_range_succ, Finset.sum_range_succ]
      by_cases hk : r0 < k
      · have h1 := ih hk hfg
        have hk2 : g k = f k := hfg k (by omega)
        omega
      · have hk2 : r0 = k := by omega
        subst hk2
        have hs : (∑ r ∈ Finset.range r0, g r) = ∑ r ∈ Finset.range r0, f r := by
          apply Finset.sum_congr rfl
          intro x hx
          exact hfg x (by have := Finset.mem_range.mp hx; omega)
        omega

namespace Round

variable {σ : Type} (G : Round σ)

theorem peer_spec (hwf : G.WellFormed) {r i : Nat} (hr : r < G.n) (hi : i < G.nbIntf r) :
    G.peer r i < G.n ∧ ((G.peer r i : Nat) : Int) = G.neighborsList r i - 1
      ∧ wrapInt (G.neighborsList r i - 1) = ((G.peer r i : Nat) : Int) := by
  have h := hwf.range r hr i hi
  have hn := hwf.n_lt
  unfold peer wrapInt
  omega

theorem peer_peer {q j r : Nat}
    (h : G.neighborsList q j = (r : Int) + 1) : G.peer q j = r := by
  unfold peer
  omega

theorem peerIndex_spec (hwf : G.WellFormed) {r i j : Nat} (hr : r < G.n)
    (hi : i < G.nbIntf r) (hj : j < G.nbIntf (G.peer r i))
    (h : G.neighborsList (G.peer r i) j = (r : Int) + 1) : G.peerIndex r i = j := by
  unfold peerIndex
  apply findFrom_eq _ _ _ 0 j (Nat.zero_le _) (by omega) h
  intro j1 _ hlt heq
  have := hwf.nodup (G.peer r i) (G.peer_spec hwf hr hi).1 j1 j (by omega) hj (heq.trans h.symm)
  omega

theorem message_value_ne_zero (hwf : G.WellFormed) {q j : Nat} (hq : q < G.n)
    (hj : j < G.nbIntf q) : G.payload q j ≠ 0 := by
  have h := hwf.data_nonneg q hq j hj
  exact MiniFEM.payload_ne_zero _ h.1 h.2

/-! ### The program at each position -/

theorem recvProg_last (r i : Nat) (s : σ) (h : G.nbIntf r ≤ i) :
    G.recvProg r i s = SUCCESS_OR_DIE Op.gaspi_barrier fun _ => Prog.ret s := by
  unfold recvProg
  rw [Nat.sub_eq_zero_of_le h]
  rfl

theorem recvProg_step (r i : Nat) (s : σ) (h : i < G.nbIntf r) :
    G.recvProg r i s
      = SUCCESS_OR_DIE (Op.gaspi_notify_waitsome G.seg
          (wrapInt (G.neighborsList r i - 1)) 1) fun notifyID =>
        SUCCESS_OR_DIE (Op.gaspi_notify_reset G.seg notifyID) fun notifyValue =>
        G.recvProg r (i + 1) (G.store i notifyValue s) := by
  unfold recvProg
  have : G.nbIntf r - i = (G.nbIntf r - (i + 1)) + 1 := by omega
  rw [this]
  rfl

theorem progAt_recvPos (r i : Nat) (h : i ≤ G.nbIntf r) :
    G.progAt r (G.recvPos r i) = G.recvProg r i (G.recvState r i) := by
  unfold recvPos
  by_cases hi : i < G.nbIntf r
  · rw [if_pos hi]
    rfl
  · rw [if_neg hi, G.recvProg_last r i _ (by omega)]
    have : i = G.nbIntf r := by omega
    rw [this]
    rfl

theorem progAt_sendPos (r i : Nat) (h : i ≤ G.nbIntf r) :
    G.progAt r (G.sendPos r i)
      = sendLoop (G.data r) (G.neighborsList r) r G.seg G.queue
          (G.recvProg r 0 (G.init r)) (G.nbIntf r - i) i := by
  unfold sendPos
  by_cases hi : i < G.nbIntf r
  · rw [if_pos hi]
    rfl
  · rw [if_neg hi, G.progAt_recvPos r 0 (Nat.zero_le _), Nat.sub_eq_zero_of_le (by omega)]
    rfl

theorem progAt_send (r i : Nat) (h : i < G.nbIntf r) :
    G.progAt r (Pos.send i)
      = SUCCESS_OR_DIE (Op.gaspi_notify G.seg (wrapInt (G.neighborsList r i - 1)) r
          (G.payload r i) G.queue) fun _ => G.progAt r (G.sendPos r (i + 1)) := by
  have h1 : G.nbIntf r - i = (G.nbIntf r - (i + 1)) + 1 := by omega
  have h2 : G.progAt r (Pos.send i)
      = sendLoop (G.data r) (G.neighborsList r) r G.seg G.queue
          (G.recvProg r 0 (G.init r)) ((G.nbIntf r - (i + 1)) + 1) i := by
    rw [← h1]
    rfl
  rw [h2, G.progAt_sendPos r (i + 1) (by omega)]
  rfl

theorem progAt_wait (r i : Nat) (h : i < G.nbIntf r) :
    G.progAt r (Pos.wait i)
      = SUCCESS_OR_DIE (Op.gaspi_notify_waitsome G.seg
          (wrapInt (G.neighborsList r i - 1)) 1) fun notifyID =>
        SUCCESS_OR_DIE (Op.gaspi_notify_reset G.seg notifyID) fun notifyValue =>
        G.recvProg r (i + 1) (G.store i notifyValue (G.recvState r i)) :=
  G.recvProg_step r i _ h

theorem progAt_after_reset (r i : Nat) (h : i < G.nbIntf r) :
    G.recvProg r (i + 1) (G.store i (G.expected r i) (G.recvState r i))
      = G.progAt r (G.recvPos r (i + 1)) := by
  rw [G.progAt_recvPos r (i + 1) (by omega)]
  rfl

theorem prog_eq (r : Nat) : G.prog r = G.progAt r (G.sendPos r 0) := by
  rw [G.progAt_sendPos r 0 (Nat.zero_le _)]
  unfold prog exchange recvProg
  simp

end Round

end MiniFEM
namespace MiniFEM

/-! ### Steps of a rank -/

theorem stepRank_notify {α : Type} (n : Nat) (w : World α) (r seg : Nat) (t id : Int)
    (v qq : Nat) (k : Nat → Prog α)
    (h : w.procs r = SUCCESS_OR_DIE (Op.gaspi_notify seg t id v qq) k)
    (h0 : 0 ≤ t) (h1 : t < n) (hv : v ≠ 0) :
    stepRank n w r
      = { w with procs := Function.update w.procs r (k 0),
                 inflight := w.inflight ++ [⟨t.toNat, seg, id, v⟩] } := by
  unfold stepRank
  rw [h]
  unfold SUCCESS_OR_DIE
  simp [h0, h1, hv]

theorem stepRank_waitsome {α : Type} (n : Nat) (w : World α) (r seg : Nat) (first : Int)
    (k : Nat → Prog α)
    (h : w.procs r = SUCCESS_OR_DIE (Op.gaspi_notify_waitsome seg first 1) k) :
    stepRank n w r
      = if w.slots (r, seg, first) ≠ 0
        then { w with procs := Function.update w.procs r (k first.toNat) }
        else w := by
  unfold stepRank
  rw [h]
  unfold SUCCESS_OR_DIE
  by_cases hs : w.slots (r, seg, first) = 0
  · simp [firstPending, hs]
  · simp [firstPending, hs]

theorem stepRank_reset {α : Type} (n : Nat) (w : World α) (r seg id : Nat)
    (k : Nat → Prog α)
    (h : w.procs r = SUCCESS_OR_DIE (Op.gaspi_notify_reset seg id) k) :
    stepRank n w r
      = { w with procs := Function.update w.procs r (k (w.slots (r, seg, (id : Int)))),
                 slots := Function.update w.slots (r, seg, (id : Int)) 0 } := by
  unfold stepRank
  rw [h]
  unfold SUCCESS_OR_DIE
  simp

theorem stepRank_barrier {α : Type} (n : Nat) (w : World α) (r : Nat)
    (k : Nat → Prog α) (h : w.procs r = SUCCESS_OR_DIE Op.gaspi_barrier k) :
    stepRank n w r = w := by
  unfold stepRank
  rw [h]
  unfold SUCCESS_OR_DIE
  simp

theorem stepRank_ret {α : Type} (n : Nat) (w : World α) (r : Nat) (a : α)
    (h : w.procs r = Prog.ret a) : stepRank n w r = w := by
  unfold stepRank
  rw [h]

theorem allRanks_iff (n : Nat) (f : Nat → Bool) :
    allRanks n f = true ↔ ∀ r, r < n → f r = true := by
  unfold allRanks
  simp [List.all_eq_true]

theorem mem_eraseIdx_or {α : Type} (l : List α) (k : Nat) (x : α) (h : x ∈ l) :
    x ∈ l.eraseIdx k ∨ l[k]? = some x := by
  obtain ⟨i, hi, hx⟩ := List.mem_iff_getElem.mp h
  by_cases hik : i = k
  · right
    subst hik
    rw [List.getElem?_eq_getElem hi, hx]
  · left
    exact List.mem_eraseIdx_iff_getElem.mpr ⟨i, hi, hik, hx⟩

namespace Round

variable {σ : Type} (G : Round σ)

theorem posValid_recvPos (r i : Nat) : G.PosValid r (G.recvPos r i) := by
  unfold recvPos
  split
  · assumption
  · trivial

theorem posValid_sendPos (r i : Nat) : G.PosValid r (G.sendPos r i) := by
  unfold sendPos
  split
  · assumption
  · exact G.posValid_recvPos r 0

theorem sent_recvPos (r i j : Nat) : sent (G.recvPos r i) j := by
  unfold recvPos
  split <;> trivial

theorem sent_sendPos (r i j : Nat) (h : j < i) :
    sent (G.sendPos r i) j := by
  unfold sendPos
  split
  · exact h
  · exact G.sent_recvPos r 0 j

theorem sent_sendPos_lt (r i j : Nat) (hj : j < G.nbIntf r)
    (h : sent (G.sendPos r (i + 1)) j) : j < i + 1 := by
  unfold sendPos at h
  split at h
  · exact h
  · omega

theorem consumed_recvPos (r i j : Nat) (h : j < i) :
    consumed (G.recvPos r i) j := by
  unfold recvPos
  split
  · exact h
  · trivial

theorem recvPos_ne_done (r i : Nat) : G.recvPos r i ≠ Pos.done := by
  unfold recvPos
  split <;> simp

theorem sendPos_ne_done (r i : Nat) : G.sendPos r i ≠ Pos.done := by
  unfold sendPos
  split
  · simp
  · exact G.recvPos_ne_done r 0

theorem recvPos_ne_reset (r i j : Nat) : G.recvPos r i ≠ Pos.reset j := by
  unfold recvPos
  split <;> simp

theorem sendPos_ne_reset (r i j : Nat) : G.sendPos r i ≠ Pos.reset j := by
  unfold sendPos
  split
  · simp
  · exact G.recvPos_ne_reset r 0 j

theorem rem_recvPos (r i : Nat) (h : i < G.nbIntf r) :
    G.rem r (G.recvPos r (i + 1)) < G.rem r (Pos.reset i) := by
  unfold recvPos
  split
  · simp only [rem]; omega
  · simp only [rem]; omega

theorem rem_sendPos (r i : Nat) (h : i < G.nbIntf r) :
    G.rem r (G.sendPos r (i + 1)) + 2 ≤ G.rem r (Pos.send i) := by
  unfold sendPos recvPos
  split
  · simp only [rem]; omega
  · split
    · simp only [rem]; omega
    · simp only [rem]; omega

/-- The positions after a step of rank `r` to position `p`. -/
theorem at_pos_update {w : World σ} {pos : Nat → Pos} (h : G.Inv w pos) (r : Nat) (p : Pos)
    (hv : G.PosValid r p) :
    ∀ r1, r1 < G.n →
      Function.update w.procs r (G.progAt r p) r1 = G.progAt r1 (Function.update pos r p r1)
        ∧ G.PosValid r1 (Function.update pos r p r1) := by
  intro r1 hr1
  by_cases hrr : r1 = r
  · subst hrr
    simp [hv]
  · simp [Function.update_noteq hrr]
    exact h.at_pos r1 hr1

theorem measure_update {w w1 : World σ} {pos : Nat → Pos} (r : Nat) (p : Pos) (hr : r < G.n)
    (k : Nat) (hk : G.rem r p + w1.inflight.length + k = G.rem r (pos r) + w.inflight.length)
    (hk0 : 0 < k) :
    G.measure w1 (Function.update pos r p) < G.measure w pos := by
  unfold measure
  have h := sum_range_change (fun q => G.rem q (pos q))
    (fun q => G.rem q (Function.update pos r p q)) r G.n hr
    (fun q hq => by simp [Function.update_noteq hq])
  simp only [Function.update_same] at h
  omega

end Round

end MiniFEM
namespace MiniFEM
namespace Round

variable {σ : Type} (G : Round σ)

/-- A rank about to notify: the notify succeeds and the notification is in
transit. -/
theorem inv_send (hwf : G.WellFormed) {w : World σ} {pos : Nat → Pos} (h : G.Inv w pos)
    {r i : Nat} (hr : r < G.n) (hp : pos r = Pos.send i) :
    G.Inv (stepRank G.n w r) (Function.update pos r (G.sendPos r (i + 1)))
      ∧ G.measure (stepRank G.n w r) (Function.update pos r (G.sendPos r (i + 1)))
          < G.measure w pos := by
  have hi : i < G.nbIntf r := by
    have := (h.at_pos r hr).2
    rw [hp] at this
    exact this
  obtain ⟨hq, hqi, hqw⟩ := G.peer_spec hwf hr hi
  have hprog : w.procs r = _ := ((h.at_pos r hr).1.trans (by rw [hp])).trans
    (G.progAt_send r i hi)
  have hstep := stepRank_notify G.n w r G.seg _ _ _ _ _ hprog
    (by rw [hqw]; omega) (by rw [hqw]; omega) (G.message_value_ne_zero hwf hr hi)
  have hmsg : (⟨(wrapInt (G.neighborsList r i - 1)).toNat, G.seg, (r : Int), G.payload r i⟩
      : Notification) = G.message r i := by
    unfold message
    rw [hqw]
    simp
  rw [hmsg] at hstep
  rw [hstep]
  have hsent : ∀ q j, j < G.nbIntf q → sent (pos q) j →
      sent (Function.update pos r (G.sendPos r (i + 1)) q) j := by
    intro q j hj hs
    by_cases hqr : q = r
    · subst hqr
      rw [Function.update_same]
      rw [hp] at hs
      exact G.sent_sendPos q (i + 1) j (Nat.lt_succ_of_lt hs)
    · rw [Function.update_noteq hqr]
      exact hs
  have hcons : ∀ q j, consumed (pos q) j →
      consumed (Function.update pos r (G.sendPos r (i + 1)) q) j := by
    intro q j hc
    by_cases hqr : q = r
    · subst hqr
      rw [hp] at hc
      exact absurd hc (by simp [consumed])
    · rw [Function.update_noteq hqr]
      exact hc
  refine ⟨⟨?_, ?_, ?_, ?_, ?_, ?_⟩, ?_⟩
  · exact G.at_pos_update h r _ (G.posValid_sendPos r (i + 1))
  · intro m hm
    rcases List.mem_append.mp hm with hm1 | hm1
    · obtain ⟨q, hq1, j, hj, hs, hmq⟩ := h.transit m hm1
      exact ⟨q, hq1, j, hj, hsent q j hj hs, hmq⟩
    · rw [List.mem_singleton.mp hm1]
      refine ⟨r, hr, i, hi, ?_, rfl⟩
      rw [Function.update_same]
      exact G.sent_sendPos r (i + 1) i (Nat.lt_succ_self i)
  · intro r1 s id hr1 hne
    obtain ⟨q, hq1, j, hj, hs, rest⟩ := h.slot r1 s id hr1 hne
    exact ⟨q, hq1, j, hj, hsent q j hj hs, rest⟩
  · intro r1 hr1 i1 hp1
    have hne : r1 ≠ r := by
      intro he
      subst he
      rw [Function.update_same] at hp1
      exact G.sendPos_ne_reset r1 _ _ hp1
    rw [Function.update_noteq hne] at hp1
    exact h.found r1 hr1 i1 hp1
  · intro q hq1 j hj hs i1 hi1 hnl
    have hold : sent (pos q) j ∨ (q = r ∧ j = i) := by
      by_cases hqr : q = r
      · subst hqr
        rw [Function.update_same] at hs
        have hlt := G.sent_sendPos_lt q i j hj hs
        by_cases hji : j = i
        · exact Or.inr ⟨rfl, hji⟩
        · left
          rw [hp]
          show j < i
          omega
      · rw [Function.update_noteq hqr] at hs
        exact Or.inl hs
    rcases hold with hs1 | ⟨hq2, hj2⟩
    · rcases h.arrives q hq1 j hj hs1 i1 hi1 hnl with h1 | h1 | h1
      · exact Or.inl (List.mem_append.mpr (Or.inl h1))
      · exact Or.inr (Or.inl h1)
      · exact Or.inr (Or.inr (hcons _ _ h1))
    · subst hq2
      subst hj2
      exact Or.inl (List.mem_append.mpr (Or.inr (List.mem_singleton.mpr rfl)))
  · intro hex r1 hr1
    exfalso
    obtain ⟨r0, hr0, hd⟩ := hex
    have hne : r0 ≠ r := by
      intro he
      subst he
      rw [Function.update_same] at hd
      exact G.sendPos_ne_done r0 _ hd
    rw [Function.update_noteq hne] at hd
    have := h.together ⟨r0, hr0, hd⟩ r hr
    rw [hp] at this
    cases this
  · apply G.measure_update r _ hr 1 _ Nat.one_pos
    have := G.rem_sendPos r i hi
    rw [hp]
    simp only [List.length_append, List.length_singleton]
    have h2 : G.rem r (Pos.send i) = G.rem r (G.sendPos r (i + 1)) + 2 := by
      unfold sendPos recvPos
      split
      · simp only [rem]; omega
      · split
        · simp only [rem]; omega
        · simp only [rem]; omega
    omega

/-- A rank about to wait whose slot holds a value: the wait returns the id
of the slot. -/
theorem inv_wait (hwf : G.WellFormed) {w : World σ} {pos : Nat → Pos} (h : G.Inv w pos)
    {r i : Nat} (hr : r < G.n) (hp : pos r = Pos.wait i) :
    (w.slots (r, G.seg, ((G.peer r i : Nat) : Int)) = 0 → stepRank G.n w r = w)
    ∧ (w.slots (r, G.seg, ((G.peer r i : Nat) : Int)) ≠ 0 →
        G.Inv (stepRank G.n w r) (Function.update pos r (Pos.reset i))
        ∧ G.measure (stepRank G.n w r) (Function.update pos r (Pos.reset i))
            < G.measure w pos) := by
  have hi : i < G.nbIntf r := by
    have := (h.at_pos r hr).2
    rw [hp] at this
    exact this
  obtain ⟨hq, hqi, hqw⟩ := G.peer_spec hwf hr hi
  have hprog : w.procs r = _ := ((h.at_pos r hr).1.trans (by rw [hp])).trans
    (G.progAt_wait r i hi)
  have hstep := stepRank_waitsome G.n w r G.seg _ _ hprog
  rw [hqw] at hstep
  constructor
  · intro h0
    rw [hstep, if_neg (not_not.mpr h0)]
  · intro hne
    rw [hstep, if_pos hne]
    have hk : (SUCCESS_OR_DIE (Op.gaspi_notify_reset G.seg ((G.peer r i : Nat) : Int).toNat)
        fun notifyValue => G.recvProg r (i + 1) (G.store i notifyValue (G.recvState r i)))
        = G.progAt r (Pos.reset i) := by
      rw [Int.toNat_ofNat]
      rfl
    rw [hk]
    have hsent : ∀ q j, sent (pos q) j → sent (Function.update pos r (Pos.reset i) q) j := by
      intro q j hs
      by_cases hqr : q = r
      · subst hqr
        rw [Function.update_same]
        trivial
      · rw [Function.update_noteq hqr]
        exact hs
    have hsent2 : ∀ q j, sent (Function.update pos r (Pos.reset i) q) j → sent (pos q) j := by
      intro q j hs
      by_cases hqr : q = r
      · subst hqr
        rw [hp]
        trivial
      · rw [Function.update_noteq hqr] at hs
        exact hs
    have hcons : ∀ q j, consumed (pos q) j →
        consumed (Function.update pos r (Pos.reset i) q) j := by
      intro q j hc
      by_cases hqr : q = r
      · subst hqr
        rw [Function.update_same]
        rw [hp] at hc
        exact hc
      · rw [Function.update_noteq hqr]
        exact hc
    refine ⟨⟨?_, ?_, ?_, ?_, ?_, ?_⟩, ?_⟩
    · exact G.at_pos_update h r _ hi
    · intro m hm
      obtain ⟨q, hq1, j, hj, hs, hmq⟩ := h.transit m hm
      exact ⟨q, hq1, j, hj, hsent q j hs, hmq⟩
    · intro r1 s id hr1 hne1
      obtain ⟨q, hq1, j, hj, hs, rest⟩ := h.slot r1 s id hr1 hne1
      exact ⟨q, hq1, j, hj, hsent q j hs, rest⟩
    · intro r1 hr1 i1 hp1
      by_cases he : r1 = r
      · subst he
        rw [Function.update_same] at hp1
        injection hp1 with hii
        rw [← hii]
        exact hne
      · rw [Function.update_noteq he] at hp1
        exact h.found r1 hr1 i1 hp1
    · intro q hq1 j hj hs i1 hi1 hnl
      rcases h.arrives q hq1 j hj (hsent2 q j hs) i1 hi1 hnl with h1 | h1 | h1
      · exact Or.inl h1
      · exact Or.inr (Or.inl h1)
      · exact Or.inr (Or.inr (hcons _ _ h1))
    · intro hex r1 hr1
      exfalso
      obtain ⟨r0, hr0, hd⟩ := hex
      have hne0 : r0 ≠ r := by
        intro he
        subst he
        rw [Function.update_same] at hd
        cases hd
      rw [Function.update_noteq hne0] at hd
      have := h.together ⟨r0, hr0, hd⟩ r hr
      rw [hp] at this
      cases this
    · apply G.measure_update r _ hr 1 _ Nat.one_pos
      rw [hp]
      simp only [rem]
      omega

theorem nl_of_peer {q j r : Nat} (h1 : 1 ≤ G.neighborsList q j) (h2 : G.peer q j = r) :
    G.neighborsList q j = (r : Int) + 1 := by
  unfold peer at h2
  omega

/-- A rank about to reset: it reads the value its peer notified. -/
theorem inv_reset (hwf : G.WellFormed) {w : World σ} {pos : Nat → Pos} (h : G.Inv w pos)
    {r i : Nat} (hr : r < G.n) (hp : pos r = Pos.reset i) :
    G.Inv (stepRank G.n w r) (Function.update pos r (G.recvPos r (i + 1)))
      ∧ G.measure (stepRank G.n w r) (Function.update pos r (G.recvPos r (i + 1)))
          < G.measure w pos := by
  have hi : i < G.nbIntf r := by
    have := (h.at_pos r hr).2
    rw [hp] at this
    exact this
  obtain ⟨hq, hqi, hqw⟩ := G.peer_spec hwf hr hi
  have hprog : w.procs r = G.progAt r (Pos.reset i) := (h.at_pos r hr).1.trans (by rw [hp])
  have hstep := stepRank_reset G.n w r G.seg (G.peer r i) _ hprog
  have hfound := h.found r hr i hp
  have hval : w.slots (r, G.seg, ((G.peer r i : Nat) : Int)) = G.expected r i := by
    obtain ⟨q, hq1, j, hj, _, hpeer, _, hid, hv⟩ := h.slot r _ _ hr hfound
    have hqq : q = G.peer r i := by exact_mod_cast hid.symm
    subst hqq
    have hnl : G.neighborsList (G.peer r i) j = (r : Int) + 1 := by
      exact G.nl_of_peer (hwf.range (G.peer r i) hq1 j hj).1 hpeer
    rw [hv]
    unfold expected
    rw [G.peerIndex_spec hwf hr hi hj hnl]
  rw [hval, G.progAt_after_reset r i hi] at hstep
  rw [hstep]
  have hsent : ∀ q j, sent (pos q) j ↔
      sent (Function.update pos r (G.recvPos r (i + 1)) q) j := by
    intro q j
    by_cases hqr : q = r
    · subst hqr
      rw [Function.update_same, hp]
      exact ⟨fun _ => G.sent_recvPos q _ j, fun _ => trivial⟩
    · rw [Function.update_noteq hqr]
  have hcons : ∀ q j, j < G.nbIntf q → consumed (pos q) j →
      consumed (Function.update pos r (G.recvPos r (i + 1)) q) j := by
    intro q j hj hc
    by_cases hqr : q = r
    · subst hqr
      rw [Function.update_same]
      rw [hp] at hc
      exact G.consumed_recvPos q (i + 1) j (Nat.lt_succ_of_lt hc)
    · rw [Function.update_noteq hqr]
      exact hc
  refine ⟨⟨?_, ?_, ?_, ?_, ?_, ?_⟩, ?_⟩
  · exact G.at_pos_update h r _ (G.posValid_recvPos r (i + 1))
  · intro m hm
    obtain ⟨q, hq1, j, hj, hs, hmq⟩ := h.transit m hm
    exact ⟨q, hq1, j, hj, (hsent q j).mp hs, hmq⟩
  · intro r1 s id hr1 hne1
    by_cases hkey : (r1, s, id) = (r, G.seg, ((G.peer r i : Nat) : Int))
    · exfalso
      apply hne1
      show Function.update w.slots _ 0 (r1, s, id) = 0
      rw [hkey, Function.update_same]
    · have hsame : Function.update w.slots (r, G.seg, ((G.peer r i : Nat) : Int)) 0 (r1, s, id)
          = w.slots (r1, s, id) := Function.update_noteq hkey _ _
      have hne2 : w.slots (r1, s, id) ≠ 0 := by
        rw [← hsame]
        exact hne1
      obtain ⟨q, hq1, j, hj, hs, hpeer, hseg, hid, hv⟩ := h.slot r1 s id hr1 hne2
      exact ⟨q, hq1, j, hj, (hsent q j).mp hs, hpeer, hseg, hid, hsame.trans hv⟩
  · intro r1 hr1 i1 hp1
    have hne : r1 ≠ r := by
      intro he
      subst he
      rw [Function.update_same] at hp1
      exact G.recvPos_ne_reset r1 _ _ hp1
    rw [Function.update_noteq hne] at hp1
    have hkey : (r1, G.seg, ((G.peer r1 i1 : Nat) : Int))
        ≠ (r, G.seg, ((G.peer r i : Nat) : Int)) := by
      intro he
      exact hne (congrArg Prod.fst he)
    show Function.update w.slots _ 0 _ ≠ 0
    rw [Function.update_noteq hkey]
    exact h.found r1 hr1 i1 hp1
  · intro q hq1 j hj hs i1 hi1 hnl
    rcases h.arrives q hq1 j hj ((hsent q j).mpr hs) i1 hi1 hnl with h1 | h1 | h1
    · exact Or.inl h1
    · by_cases hkey : (G.peer q j, G.seg, (q : Int)) = (r, G.seg, ((G.peer r i : Nat) : Int))
      · right
        right
        have hpr : G.peer q j = r := congrArg Prod.fst hkey
        have hqp : (q : Int) = ((G.peer r i : Nat) : Int) :=
          congrArg (fun x => x.2.2) hkey
        rw [hpr] at hi1 hnl ⊢
        have hii : i1 = i := by
          apply hwf.nodup r hr i1 i hi1 hi
          rw [hnl, hqp, hqi]
          ring
        rw [hii, Function.update_same]
        exact G.consumed_recvPos r (i + 1) i (Nat.lt_succ_self i)
      · right
        left
        show Function.update w.slots _ 0 _ ≠ 0
        rw [Function.update_noteq hkey]
        exact h1
    · exact Or.inr (Or.inr (hcons _ _ hi1 h1))
  · intro hex r1 hr1
    exfalso
    obtain ⟨r0, hr0, hd⟩ := hex
    have hne0 : r0 ≠ r := by
      intro he
      subst he
      rw [Function.update_same] at hd
      exact G.recvPos_ne_done r0 _ hd
    rw [Function.update_noteq hne0] at hd
    have := h.together ⟨r0, hr0, hd⟩ r hr
    rw [hp] at this
    cases this
  · have hlt := G.rem_recvPos r i hi
    apply G.measure_update r _ hr
      (G.rem r (Pos.reset i) - G.rem r (G.recvPos r (i + 1))) _ (by omega)
    rw [hp]
    show G.rem r (G.recvPos r (i + 1)) + w.inflight.length + _ = _
    omega

end Round
end MiniFEM
namespace MiniFEM
namespace Round

variable {σ : Type} (G : Round σ)

/-- Delivery of a notification in transit. -/
theorem inv_deliver (hwf : G.WellFormed) {w : World σ} {pos : Nat → Pos} (h : G.Inv w pos)
    (idx : Nat) :
    (w.inflight.length ≤ idx → stepDeliver w idx = w)
    ∧ (idx < w.inflight.length →
        G.Inv (stepDeliver w idx) pos ∧ G.measure (stepDeliver w idx) pos < G.measure w pos) := by
  constructor
  · intro hle
    unfold stepDeliver
    rw [List.getElem?_eq_none hle]
  · intro hlt
    have hget : w.inflight[idx]? = some w.inflight[idx] := List.getElem?_eq_getElem hlt
    have hstep : stepDeliver w idx
        = { w with slots := Function.update w.slots
                     (w.inflight[idx].target, w.inflight[idx].segmentID,
                       w.inflight[idx].notifyID) w.inflight[idx].value,
                   inflight := w.inflight.eraseIdx idx } := by
      unfold stepDeliver
      rw [hget]
    obtain ⟨q0, hq0, j0, hj0, hs0, hm0⟩ := h.transit _ (List.getElem_mem hlt)
    rw [hm0] at hstep
    replace hstep : stepDeliver w idx
        = { w with slots := Function.update w.slots (G.peer q0 j0, G.seg, (q0 : Int))
                     (G.payload q0 j0),
                   inflight := w.inflight.eraseIdx idx } := hstep
    have hkeyv : ∀ key, Function.update w.slots (G.peer q0 j0, G.seg, (q0 : Int))
        (G.payload q0 j0) key ≠ 0 → key ≠ (G.peer q0 j0, G.seg, (q0 : Int)) →
        w.slots key ≠ 0 := by
      intro key hne hk
      rw [Function.update_noteq hk] at hne
      exact hne
    have hmono : ∀ key, w.slots key ≠ 0 → Function.update w.slots
        (G.peer q0 j0, G.seg, (q0 : Int)) (G.payload q0 j0) key ≠ 0 := by
      intro key hne
      by_cases hk : key = (G.peer q0 j0, G.seg, (q0 : Int))
      · rw [hk, Function.update_same]
        exact G.message_value_ne_zero hwf hq0 hj0
      · rw [Function.update_noteq hk]
        exact hne
    rw [hstep]
    refine ⟨⟨h.at_pos, ?_, ?_, ?_, ?_, h.together⟩, ?_⟩
    · intro m hm
      exact h.transit m (List.mem_of_mem_eraseIdx hm)
    · intro r1 s id hr1 hne
      by_cases hk : (r1, s, id) = (G.peer q0 j0, G.seg, (q0 : Int))
      · refine ⟨q0, hq0, j0, hj0, hs0, (congrArg Prod.fst hk).symm,
          congrArg (fun x => x.2.1) hk, congrArg (fun x => x.2.2) hk, ?_⟩
        show Function.update w.slots _ _ _ = _
        rw [hk, Function.update_same]
      · obtain ⟨q, hq1, j, hj, hs, hpeer, hseg, hid, hv⟩ :=
          h.slot r1 s id hr1 (hkeyv _ hne hk)
        refine ⟨q, hq1, j, hj, hs, hpeer, hseg, hid, ?_⟩
        show Function.update w.slots _ _ _ = _
        rw [Function.update_noteq hk]
        exact hv
    · intro r1 hr1 i1 hp1
      exact hmono _ (h.found r1 hr1 i1 hp1)
    · intro q hq1 j hj hs i1 hi1 hnl
      rcases h.arrives q hq1 j hj hs i1 hi1 hnl with h1 | h1 | h1
      · rcases mem_eraseIdx_or w.inflight idx _ h1 with h2 | h2
        · exact Or.inl h2
        · right
          left
          rw [hget] at h2
          have hmm : G.message q0 j0 = G.message q j := by
            rw [← hm0]
            exact Option.some.inj h2
          have h3 : G.peer q0 j0 = G.peer q j := congrArg Notification.target hmm
          have h4 : (q0 : Int) = (q : Int) := congrArg Notification.notifyID hmm
          show Function.update w.slots _ _ _ ≠ 0
          rw [h3, h4, Function.update_same]
          exact G.message_value_ne_zero hwf hq0 hj0
      · exact Or.inr (Or.inl (hmono _ h1))
      · exact Or.inr (Or.inr h1)
    · unfold measure
      have hlen : (w.inflight.eraseIdx idx).length = w.inflight.length - 1 := by
        rw [List.length_eraseIdx, if_pos hlt]
      show _ + (w.inflight.eraseIdx idx).length < _
      omega

theorem atBarrier_progAt (r : Nat) (p : Pos) (hv : G.PosValid r p) :
    atBarrier (G.progAt r p) = true ↔ p = Pos.barrier := by
  cases p with
  | send i => rw [G.progAt_send r i hv]; simp [SUCCESS_OR_DIE, atBarrier]
  | wait i => rw [G.progAt_wait r i hv]; simp [SUCCESS_OR_DIE, atBarrier]
  | reset i => simp [progAt, SUCCESS_OR_DIE, atBarrier]
  | barrier => simp [progAt, SUCCESS_OR_DIE, atBarrier]
  | done => simp [progAt, atBarrier]

theorem contribution_progAt (r : Nat) (p : Pos) (hv : G.PosValid r p) :
    contribution (G.progAt r p) = none := by
  cases p with
  | send i => rw [G.progAt_send r i hv]; simp [SUCCESS_OR_DIE, contribution]
  | wait i => rw [G.progAt_wait r i hv]; simp [SUCCESS_OR_DIE, contribution]
  | reset i => simp [progAt, SUCCESS_OR_DIE, contribution]
  | barrier => simp [progAt, SUCCESS_OR_DIE, contribution]
  | done => simp [progAt, contribution]

theorem isReturned_progAt (r : Nat) (p : Pos) (hv : G.PosValid r p) :
    isReturned (G.progAt r p) = true ↔ p = Pos.done := by
  cases p with
  | send i => rw [G.progAt_send r i hv]; simp [SUCCESS_OR_DIE, isReturned]
  | wait i => rw [G.progAt_wait r i hv]; simp [SUCCESS_OR_DIE, isReturned]
  | reset i => simp [progAt, SUCCESS_OR_DIE, isReturned]
  | barrier => simp [progAt, SUCCESS_OR_DIE, isReturned]
  | done => simp [progAt, isReturned]

/-- The barrier completes when, and only when, all ranks stand at it. -/
theorem inv_barrier (hwf : G.WellFormed) {w : World σ} {pos : Nat → Pos} (h : G.Inv w pos) :
    ((∃ r, r < G.n ∧ pos r ≠ Pos.barrier) → stepBarrier G.n w = w)
    ∧ ((∀ r, r < G.n → pos r = Pos.barrier) →
        G.Inv (stepBarrier G.n w) (fun _ => Pos.done)
        ∧ G.measure (stepBarrier G.n w) (fun _ => Pos.done) < G.measure w pos) := by
  have hall : allRanks G.n (fun r => atBarrier (w.procs r)) = true
      ↔ ∀ r, r < G.n → pos r = Pos.barrier := by
    rw [allRanks_iff]
    constructor
    · intro ha r hr
      have h1 := ha r hr
      rw [(h.at_pos r hr).1] at h1
      exact (G.atBarrier_progAt r _ (h.at_pos r hr).2).mp h1
    · intro ha r hr
      show atBarrier (w.procs r) = true
      rw [(h.at_pos r hr).1]
      exact (G.atBarrier_progAt r _ (h.at_pos r hr).2).mpr (ha r hr)
  constructor
  · intro hex
    obtain ⟨r, hr, hne⟩ := hex
    unfold stepBarrier
    rw [if_neg]
    intro ha
    exact hne (hall.mp ha r hr)
  · intro ha
    have hstep : stepBarrier G.n w
        = { w with procs := fun r => if r < G.n then passBarrier (w.procs r) else w.procs r } := by
      unfold stepBarrier
      rw [if_pos (hall.mpr ha)]
    rw [hstep]
    refine ⟨⟨?_, ?_, ?_, ?_, ?_, ?_⟩, ?_⟩
    · intro r hr
      refine ⟨?_, trivial⟩
      show (if r < G.n then passBarrier (w.procs r) else w.procs r) = _
      rw [if_pos hr, (h.at_pos r hr).1, ha r hr]
      rfl
    · intro m hm
      obtain ⟨q, hq1, j, hj, _, hmq⟩ := h.transit m hm
      exact ⟨q, hq1, j, hj, trivial, hmq⟩
    · intro r1 s id hr1 hne
      obtain ⟨q, hq1, j, hj, _, rest⟩ := h.slot r1 s id hr1 hne
      exact ⟨q, hq1, j, hj, trivial, rest⟩
    · intro r1 _ i1 hp1
      cases hp1
    · intro q _ j _ _ i1 _ _
      exact Or.inr (Or.inr trivial)
    · intro _ r1 _
      rfl
    · unfold measure
      have h0 : (∑ r ∈ Finset.range G.n, G.rem r ((fun _ => Pos.done) r)) = 0 := by
        apply Finset.sum_eq_zero
        intro r _
        rfl
      have h1 : 0 < ∑ r ∈ Finset.range G.n, G.rem r (pos r) := by
        apply Finset.sum_pos'
        · intro r _
          exact Nat.zero_le _
        · refine ⟨0, Finset.mem_range.mpr (by have := hwf.two_le; omega), ?_⟩
          rw [ha 0 (by have := hwf.two_le; omega)]
          exact Nat.one_pos
      show _ + w.inflight.length < _
      rw [h0]
      omega

/-- No all-reduce completes during an exchange. -/
theorem inv_allreduce (hwf : G.WellFormed) {w : World σ} {pos : Nat → Pos} (h : G.Inv w pos) :
    stepAllreduce G.n w = w := by
  unfold stepAllreduce
  rw [if_neg]
  intro ha
  have h0 := (allRanks_iff _ _).mp ha 0 (by have := hwf.two_le; omega)
  have h1 := h.at_pos 0 (by have := hwf.two_le; omega)
  simp only [h1.1, G.contribution_progAt 0 _ h1.2] at h0
  cases h0

end Round
end MiniFEM
namespace MiniFEM

theorem exec_append {α : Type} (n : Nat) (s1 s2 : List Label) :
    ∀ w : World α, exec n (s1 ++ s2) w = exec n s2 (exec n s1 w) := by
  induction s1 with
  | nil => intro w; rfl
  | cons l ls ih => intro w; exact ih (step n w l)

theorem step_rank {α : Type} (n : Nat) (w : World α) (r : Nat) :
    step n w (Label.rank r) = if r < n then stepRank n w r else w := rfl

theorem step_deliver {α : Type} (n : Nat) (w : World α) (idx : Nat) :
    step n w (Label.deliver idx) = stepDeliver w idx := rfl

theorem step_barrier {α : Type} (n : Nat) (w : World α) :
    step n w Label.barrier = stepBarrier n w := rfl

theorem step_allreduce {α : Type} (n : Nat) (w : World α) :
    step n w Label.allreduce = stepAllreduce n w := rfl

namespace Round

variable {σ : Type} (G : Round σ)

/-- The invariant holds before the round. -/
theorem inv_start : G.Inv (World.start G.prog) (fun r => G.sendPos r 0) := by
  refine ⟨?_, ?_, ?_, ?_, ?_, ?_⟩
  · intro r _
    exact ⟨G.prog_eq r, G.posValid_sendPos r 0⟩
  · intro m hm
    cases hm
  · intro r s id _ hne
    exact absurd rfl hne
  · intro r _ i hp
    exact absurd hp (G.sendPos_ne_reset r 0 i)
  · intro q _ j hj hs
    exfalso
    have := G.sent_sendPos_lt q 0 j hj
    unfold sendPos at hs
    by_cases h0 : 0 < G.nbIntf q
    · rw [if_pos h0] at hs
      exact Nat.not_lt_zero j hs
    · omega
  · intro hex
    obtain ⟨r, _, hd⟩ := hex
    exact absurd hd (G.sendPos_ne_done r 0)

/-- Every step keeps the invariant. -/
theorem inv_step (hwf : G.WellFormed) {w : World σ} {pos : Nat → Pos} (h : G.Inv w pos)
    (l : Label) : ∃ pos1, G.Inv (step G.n w l) pos1 := by
  cases l with
  | rank r =>
      rw [step_rank]
      by_cases hr : r < G.n
      · rw [if_pos hr]
        cases hp : pos r with
        | send i => exact ⟨_, (G.inv_send hwf h hr hp).1⟩
        | wait i =>
            by_cases hs : w.slots (r, G.seg, ((G.peer r i : Nat) : Int)) = 0
            · rw [(G.inv_wait hwf h hr hp).1 hs]
              exact ⟨pos, h⟩
            · exact ⟨_, ((G.inv_wait hwf h hr hp).2 hs).1⟩
        | reset i => exact ⟨_, (G.inv_reset hwf h hr hp).1⟩
        | barrier =>
            rw [stepRank_barrier G.n w r _ ((h.at_pos r hr).1.trans (by rw [hp]; rfl))]
            exact ⟨pos, h⟩
        | done =>
            rw [stepRank_ret G.n w r _ ((h.at_pos r hr).1.trans (by rw [hp]; rfl))]
            exact ⟨pos, h⟩
      · rw [if_neg hr]
        exact ⟨pos, h⟩
  | deliver idx =>
      rw [step_deliver]
      by_cases hi : idx < w.inflight.length
      · exact ⟨_, ((G.inv_deliver hwf h idx).2 hi).1⟩
      · rw [(G.inv_deliver hwf h idx).1 (not_lt.mp hi)]
        exact ⟨pos, h⟩
  | barrier =>
      rw [step_barrier]
      by_cases ha : ∀ r, r < G.n → pos r = Pos.barrier
      · exact ⟨_, ((G.inv_barrier hwf h).2 ha).1⟩
      · rw [(G.inv_barrier hwf h).1 (by push_neg at ha; exact ha)]
        exact ⟨pos, h⟩
  | allreduce =>
      rw [step_allreduce]
      rw [G.inv_allreduce hwf h]
      exact ⟨pos, h⟩

/-- The invariant holds after every schedule. -/
theorem inv_exec (hwf : G.WellFormed) (sched : List Label) :
    ∀ (w : World σ) (pos : Nat → Pos), G.Inv w pos → ∃ pos1, G.Inv (exec G.n sched w) pos1 := by
  induction sched with
  | nil => intro w pos h; exact ⟨pos, h⟩
  | cons l ls ih =>
      intro w pos h
      obtain ⟨pos1, h1⟩ := G.inv_step hwf h l
      exact ih _ pos1 h1

/-- No deadlock: unless all ranks have returned, some step makes progress. -/
theorem progress (hwf : G.WellFormed) {w : World σ} {pos : Nat → Pos} (h : G.Inv w pos) :
    (∀ r, r < G.n → pos r = Pos.done)
    ∨ ∃ l pos1, G.Inv (step G.n w l) pos1 ∧ G.measure (step G.n w l) pos1 < G.measure w pos := by
  by_cases hfl : 0 < w.inflight.length
  · right
    refine ⟨Label.deliver 0, pos, ?_⟩
    rw [step_deliver]
    exact (G.inv_deliver hwf h 0).2 hfl
  have hnil : w.inflight = [] := List.eq_nil_of_length_eq_zero (by omega)
  by_cases hsend : ∃ r, r < G.n ∧ ∃ i, pos r = Pos.send i
  · right
    obtain ⟨r, hr, i, hp⟩ := hsend
    refine ⟨Label.rank r, Function.update pos r (G.sendPos r (i + 1)), ?_⟩
    rw [step_rank, if_pos hr]
    exact G.inv_send hwf h hr hp
  by_cases hreset : ∃ r, r < G.n ∧ ∃ i, pos r = Pos.reset i
  · right
    obtain ⟨r, hr, i, hp⟩ := hreset
    refine ⟨Label.rank r, Function.update pos r (G.recvPos r (i + 1)), ?_⟩
    rw [step_rank, if_pos hr]
    exact G.inv_reset hwf h hr hp
  by_cases hwait : ∃ r, r < G.n ∧ ∃ i, pos r = Pos.wait i
  · right
    obtain ⟨r, hr, i, hp⟩ := hwait
    have hi : i < G.nbIntf r := by
      have := (h.at_pos r hr).2
      rw [hp] at this
      exact this
    obtain ⟨hq, hqi, _⟩ := G.peer_spec hwf hr hi
    obtain ⟨j, hj, hnl⟩ := hwf.sym r hr i hi
    have hpeer : G.peer (G.peer r i) j = r := G.peer_peer hnl
    have hsent : sent (pos (G.peer r i)) j := by
      cases hpq : pos (G.peer r i) with
      | send i1 => exact absurd ⟨G.peer r i, hq, i1, hpq⟩ hsend
      | wait _ => trivial
      | reset _ => trivial
      | barrier => trivial
      | done => trivial
    have hslot : w.slots (r, G.seg, ((G.peer r i : Nat) : Int)) ≠ 0 := by
      have harr := h.arrives (G.peer r i) hq j hj hsent i (by rw [hpeer]; exact hi)
        (by rw [hpeer, hqi]; ring)
      rw [hpeer, hnil, hp] at harr
      rcases harr with h1 | h1 | h1
      · cases h1
      · exact h1
      · exact absurd h1 (Nat.lt_irrefl i)
    refine ⟨Label.rank r, Function.update pos r (Pos.reset i), ?_⟩
    rw [step_rank, if_pos hr]
    exact (G.inv_wait hwf h hr hp).2 hslot
  have hbd : ∀ r, r < G.n → pos r = Pos.barrier ∨ pos r = Pos.done := by
    intro r hr
    cases hp : pos r with
    | send i => exact absurd ⟨r, hr, i, hp⟩ hsend
    | wait i => exact absurd ⟨r, hr, i, hp⟩ hwait
    | reset i => exact absurd ⟨r, hr, i, hp⟩ hreset
    | barrier => exact Or.inl rfl
    | done => exact Or.inr rfl
  by_cases hdone : ∃ r, r < G.n ∧ pos r = Pos.done
  · exact Or.inl (h.together hdone)
  · right
    have hall : ∀ r, r < G.n → pos r = Pos.barrier := by
      intro r hr
      rcases hbd r hr with h1 | h1
      · exact h1
      · exact absurd ⟨r, hr, h1⟩ hdone
    refine ⟨Label.barrier, fun _ => Pos.done, ?_⟩
    rw [step_barrier]
    exact (G.inv_barrier hwf h).2 hall

/-- From every state of the round some schedule leads all ranks to their
return. -/
theorem completes (hwf : G.WellFormed) :
    ∀ (k : Nat) (w : World σ) (pos : Nat → Pos), G.Inv w pos → G.measure w pos ≤ k →
      ∃ sched pos1, G.Inv (exec G.n sched w) pos1 ∧ ∀ r, r < G.n → pos1 r = Pos.done := by
  intro k
  induction k with
  | zero =>
      intro w pos h hm
      rcases G.progress hwf h with hd | ⟨l, pos1, _, hlt⟩
      · exact ⟨[], pos, h, hd⟩
      · omega
  | succ k ih =>
      intro w pos h hm
      rcases G.progress hwf h with hd | ⟨l, pos1, h1, hlt⟩
      · exact ⟨[], pos, h, hd⟩
      · obtain ⟨sched, pos2, h2, hd2⟩ := ih _ pos1 h1 (by omega)
        exact ⟨l :: sched, pos2, h2, hd2⟩

/-- A round on well-formed inputs: from every state reached some schedule
leads all ranks to their return, and when all ranks have returned each rank
holds what the statement `store` made of the values its peers notified for
it, in interface order. -/
theorem round_correct (hwf : G.WellFormed) :
    (∀ sched, ∃ more, allReturned G.n (exec G.n (sched ++ more) (World.start G.prog)) = true)
    ∧ (∀ sched, allReturned G.n (exec G.n sched (World.start G.prog)) = true →
        ∀ r, r < G.n →
          (exec G.n sched (World.start G.prog)).procs r
            = Prog.ret (G.recvState r (G.nbIntf r))) := by
  constructor
  · intro sched
    obtain ⟨pos, h⟩ := G.inv_exec hwf sched _ _ G.inv_start
    obtain ⟨more, pos1, h1, hd⟩ := G.completes hwf _ _ pos h (le_refl _)
    refine ⟨more, ?_⟩
    rw [exec_append]
    unfold allReturned
    rw [allRanks_iff]
    intro r hr
    show isReturned ((exec G.n more (exec G.n sched (World.start G.prog))).procs r) = true
    rw [(h1.at_pos r hr).1, hd r hr]
    rfl
  · intro sched hall r hr
    obtain ⟨pos, h⟩ := G.inv_exec hwf sched _ _ G.inv_start
    unfold allReturned at hall
    rw [allRanks_iff] at hall
    have h1 := hall r hr
    simp only [(h.at_pos r hr).1] at h1
    have hd := (G.isReturned_progAt r _ (h.at_pos r hr).2).mp h1
    rw [(h.at_pos r hr).1, hd]
    rfl

end Round
end MiniFEM
namespace MiniFEM

theorem offsetExchangeWorld_eq (n : Nat) (nbIntf : Nat → Nat)
    (neighborsList intfIndex intfDestIndex : Nat → Nat → Int) (seg queue : Nat)
    (h2 : 2 ≤ n) :
    offsetExchangeWorld n nbIntf neighborsList intfIndex intfDestIndex seg queue
      = World.start
          (offsetRound n nbIntf neighborsList intfIndex intfDestIndex seg queue).prog := by
  unfold offsetExchangeWorld
  congr 1
  funext r
  have h : ¬ ((n : Int) < 2) := by omega
  rw [GASPI_offset_exchange, if_neg h]
  rfl

theorem offsetRound_wellFormed (n : Nat) (nbIntf : Nat → Nat)
    (neighborsList intfIndex intfDestIndex : Nat → Nat → Int) (seg queue : Nat)
    (h2 : 2 ≤ n) (hn : n < 2147483648)
    (hsym : ∀ r, r < n → ∀ i, i < nbIntf r → ∃ q, q < n ∧ neighborsList r i = (q : Int) + 1
      ∧ ∃ j, j < nbIntf q ∧ neighborsList q j = (r : Int) + 1)
    (hnodup : ∀ r, r < n → ∀ i j, i < nbIntf r → j < nbIntf r →
      neighborsList r i = neighborsList r j → i = j)
    (hoff : ∀ r, r < n → ∀ i, i < nbIntf r →
      0 ≤ intfIndex r i ∧ intfIndex r i < 2147483648) :
    (offsetRound n nbIntf neighborsList intfIndex intfDestIndex seg queue).WellFormed := by
  refine ⟨h2, hn, ?_, ?_, hnodup, hoff⟩
  · intro r hr i hi
    obtain ⟨q, hq, hnl, _⟩ := hsym r hr i hi
    show 1 ≤ neighborsList r i ∧ neighborsList r i ≤ (n : Int)
    omega
  · intro r hr i hi
    obtain ⟨q, hq, hnl, j, hj, hnl2⟩ := hsym r hr i hi
    have hp : (offsetRound n nbIntf neighborsList intfIndex intfDestIndex seg queue).peer r i
        = q := Round.peer_peer _ hnl
    rw [hp]
    exact ⟨j, hj, hnl2⟩

/-- The destination offset array after the first `k` interfaces. -/
theorem offsetRound_recvState (G : Round (Nat → Int)) (hstore : G.store = storeDestIndex)
    (r : Nat) : ∀ k i, G.recvState r k i
      = if i < k then toInt (usub1 (G.expected r i)) else G.init r i := by
  intro k
  induction k with
  | zero => intro i; simp [Round.recvState]
  | succ k ih =>
      intro i
      simp only [Round.recvState, hstore, storeDestIndex]
      by_cases hik : i = k
      · subst hik
        simp
      · rw [Function.update_noteq hik, ih]
        by_cases hlt : i < k
        · rw [if_pos hlt, if_pos (by omega)]
        · rw [if_neg hlt, if_neg (by omega)]

/-- C1: offset exchange correctness.  For a group of `n ≥ 2` ranks (`n` an
`int`) in which every neighbour entry of a rank `r` names (numbered from 1) a
rank `q` of the group that lists `r` back, no neighbour list contains an
entry twice, and the local offsets are non-negative `int`s: when all ranks
call `GASPI_offset_exchange`, from every state the group reaches some
schedule leads all ranks to their return; and whenever all ranks have
returned, the destination offset array of each rank `r` holds at every
interface index `i` the local offset that the rank named by `r`'s `i`-th
entry holds for `r`, and is unchanged beyond the interfaces. -/
theorem offset_exchange_correct (n : Nat) (nbIntf : Nat → Nat)
    (neighborsList intfIndex intfDestIndex : Nat → Nat → Int) (seg queue : Nat)
    (h2 : 2 ≤ n) (hn : n < 2147483648)
    (hsym : ∀ r, r < n → ∀ i, i < nbIntf r → ∃ q, q < n ∧ neighborsList r i = (q : Int) + 1
      ∧ ∃ j, j < nbIntf q ∧ neighborsList q j = (r : Int) + 1)
    (hnodup : ∀ r, r < n → ∀ i j, i < nbIntf r → j < nbIntf r →
      neighborsList r i = neighborsList r j → i = j)
    (hoff : ∀ r, r < n → ∀ i, i < nbIntf r →
      0 ≤ intfIndex r i ∧ intfIndex r i < 2147483648) :
    (∀ sched, ∃ more, allReturned n (exec n (sched ++ more)
        (offsetExchangeWorld n nbIntf neighborsList intfIndex intfDestIndex seg queue)) = true)
    ∧ (∀ sched, allReturned n (exec n sched
        (offsetExchangeWorld n nbIntf neighborsList intfIndex intfDestIndex seg queue)) = true →
        ∀ r, r < n → ∃ tbl,
          (exec n sched (offsetExchangeWorld n nbIntf neighborsList intfIndex intfDestIndex
            seg queue)).procs r = Prog.ret tbl
          ∧ (∀ i q j, i < nbIntf r → q < n → j < nbIntf q →
              neighborsList r i = (q : Int) + 1 → neighborsList q j = (r : Int) + 1 →
              tbl i = intfIndex q j)
          ∧ (∀ i, nbIntf r ≤ i → tbl i = intfDestIndex r i)) := by
  have hwf := offsetRound_wellFormed n nbIntf neighborsList intfIndex intfDestIndex seg queue
    h2 hn hsym hnodup hoff
  have hround := Round.round_correct _ hwf
  rw [offsetExchangeWorld_eq n nbIntf neighborsList intfIndex intfDestIndex seg queue h2]
  refine ⟨hround.1, ?_⟩
  intro sched hall r hr
  refine ⟨_, hround.2 sched hall r hr, ?_, ?_⟩
  · intro i q j hi hq hj hnl hnl2
    rw [offsetRound_recvState _ rfl r _ i]
    have hi1 : i < (offsetRound n nbIntf neighborsList intfIndex intfDestIndex seg
        queue).nbIntf r := hi
    rw [if_pos hi1]
    have hp : (offsetRound n nbIntf neighborsList intfIndex intfDestIndex seg queue).peer r i
        = q := Round.peer_peer _ hnl
    have hpi : (offsetRound n nbIntf neighborsList intfIndex intfDestIndex seg
        queue).peerIndex r i = j := by
      apply Round.peerIndex_spec _ hwf hr hi
      · rw [hp]; exact hj
      · rw [hp]; exact hnl2
    unfold Round.expected
    rw [hpi, hp]
    exact decode_payload (intfIndex q j) (hoff q hq j hj).1 (hoff q hq j hj).2
  · intro i hi
    rw [offsetRound_recvState _ rfl r _ i]
    have hi1 : ¬ i < (offsetRound n nbIntf neighborsList intfIndex intfDestIndex seg
        queue).nbIntf r := not_lt.mpr hi
    rw [if_neg hi1]
    rfl

/-- Witness of C1, the two-rank scenario: local offsets `[5]` on rank 0 and
`[12]` on rank 1; after the exchange rank 0 holds `[12]` and rank 1 holds
`[5]`. -/
theorem offset_exchange_correct_witness :
    (2 ≤ 2 ∧ 2 < 2147483648)
    ∧ (∀ r, r < 2 → ∀ i, i < (fun _ : Nat => 1) r →
        ∃ q : Nat, q < 2 ∧ twoRankNeighbors r i = (q : Int) + 1
          ∧ ∃ j, j < (fun _ : Nat => 1) q ∧ twoRankNeighbors q j = (r : Int) + 1)
    ∧ allReturned 2 (exec 2 twoRankSchedule
        (offsetExchangeWorld 2 (fun _ => 1) twoRankNeighbors twoRankOffsets
          (fun _ _ => 0) 4 0)) = true
    ∧ (∃ tbl, (exec 2 twoRankSchedule
          (offsetExchangeWorld 2 (fun _ => 1) twoRankNeighbors twoRankOffsets
            (fun _ _ => 0) 4 0)).procs 0 = Prog.ret tbl ∧ tbl 0 = 12)
    ∧ (∃ tbl, (exec 2 twoRankSchedule
          (offsetExchangeWorld 2 (fun _ => 1) twoRankNeighbors twoRankOffsets
            (fun _ _ => 0) 4 0)).procs 1 = Prog.ret tbl ∧ tbl 0 = 5) := by
  have hsym : ∀ r, r < 2 → ∀ i, i < (fun _ : Nat => 1) r →
      ∃ q : Nat, q < 2 ∧ twoRankNeighbors r i = (q : Int) + 1
        ∧ ∃ j, j < (fun _ : Nat => 1) q ∧ twoRankNeighbors q j = (r : Int) + 1 := by
    intro r hr i _
    interval_cases r
    · exact ⟨1, by decide, rfl, 0, by decide, rfl⟩
    · exact ⟨0, by decide, rfl, 0, by decide, rfl⟩
  have hnodup : ∀ r, r < 2 → ∀ i j, i < (fun _ : Nat => 1) r → j < (fun _ : Nat => 1) r →
      twoRankNeighbors r i = twoRankNeighbors r j → i = j := by
    intro r _ i j hi hj _
    simp only at hi hj
    omega
  have hoff : ∀ r, r < 2 → ∀ i, i < (fun _ : Nat => 1) r →
      0 ≤ twoRankOffsets r i ∧ twoRankOffsets r i < 2147483648 := by
    intro r hr i _
    interval_cases r <;> simp [twoRankOffsets]
  have hall : allReturned 2 (exec 2 twoRankSchedule
      (offsetExchangeWorld 2 (fun _ => 1) twoRankNeighbors twoRankOffsets
        (fun _ _ => 0) 4 0)) = true := by decide
  have hmain := (offset_exchange_correct 2 (fun _ => 1) twoRankNeighbors twoRankOffsets
    (fun _ _ => 0) 4 0 (by decide) (by decide) hsym hnodup hoff).2 twoRankSchedule hall
  refine ⟨⟨by decide, by decide⟩, hsym, hall, ?_, ?_⟩
  · obtain ⟨tbl, h1, h2, _⟩ := hmain 0 (by decide)
    exact ⟨tbl, h1, h2 0 1 0 (by decide) (by decide) (by decide) (by decide) (by decide)⟩
  · obtain ⟨tbl, h1, h2, _⟩ := hmain 1 (by decide)
    exact ⟨tbl, h1, h2 0 0 0 (by decide) (by decide) (by decide) (by decide) (by decide)⟩

end MiniFEM
namespace MiniFEM

/-! ## The global reduction on a group -/

/-- The local maximum loop returns an upper bound of the start value and of
the entries visited, and it is the start value or one of these entries. -/
theorem localMaxLoop_spec (f : Nat → Int) :
    ∀ (count i : Nat) (m : Int),
      (m ≤ localMaxLoop f count i m
        ∧ ∀ j, i ≤ j → j < i + count → f j ≤ localMaxLoop f count i m)
      ∧ (localMaxLoop f count i m = m
        ∨ ∃ j, i ≤ j ∧ j < i + count ∧ localMaxLoop f count i m = f j) := by
  intro count
  induction count with
  | zero =>
      intro i m
      exact ⟨⟨le_refl _, fun j h1 h2 => by omega⟩, Or.inl rfl⟩
  | succ c ih =>
      intro i m
      unfold localMaxLoop
      by_cases hf : f i > m
      · rw [if_pos hf]
        obtain ⟨⟨h1, h2⟩, h3⟩ := ih (i + 1) (f i)
        refine ⟨⟨by omega, ?_⟩, ?_⟩
        · intro j hj1 hj2
          by_cases hji : j = i
          · rw [hji]
            exact h1
          · exact h2 j (by omega) (by omega)
        · rcases h3 with h3 | ⟨j, hj1, hj2, hj3⟩
          · exact Or.inr ⟨i, le_refl i, by omega, h3⟩
          · exact Or.inr ⟨j, by omega, by omega, hj3⟩
      · rw [if_neg hf]
        obtain ⟨⟨h1, h2⟩, h3⟩ := ih (i + 1) m
        refine ⟨⟨h1, ?_⟩, ?_⟩
        · intro j hj1 hj2
          by_cases hji : j = i
          · rw [hji]
            omega
          · exact h2 j (by omega) (by omega)
        · rcases h3 with h3 | ⟨j, hj1, hj2, hj3⟩
          · exact Or.inl h3
          · exact Or.inr ⟨j, by omega, by omega, hj3⟩

theorem localMaxLoop_eq_spec (counts : Nat → Int) (nbIntf : Nat)
    (h : ∀ i, i < nbIntf → 0 ≤ counts i) :
    localMaxLoop counts nbIntf 0 0 = ((specLocalMax counts nbIntf : Nat) : Int) := by
  obtain ⟨⟨h1, h2⟩, h3⟩ := localMaxLoop_spec counts nbIntf 0 0
  unfold specLocalMax
  apply le_antisymm
  · rcases h3 with h3 | ⟨j, _, hj2, hj3⟩
    · rw [h3]
      exact Int.ofNat_nonneg _
    · rw [hj3]
      have hle : (counts j).toNat ≤ (Finset.range nbIntf).sup (fun i => (counts i).toNat) :=
        Finset.le_sup (f := fun i => (counts i).toNat) (Finset.mem_range.mpr (by omega))
      have := h j (by omega)
      omega
  · have hle : (Finset.range nbIntf).sup (fun i => (counts i).toNat)
        ≤ (localMaxLoop counts nbIntf 0 0).toNat := by
      apply Finset.sup_le
      intro i hi
      have := h2 i (Nat.zero_le _) (by have := Finset.mem_range.mp hi; omega)
      omega
    omega

theorem reduceMax_spec (v : Nat → Int) :
    ∀ k, (∀ r, r ≤ k → v r ≤ reduceMax v k) ∧ ∃ r, r ≤ k ∧ reduceMax v k = v r := by
  intro k
  induction k with
  | zero => exact ⟨fun r hr => by rw [Nat.le_zero.mp hr]; exact le_refl _, 0, le_refl _, rfl⟩
  | succ k ih =>
      obtain ⟨h1, r0, hr0, h2⟩ := ih
      unfold reduceMax
      constructor
      · intro r hr
        by_cases hrk : r ≤ k
        · exact le_trans (h1 r hrk) (le_max_left _ _)
        · have : r = k + 1 := by omega
          rw [this]
          exact le_max_right _ _
      · rcases max_choice (reduceMax v k) (v (k + 1)) with hm | hm
        · exact ⟨r0, by omega, by rw [hm, h2]⟩
        · exact ⟨k + 1, le_refl _, hm⟩

theorem reduceMax_eq_spec (n : Nat) (nbIntf : Nat → Nat) (nbDCcomm : Nat → Nat → Int)
    (hn : 0 < n) :
    reduceMax (fun r => ((specLocalMax (nbDCcomm r) (nbIntf r) : Nat) : Int)) (n - 1)
      = ((specGlobalMax n nbIntf nbDCcomm : Nat) : Int) := by
  obtain ⟨h1, r0, hr0, h2⟩ :=
    reduceMax_spec (fun r => ((specLocalMax (nbDCcomm r) (nbIntf r) : Nat) : Int)) (n - 1)
  unfold specGlobalMax
  apply le_antisymm
  · rw [h2]
    have hle : specLocalMax (nbDCcomm r0) (nbIntf r0)
        ≤ (Finset.range n).sup (fun r => specLocalMax (nbDCcomm r) (nbIntf r)) :=
      Finset.le_sup (f := fun r => specLocalMax (nbDCcomm r) (nbIntf r))
        (Finset.mem_range.mpr (by omega))
    exact_mod_cast hle
  · have hle : (Finset.range n).sup (fun r => specLocalMax (nbDCcomm r) (nbIntf r))
        ≤ (reduceMax (fun r => ((specLocalMax (nbDCcomm r) (nbIntf r) : Nat) : Int))
            (n - 1)).toNat := by
      apply Finset.sup_le
      intro r hr
      have := h1 r (by have := Finset.mem_range.mp hr; omega)
      simp only at this
      omega
    omega

theorem specGlobalMax_lt (n : Nat) (nbIntf : Nat → Nat) (nbDCcomm : Nat → Nat → Int)
    (hcount : ∀ r, r < n → ∀ i, i < nbIntf r → nbDCcomm r i < 2147483648) :
    specGlobalMax n nbIntf nbDCcomm < 2147483648 := by
  unfold specGlobalMax specLocalMax
  rw [Finset.sup_lt_iff (by decide)]
  intro r hr
  rw [Finset.sup_lt_iff (by decide)]
  intro i hi
  have := hcount r (Finset.mem_range.mp hr) i (Finset.mem_range.mp hi)
  omega

theorem toInt_toUInt (g : Int) (h0 : 0 ≤ g) (h1 : g < 2147483648) : toInt (toUInt g) = g := by
  unfold toInt toUInt wrapInt
  omega

theorem stepRank_allreduce {α : Type} (n : Nat) (w : World α) (r : Nat) (v : Int)
    (k : Nat → Prog α) (h : w.procs r = SUCCESS_OR_DIE (Op.gaspi_allreduce v) k) :
    stepRank n w r = w := by
  unfold stepRank
  rw [h]
  unfold SUCCESS_OR_DIE
  simp

theorem stepDeliver_nil {α : Type} (w : World α) (idx : Nat) (h : w.inflight = []) :
    stepDeliver w idx = w := by
  unfold stepDeliver
  rw [h]
  simp

theorem stepBarrier_blocked {α : Type} (n : Nat) (w : World α) (r : Nat) (hr : r < n)
    (h : atBarrier (w.procs r) = false) : stepBarrier n w = w := by
  unfold stepBarrier
  rw [if_neg]
  intro ha
  rw [(allRanks_iff _ _).mp ha r hr] at h
  cases h

theorem stepAllreduce_blocked {α : Type} (n : Nat) (w : World α) (r : Nat) (hr : r < n)
    (h : contribution (w.procs r) = none) : stepAllreduce n w = w := by
  unfold stepAllreduce
  rw [if_neg]
  intro ha
  have := (allRanks_iff _ _).mp ha r hr
  simp only [h] at this
  cases this

section GlobalMax

variable (n : Nat) (nbIntf : Nat → Nat) (nbDCcomm : Nat → Nat → Int) (globalMax : Nat → Int)

theorem maxWorld_procs (h2 : 2 ≤ n)
    (hcount : ∀ r, r < n → ∀ i, i < nbIntf r → 0 ≤ nbDCcomm r i) (r : Nat) (hr : r < n) :
    (maxWorld n nbIntf nbDCcomm globalMax).procs r
      = SUCCESS_OR_DIE (Op.gaspi_allreduce ((specLocalMax (nbDCcomm r) (nbIntf r) : Nat) : Int))
          (fun out => Prog.ret (toInt out)) := by
  have h : ¬ ((n : Int) < 2) := by omega
  show GASPI_max_nb_communications (nbDCcomm r) (globalMax r) (nbIntf r) n r = _
  rw [GASPI_max_nb_communications, if_neg h]
  simp only [Int.toNat_ofNat]
  rw [localMaxLoop_eq_spec (nbDCcomm r) (nbIntf r) (hcount r hr)]

/-- The state after the all-reduce: every rank has returned the global
maximum of the spec. -/
theorem maxWorld_after (h2 : 2 ≤ n)
    (hcount : ∀ r, r < n → ∀ i, i < nbIntf r →
      0 ≤ nbDCcomm r i ∧ nbDCcomm r i < 2147483648) :
    (stepAllreduce n (maxWorld n nbIntf nbDCcomm globalMax)).inflight = []
    ∧ ∀ r, r < n → (stepAllreduce n (maxWorld n nbIntf nbDCcomm globalMax)).procs r
        = Prog.ret ((specGlobalMax n nbIntf nbDCcomm : Nat) : Int) := by
  have hprocs := maxWorld_procs n nbIntf nbDCcomm globalMax h2 (fun r hr i hi => (hcount r hr i hi).1)
  have hall : allRanks n (fun r =>
      (contribution ((maxWorld n nbIntf nbDCcomm globalMax).procs r)).isSome) = true := by
    rw [allRanks_iff]
    intro r hr
    simp only [hprocs r hr]
    rfl
  have hred : reduceMax (fun q =>
      (contribution ((maxWorld n nbIntf nbDCcomm globalMax).procs q)).getD 0) (n - 1)
      = ((specGlobalMax n nbIntf nbDCcomm : Nat) : Int) := by
    rw [← reduceMax_eq_spec n nbIntf nbDCcomm (by omega)]
    obtain ⟨h1, r0, hr0, h3⟩ := reduceMax_spec (fun q =>
      (contribution ((maxWorld n nbIntf nbDCcomm globalMax).procs q)).getD 0) (n - 1)
    have hcongr : ∀ (v1 v2 : Nat → Int) (k : Nat), (∀ r, r ≤ k → v1 r = v2 r) →
        reduceMax v1 k = reduceMax v2 k := by
      intro v1 v2 k
      induction k with
      | zero => intro hv; exact hv 0 (le_refl 0)
      | succ k ih =>
          intro hv
          unfold reduceMax
          rw [ih (fun r hr => hv r (by omega)), hv (k + 1) (le_refl _)]
    apply hcongr
    intro r hr
    simp only [hprocs r (by omega)]
    rfl
  unfold stepAllreduce
  rw [if_pos hall]
  refine ⟨rfl, ?_⟩
  intro r hr
  show (if r < n then passAllreduce _ _ else _) = _
  rw [if_pos hr, hred, hprocs r hr]
  show Prog.ret (toInt (toUInt _)) = _
  rw [toInt_toUInt _ (Int.ofNat_nonneg _)
    (by have := specGlobalMax_lt n nbIntf nbDCcomm (fun r hr i hi => (hcount r hr i hi).2); omega)]

/-- Every schedule leaves the group before the all-reduce or right after it. -/
theorem maxWorld_exec (h2 : 2 ≤ n)
    (hcount : ∀ r, r < n → ∀ i, i < nbIntf r →
      0 ≤ nbDCcomm r i ∧ nbDCcomm r i < 2147483648) (sched : List Label) :
    exec n sched (maxWorld n nbIntf nbDCcomm globalMax) = maxWorld n nbIntf nbDCcomm globalMax
    ∨ exec n sched (maxWorld n nbIntf nbDCcomm globalMax)
        = stepAllreduce n (maxWorld n nbIntf nbDCcomm globalMax) := by
  have hprocs := maxWorld_procs n nbIntf nbDCcomm globalMax h2 (fun r hr i hi => (hcount r hr i hi).1)
  obtain ⟨hfl, hfp⟩ := maxWorld_after n nbIntf nbDCcomm globalMax h2 hcount
  have hstep0 : ∀ l, step n (maxWorld n nbIntf nbDCcomm globalMax) l
        = maxWorld n nbIntf nbDCcomm globalMax
      ∨ step n (maxWorld n nbIntf nbDCcomm globalMax) l
        = stepAllreduce n (maxWorld n nbIntf nbDCcomm globalMax) := by
    intro l
    cases l with
    | rank r =>
        left
        rw [step_rank]
        by_cases hr : r < n
        · rw [if_pos hr]
          exact stepRank_allreduce n _ r _ _ (hprocs r hr)
        · rw [if_neg hr]
    | deliver idx =>
        left
        rw [step_deliver]
        exact stepDeliver_nil _ idx rfl
    | barrier =>
        left
        rw [step_barrier]
        apply stepBarrier_blocked n _ 0 (by omega)
        rw [hprocs 0 (by omega)]
        rfl
    | allreduce => exact Or.inr rfl
  have hstepF : ∀ l, step n (stepAllreduce n (maxWorld n nbIntf nbDCcomm globalMax)) l
        = stepAllreduce n (maxWorld n nbIntf nbDCcomm globalMax) := by
    intro l
    cases l with
    | rank r =>
        rw [step_rank]
        by_cases hr : r < n
        · rw [if_pos hr]
          exact stepRank_ret n _ r _ (hfp r hr)
        · rw [if_neg hr]
    | deliver idx =>
        rw [step_deliver]
        exact stepDeliver_nil _ idx hfl
    | barrier =>
        rw [step_barrier]
        apply stepBarrier_blocked n _ 0 (by omega)
        rw [hfp 0 (by omega)]
        rfl
    | allreduce =>
        rw [step_allreduce]
        apply stepAllreduce_blocked n _ 0 (by omega)
        rw [hfp 0 (by omega)]
        rfl
  have hexecF : ∀ s : List Label,
      exec n s (stepAllreduce n (maxWorld n nbIntf nbDCcomm globalMax))
        = stepAllreduce n (maxWorld n nbIntf nbDCcomm globalMax) := by
    intro s
    induction s with
    | nil => rfl
    | cons l ls ih =>
        show exec n ls (step n _ l) = _
        rw [hstepF l, ih]
  induction sched with
  | nil => exact Or.inl rfl
  | cons l ls ih =>
      show exec n ls (step n _ l) = _ ∨ exec n ls (step n _ l) = _
      rcases hstep0 l with h | h
      · rw [h]
        exact ih
      · rw [h]
        exact Or.inr (hexecF ls)

/-- C7: global reduction.  For a group of `n ≥ 2` ranks, each with its own
array of per-interface counts (non-negative `int`s), when all ranks call
`GASPI_max_nb_communications` and the all-reduce delivers the maximum of the
contributions: from every state the group reaches some schedule leads all
ranks to their return, and whenever all ranks have returned every rank's
`globalMax` holds the same value `max(m_0, ..., m_{n-1})`, `m_r` being the
maximum over the entries of the count array of rank `r`. -/
theorem max_across_ranks (h2 : 2 ≤ n)
    (hcount : ∀ r, r < n → ∀ i, i < nbIntf r →
      0 ≤ nbDCcomm r i ∧ nbDCcomm r i < 2147483648) :
    (∀ sched, ∃ more,
        allReturned n (exec n (sched ++ more) (maxWorld n nbIntf nbDCcomm globalMax)) = true)
    ∧ (∀ sched,
        allReturned n (exec n sched (maxWorld n nbIntf nbDCcomm globalMax)) = true →
        ∀ r, r < n → (exec n sched (maxWorld n nbIntf nbDCcomm globalMax)).procs r
          = Prog.ret ((specGlobalMax n nbIntf nbDCcomm : Nat) : Int)) := by
  have hprocs := maxWorld_procs n nbIntf nbDCcomm globalMax h2 (fun r hr i hi => (hcount r hr i hi).1)
  obtain ⟨hfl, hfp⟩ := maxWorld_after n nbIntf nbDCcomm globalMax h2 hcount
  have hexec := maxWorld_exec n nbIntf nbDCcomm globalMax h2 hcount
  have hfinal : allReturned n (stepAllreduce n (maxWorld n nbIntf nbDCcomm globalMax))
      = true := by
    unfold allReturned
    rw [allRanks_iff]
    intro r hr
    simp only [hfp r hr]
    rfl
  constructor
  · intro sched
    refine ⟨[Label.allreduce], ?_⟩
    rw [exec_append]
    rcases hexec sched with h | h
    · rw [h]
      exact hfinal
    · rw [h]
      have h8 : exec n [Label.allreduce]
          (stepAllreduce n (maxWorld n nbIntf nbDCcomm globalMax))
          = stepAllreduce n (maxWorld n nbIntf nbDCcomm globalMax) := by
        show stepAllreduce n _ = _
        apply stepAllreduce_blocked n _ 0 (by omega)
        rw [hfp 0 (by omega)]
        rfl
      rw [h8]
      exact hfinal
  · intro sched hall r hr
    rcases hexec sched with h | h
    · exfalso
      rw [h] at hall
      unfold allReturned at hall
      rw [allRanks_iff] at hall
      have h0 := hall 0 (by omega)
      simp only [hprocs 0 (by omega)] at h0
      cases h0
    · rw [h]
      exact hfp r hr

end GlobalMax

/-- Witness of C7: counts `[3, 7]` on rank 0 and `[4]` on rank 1; both ranks
obtain 7. -/
theorem max_across_ranks_witness :
    2 ≤ 2
    ∧ (∀ r, r < 2 → ∀ i, i < twoRankNbIntf r →
        0 ≤ twoRankCounts r i ∧ twoRankCounts r i < 2147483648)
    ∧ allReturned 2 (exec 2 [Label.allreduce]
        (maxWorld 2 twoRankNbIntf twoRankCounts (fun _ => 0))) = true
    ∧ (∀ r, r < 2 → (exec 2 [Label.allreduce]
        (maxWorld 2 twoRankNbIntf twoRankCounts (fun _ => 0))).procs r = Prog.ret 7) := by
  have hcount : ∀ r, r < 2 → ∀ i, i < twoRankNbIntf r →
      0 ≤ twoRankCounts r i ∧ twoRankCounts r i < 2147483648 := by
    intro r _ i _
    unfold twoRankCounts
    split_ifs <;> exact ⟨by decide, by decide⟩
  have hall : allReturned 2 (exec 2 [Label.allreduce]
      (maxWorld 2 twoRankNbIntf twoRankCounts (fun _ => 0))) = true := by decide
  have hmax : ((specGlobalMax 2 twoRankNbIntf twoRankCounts : Nat) : Int) = 7 := by decide
  have hmain := (max_across_ranks 2 twoRankNbIntf twoRankCounts (fun _ => 0) (le_refl 2)
    hcount).2 [Label.allreduce] hall
  rw [hmax] at hmain
  exact ⟨le_refl 2, hcount, hall, hmain⟩

end MiniFEM
namespace MiniFEM

/-! ## The shape of an exchange when every primitive succeeds -/

theorem sendLoop_run_ok {α : Type} (env : Env)
    (hok : ∀ k op, (env k op).rc = ReturnCode.GASPI_SUCCESS)
    (data nl : Nat → Int) (rank : Int) (seg q : Nat) (k : Prog α) :
    ∀ (count i : Nat) (tr : List Op),
      (sendLoop data nl rank seg q k count i).run env tr
        = k.run env (tr ++ (List.range' i count).map (notifyAt data nl rank seg q)) := by
  intro count
  induction count with
  | zero => intro i tr; simp [sendLoop]
  | succ c ih =>
      intro i tr
      unfold sendLoop
      rw [run_die, if_pos (hok _ _), ih, List.range'_succ]
      simp [notifyAt]

theorem recvLoop_run_ok {α σ : Type} (env : Env)
    (hok : ∀ k op, (env k op).rc = ReturnCode.GASPI_SUCCESS)
    (nl : Nat → Int) (seg : Nat) (store : Nat → Nat → σ → σ) (k : σ → Prog α) :
    ∀ (count i : Nat) (s : σ) (tr : List Op), ∃ s1,
      (recvLoop nl seg store k count i s).run env tr
        = (k s1).run env (tr ++ recvOps env nl seg count i tr.length) := by
  intro count
  induction count with
  | zero => intro i s tr; exact ⟨s, by simp [recvLoop, recvOps]⟩
  | succ c ih =>
      intro i s tr
      unfold recvLoop
      rw [run_die, if_pos (hok _ _), run_die, if_pos (hok _ _)]
      obtain ⟨s1, h1⟩ := ih (i + 1) (store i (env (tr ++ [Op.gaspi_notify_waitsome seg
        (wrapInt (nl i - 1)) 1]).length (Op.gaspi_notify_reset seg (env tr.length
        (Op.gaspi_notify_waitsome seg (wrapInt (nl i - 1)) 1)).out)).out s)
        (tr ++ [Op.gaspi_notify_waitsome seg (wrapInt (nl i - 1)) 1]
          ++ [Op.gaspi_notify_reset seg (env tr.length
            (Op.gaspi_notify_waitsome seg (wrapInt (nl i - 1)) 1)).out])
      refine ⟨s1, ?_⟩
      rw [h1]
      simp [recvOps]

theorem recvOps_length (env : Env) (nl : Nat → Int) (seg : Nat) :
    ∀ count i k, (recvOps env nl seg count i k).length = 2 * count := by
  intro count
  induction count with
  | zero => intro i k; rfl
  | succ c ih =>
      intro i k
      simp only [recvOps, List.length_cons, ih]
      omega

theorem recvOps_get (env : Env) (nl : Nat → Int) (seg : Nat) :
    ∀ count i k j, j < count →
      (recvOps env nl seg count i k)[2 * j]?
          = some (Op.gaspi_notify_waitsome seg (wrapInt (nl (i + j) - 1)) 1)
      ∧ (recvOps env nl seg count i k)[2 * j + 1]?
          = some (Op.gaspi_notify_reset seg (env (k + 2 * j)
              (Op.gaspi_notify_waitsome seg (wrapInt (nl (i + j) - 1)) 1)).out) := by
  intro count
  induction count with
  | zero => intro i k j hj; omega
  | succ c ih =>
      intro i k j hj
      cases j with
      | zero => simp [recvOps]
      | succ j =>
          obtain ⟨h1, h2⟩ := ih (i + 1) (k + 2) j (by omega)
          have e1 : 2 * (j + 1) = (2 * j) + 1 + 1 := by omega
          have e3 : i + (j + 1) = i + 1 + j := by omega
          have e4 : k + (2 * j + 1 + 1) = k + 2 + 2 * j := by omega
          rw [e1, e3, e4]
          simp only [recvOps, List.getElem?_cons_succ]
          exact ⟨h1, h2⟩

/-- The run of the body of an exchange when every primitive succeeds. -/
theorem exchange_run_ok {σ : Type} (env : Env)
    (hok : ∀ k op, (env k op).rc = ReturnCode.GASPI_SUCCESS)
    (data nl : Nat → Int) (nbIntf rank : Int) (seg q : Nat) (store : Nat → Nat → σ → σ)
    (s : σ) :
    ∃ s1, (exchange data nl nbIntf rank seg q store s).run env []
      = ⟨(List.range' 0 nbIntf.toNat).map (notifyAt data nl rank seg q)
          ++ recvOps env nl seg nbIntf.toNat 0 nbIntf.toNat ++ [Op.gaspi_barrier],
        Outcome.returned s1⟩ := by
  unfold exchange
  rw [sendLoop_run_ok env hok]
  obtain ⟨s1, h1⟩ := recvLoop_run_ok env hok nl seg store
    (fun s1 => SUCCESS_OR_DIE Op.gaspi_barrier fun _ => Prog.ret s1) nbIntf.toNat 0 s
    ([] ++ (List.range' 0 nbIntf.toNat).map (notifyAt data nl rank seg q))
  refine ⟨s1, ?_⟩
  rw [h1, run_die, if_pos (hok _ _), run_ret]
  simp

/-- The trace of the body of an exchange, position by position. -/
theorem exchange_shape {σ : Type} (env : Env)
    (hok : ∀ k op, (env k op).rc = ReturnCode.GASPI_SUCCESS)
    (data nl : Nat → Int) (nbIntf rank : Int) (seg q : Nat) (store : Nat → Nat → σ → σ)
    (s : σ) :
    (∃ s1, ((exchange data nl nbIntf rank seg q store s).run env []).outcome
        = Outcome.returned s1)
    ∧ ((exchange data nl nbIntf rank seg q store s).run env []).trace.length
        = 3 * nbIntf.toNat + 1
    ∧ (∀ i, i < nbIntf.toNat →
        ((exchange data nl nbIntf rank seg q store s).run env []).trace[i]?
          = some (notifyAt data nl rank seg q i))
    ∧ (∀ i, i < nbIntf.toNat →
        ((exchange data nl nbIntf rank seg q store s).run env []).trace[nbIntf.toNat + 2 * i]?
          = some (Op.gaspi_notify_waitsome seg (wrapInt (nl i - 1)) 1)
        ∧ ((exchange data nl nbIntf rank seg q store s).run env []).trace[
              nbIntf.toNat + 2 * i + 1]?
          = some (Op.gaspi_notify_reset seg (env (nbIntf.toNat + 2 * i)
              (Op.gaspi_notify_waitsome seg (wrapInt (nl i - 1)) 1)).out))
    ∧ ((exchange data nl nbIntf rank seg q store s).run env []).trace[3 * nbIntf.toNat]?
        = some Op.gaspi_barrier := by
  obtain ⟨s1, h1⟩ := exchange_run_ok env hok data nl nbIntf rank seg q store s
  rw [h1]
  have hlenA : ((List.range' 0 nbIntf.toNat).map (notifyAt data nl rank seg q)).length
      = nbIntf.toNat := by simp
  have hlenB := recvOps_length env nl seg nbIntf.toNat 0 nbIntf.toNat
  refine ⟨⟨s1, rfl⟩, ?_, ?_, ?_, ?_⟩
  · simp only [List.length_append, hlenA, hlenB, List.length_singleton]
    omega
  · intro i hi
    show (_ ++ _ ++ _)[i]? = _
    rw [List.append_assoc, List.getElem?_append_left (by rw [hlenA]; exact hi),
      List.getElem?_map, List.getElem?_range' 0 1 hi]
    simp
  · intro i hi
    obtain ⟨g1, g2⟩ := recvOps_get env nl seg nbIntf.toNat 0 nbIntf.toNat i hi
    rw [Nat.zero_add] at g1 g2
    constructor
    · show (_ ++ _ ++ _)[_]? = _
      rw [List.append_assoc, List.getElem?_append_right (by rw [hlenA]; omega), hlenA,
        List.getElem?_append_left (by rw [hlenB]; omega)]
      rw [show nbIntf.toNat + 2 * i - nbIntf.toNat = 2 * i by omega]
      exact g1
    · show (_ ++ _ ++ _)[_]? = _
      rw [List.append_assoc, List.getElem?_append_right (by rw [hlenA]; omega), hlenA,
        List.getElem?_append_left (by rw [hlenB]; omega)]
      rw [show nbIntf.toNat + 2 * i + 1 - nbIntf.toNat = 2 * i + 1 by omega]
      exact g2
  · show (_ ++ _ ++ _)[_]? = _
    rw [List.getElem?_append_right (by simp only [List.length_append, hlenA, hlenB]; omega)]
    simp only [List.length_append, hlenA, hlenB]
    rw [show 3 * nbIntf.toNat - (nbIntf.toNat + 2 * nbIntf.toNat) = 0 by omega]
    rfl

/-- Where the notifies, the waits and the barrier stand in a trace of the
shape of an exchange. -/
theorem shape_positions (T : List Op) (m : Nat) (notifyOp waitOp resetOp : Nat → Op)
    (hn : ∀ i, (notifyOp i).isNotify = true)
    (hw : ∀ i, (waitOp i).isNotify = false ∧ waitOp i ≠ Op.gaspi_barrier)
    (hr : ∀ i, (resetOp i).isNotify = false ∧ (resetOp i).isWait = false
      ∧ resetOp i ≠ Op.gaspi_barrier)
    (hlen : T.length = 3 * m + 1)
    (hA : ∀ i, i < m → T[i]? = some (notifyOp i))
    (hB : ∀ i, i < m → T[m + 2 * i]? = some (waitOp i) ∧ T[m + 2 * i + 1]? = some (resetOp i))
    (hC : T[3 * m]? = some Op.gaspi_barrier) :
    ∀ a op, T[a]? = some op →
      (op.isNotify = true → a < m) ∧ (op.isWait = true → m ≤ a ∧ a < 3 * m)
      ∧ (op = Op.gaspi_barrier → a = 3 * m) := by
  intro a op ha
  have halt : a < T.length := by
    by_contra hc
    rw [List.getElem?_eq_none (not_lt.mp hc)] at ha
    cases ha
  by_cases h1 : a < m
  · rw [hA a h1] at ha
    have hop := Option.some.inj ha
    subst hop
    refine ⟨fun _ => h1, fun h => ?_, fun h => ?_⟩
    · have := hn a
      cases hx : notifyOp a <;> rw [hx] at this h <;> simp [Op.isNotify, Op.isWait] at this h
    · have := hn a
      rw [h] at this
      simp [Op.isNotify] at this
  · by_cases h2 : a < 3 * m
    · have hj : (a - m) / 2 < m := by omega
      obtain ⟨g1, g2⟩ := hB ((a - m) / 2) hj
      rcases Nat.mod_two_eq_zero_or_one (a - m) with hpar | hpar
      · have e : m + 2 * ((a - m) / 2) = a := by omega
        rw [e, ha] at g1
        have hop := Option.some.inj g1
        subst hop
        refine ⟨fun h => ?_, fun _ => ⟨by omega, h2⟩, fun h => absurd h (hw _).2⟩
        rw [(hw _).1] at h
        cases h
      · have e : m + 2 * ((a - m) / 2) + 1 = a := by omega
        rw [e, ha] at g2
        have hop := Option.some.inj g2
        subst hop
        refine ⟨fun h => ?_, fun h => ?_, fun h => absurd h (hr _).2.2⟩
        · rw [(hr _).1] at h
          cases h
        · rw [(hr _).2.1] at h
          cases h
    · have e : a = 3 * m := by omega
      rw [e, hC] at ha
      have hop := Option.some.inj ha
      subst hop
      exact ⟨fun h => by simp [Op.isNotify] at h, fun h => by simp [Op.isWait] at h,
        fun _ => e⟩

/-- C12: a barrier closes every exchange round.  With at least two ranks,
`nbIntf ≥ 0` interfaces (also none) and every primitive succeeding, both
`GASPI_offset_exchange` and `GASPI_nb_notifications_exchange` return, and the
trace `T` of either consists of exactly `nbIntf` notifies in interface order
(positions `0 .. nbIntf-1`), then exactly `nbIntf` pairs of a waitsome and the
reset of the id it returned, in interface order, then exactly one barrier, at
the last position `3 nbIntf`: every notify stands before every wait, and the
only barrier is the last operation. -/
theorem barrier_closes_round (env : Env) (intfDestIndex data neighborsList : Nat → Int)
    (nbNotifications nbBlocks rank : Int) (nbIntf seg queueID : Nat) (T : List Op)
    (h2 : 2 ≤ nbBlocks) (hok : ∀ k op, (env k op).rc = ReturnCode.GASPI_SUCCESS)
    (hT : T = ((GASPI_offset_exchange intfDestIndex data neighborsList nbIntf nbBlocks rank
            seg queueID).run env []).trace
      ∨ T = ((GASPI_nb_notifications_exchange neighborsList data nbNotifications nbIntf
            nbBlocks rank seg queueID).run env []).trace) :
    ((∃ t, ((GASPI_offset_exchange intfDestIndex data neighborsList nbIntf nbBlocks rank
          seg queueID).run env []).outcome = Outcome.returned t)
      ∧ (∃ t, ((GASPI_nb_notifications_exchange neighborsList data nbNotifications nbIntf
          nbBlocks rank seg queueID).run env []).outcome = Outcome.returned t))
    ∧ T.length = 3 * nbIntf + 1
    ∧ (∀ i, i < nbIntf → T[i]? = some (Op.gaspi_notify seg (wrapInt (neighborsList i - 1))
        rank (toUInt (wrapInt (data i + 1))) queueID))
    ∧ (∀ i, i < nbIntf →
        T[nbIntf + 2 * i]? = some (Op.gaspi_notify_waitsome seg
          (wrapInt (neighborsList i - 1)) 1)
        ∧ T[nbIntf + 2 * i + 1]? = some (Op.gaspi_notify_reset seg
            (env (nbIntf + 2 * i) (Op.gaspi_notify_waitsome seg
              (wrapInt (neighborsList i - 1)) 1)).out))
    ∧ T[3 * nbIntf]? = some Op.gaspi_barrier
    ∧ (∀ a op, T[a]? = some op →
        (op.isNotify = true → a < nbIntf)
        ∧ (op.isWait = true → nbIntf ≤ a ∧ a < 3 * nbIntf)
        ∧ (op = Op.gaspi_barrier → a = 3 * nbIntf)) := by
  have hnb : ¬ nbBlocks < 2 := not_lt.mpr h2
  have hm : ((nbIntf : Nat) : Int).toNat = nbIntf := Int.toNat_ofNat nbIntf
  have s1 := exchange_shape env hok data neighborsList nbIntf rank seg queueID
    storeDestIndex intfDestIndex
  have s2 := exchange_shape env hok data neighborsList nbIntf rank seg queueID
    addNotifications nbNotifications
  rw [hm] at s1 s2
  have hshape : T.length = 3 * nbIntf + 1
      ∧ (∀ i, i < nbIntf → T[i]? = some (notifyAt data neighborsList rank seg queueID i))
      ∧ (∀ i, i < nbIntf →
          T[nbIntf + 2 * i]? = some (Op.gaspi_notify_waitsome seg
            (wrapInt (neighborsList i - 1)) 1)
          ∧ T[nbIntf + 2 * i + 1]? = some (Op.gaspi_notify_reset seg
              (env (nbIntf + 2 * i) (Op.gaspi_notify_waitsome seg
                (wrapInt (neighborsList i - 1)) 1)).out))
      ∧ T[3 * nbIntf]? = some Op.gaspi_barrier := by
    rcases hT with h | h
    · rw [h, GASPI_offset_exchange, if_neg hnb]
      exact s1.2
    · rw [h, GASPI_nb_notifications_exchange, if_neg hnb]
      exact s2.2
  refine ⟨⟨?_, ?_⟩, hshape.1, hshape.2.1, hshape.2.2.1, hshape.2.2.2, ?_⟩
  · rw [GASPI_offset_exchange, if_neg hnb]
    exact s1.1
  · rw [GASPI_nb_notifications_exchange, if_neg hnb]
    exact s2.1
  · exact shape_positions T nbIntf (notifyAt data neighborsList rank seg queueID)
      (fun i => Op.gaspi_notify_waitsome seg (wrapInt (neighborsList i - 1)) 1)
      (fun i => Op.gaspi_notify_reset seg (env (nbIntf + 2 * i) (Op.gaspi_notify_waitsome seg
        (wrapInt (neighborsList i - 1)) 1)).out)
      (fun _ => rfl) (fun _ => ⟨rfl, by simp⟩) (fun _ => ⟨rfl, rfl, by simp⟩)
      hshape.1 hshape.2.1 hshape.2.2.1 hshape.2.2.2

/-- Witness of C12: the offset exchange of rank 0 of two ranks with two
interfaces. -/
theorem barrier_closes_round_witness :
    (2 : Int) ≤ 2 ∧ (∀ k op, (envOk k op).rc = ReturnCode.GASPI_SUCCESS)
    ∧ ((GASPI_offset_exchange (fun _ => 0) (fun _ => 5) (fun _ => 2) ((2 : Nat) : Int) 2 0
          4 0).run envOk []).trace
        = [Op.gaspi_notify 4 1 0 6 0, Op.gaspi_notify 4 1 0 6 0,
           Op.gaspi_notify_waitsome 4 1 1, Op.gaspi_notify_reset 4 0,
           Op.gaspi_notify_waitsome 4 1 1, Op.gaspi_notify_reset 4 0, Op.gaspi_barrier]
    ∧ ((GASPI_offset_exchange (fun _ => 0) (fun _ => 5) (fun _ => 2) ((2 : Nat) : Int) 2 0
          4 0).run envOk []).trace.length = 3 * 2 + 1
    ∧ ((GASPI_offset_exchange (fun _ => 0) (fun _ => 5) (fun _ => 2) ((2 : Nat) : Int) 2 0
          4 0).run envOk []).trace[3 * 2]? = some Op.gaspi_barrier := by
  have h := barrier_closes_round envOk (fun _ => 0) (fun _ => 5) (fun _ => 2) 0 2 0 2 4 0 _
    (by decide) (fun _ _ => rfl) (Or.inl rfl)
  exact ⟨by decide, fun _ _ => rfl, by rfl, h.2.1, h.2.2.2.2.1⟩

end MiniFEM
namespace MiniFEM

/-! ## The count exchange on a group -/

namespace Round

variable {σ : Type} (G : Round σ)

/-- The inputs of a round are well formed when every neighbour entry of a rank
`r` names a rank of the group that lists `r` back, no list repeats an entry
and the data are non-negative `int`s. -/
theorem wellFormed_of (h2 : 2 ≤ G.n) (hn : G.n < 2147483648)
    (hsym : ∀ r, r < G.n → ∀ i, i < G.nbIntf r →
      ∃ q : Nat, q < G.n ∧ G.neighborsList r i = (q : Int) + 1
        ∧ ∃ j, j < G.nbIntf q ∧ G.neighborsList q j = (r : Int) + 1)
    (hnodup : ∀ r, r < G.n → ∀ i j, i < G.nbIntf r → j < G.nbIntf r →
      G.neighborsList r i = G.neighborsList r j → i = j)
    (hdata : ∀ r, r < G.n → ∀ i, i < G.nbIntf r →
      0 ≤ G.data r i ∧ G.data r i < 2147483648) : G.WellFormed := by
  refine ⟨h2, hn, ?_, ?_, hnodup, hdata⟩
  · intro r hr i hi
    obtain ⟨q, hq, hnl, _⟩ := hsym r hr i hi
    omega
  · intro r hr i hi
    obtain ⟨q, hq, hnl, j, hj, hnl2⟩ := hsym r hr i hi
    rw [G.peer_peer hnl]
    exact ⟨j, hj, hnl2⟩

/-- The value expected for an interface is the biased datum the peer holds. -/
theorem expected_eq (hwf : G.WellFormed) {r i q j : Nat} (hr : r < G.n)
    (hi : i < G.nbIntf r) (hj : j < G.nbIntf q)
    (hnl : G.neighborsList r i = (q : Int) + 1) (hnl2 : G.neighborsList q j = (r : Int) + 1) :
    G.expected r i = toUInt (wrapInt (G.data q j + 1)) := by
  have hp : G.peer r i = q := G.peer_peer hnl
  have hpi : G.peerIndex r i = j := by
    apply G.peerIndex_spec hwf hr hi
    · rw [hp]; exact hj
    · rw [hp]; exact hnl2
  unfold expected payload
  rw [hpi, hp]

end Round

theorem addNotifications_step (i : Nat) (a c : Int) (h0 : 0 ≤ c) (h1 : c < 2147483648) :
    addNotifications i (toUInt (wrapInt (c + 1))) (wrapInt a) = wrapInt (a + c) := by
  unfold addNotifications toInt usub1 toUInt wrapInt
  omega

theorem wrapInt_of_int (a : Int) (h0 : -2147483648 ≤ a) (h1 : a < 2147483648) :
    wrapInt a = a := by
  unfold wrapInt
  omega

/-- The running total after the first `k` interfaces. -/
theorem countRound_recvState (G : Round Int) (hstore : G.store = addNotifications)
    (hwf : G.WellFormed) (r : Nat) (hr : r < G.n)
    (hinit : -2147483648 ≤ G.init r ∧ G.init r < 2147483648)
    (received : Nat → Int)
    (hrec : ∀ i q j, i < G.nbIntf r → q < G.n → j < G.nbIntf q →
      G.neighborsList r i = (q : Int) + 1 → G.neighborsList q j = (r : Int) + 1 →
      received i = G.data q j) :
    ∀ k, k ≤ G.nbIntf r →
      G.recvState r k = wrapInt (G.init r + ∑ i ∈ Finset.range k, received i) := by
  intro k
  induction k with
  | zero =>
      intro _
      simp only [Round.recvState, Finset.range_zero, Finset.sum_empty, add_zero]
      exact (wrapInt_of_int _ hinit.1 hinit.2).symm
  | succ k ih =>
      intro hk
      have hk1 : k < G.nbIntf r := by omega
      obtain ⟨hq, hqi, _⟩ := G.peer_spec hwf hr hk1
      obtain ⟨j, hj, hnl2⟩ := hwf.sym r hr k hk1
      have hnl : G.neighborsList r k = ((G.peer r k : Nat) : Int) + 1 := by omega
      have hexp := G.expected_eq hwf hr hk1 hj hnl hnl2
      have hd := hwf.data_nonneg (G.peer r k) hq j hj
      have hrk : received k = G.data (G.peer r k) j := hrec k _ j hk1 hq hj hnl hnl2
      simp only [Round.recvState, hstore]
      rw [ih (by omega), hexp, addNotifications_step k _ _ hd.1 hd.2, Finset.sum_range_succ,
        hrk, add_assoc]

theorem countExchangeWorld_eq (n : Nat) (nbIntf : Nat → Nat)
    (neighborsList nbDCcomm : Nat → Nat → Int) (nbNotifications : Nat → Int)
    (seg queue : Nat) (h2 : 2 ≤ n) :
    countExchangeWorld n nbIntf neighborsList nbDCcomm nbNotifications seg queue
      = World.start
          (countRound n nbIntf neighborsList nbDCcomm nbNotifications seg queue).prog := by
  unfold countExchangeWorld
  congr 1
  funext r
  have h : ¬ ((n : Int) < 2) := by omega
  rw [GASPI_nb_notifications_exchange, if_neg h]
  rfl

/-- Every operation of a count exchange is a notify, a waitsome or a reset on
the destination offset segment, or the barrier. -/
theorem count_exchange_ops (env : Env) (neighborsList nbDCcomm : Nat → Int)
    (nbNotifications nbIntf nbBlocks rank : Int) (seg queueID : Nat) :
    ∀ op ∈ ((GASPI_nb_notifications_exchange neighborsList nbDCcomm nbNotifications nbIntf
        nbBlocks rank seg queueID).run env []).trace,
      (∃ t v, op = Op.gaspi_notify seg t rank v queueID)
      ∨ (∃ first num, op = Op.gaspi_notify_waitsome seg first num)
      ∨ (∃ id, op = Op.gaspi_notify_reset seg id) ∨ op = Op.gaspi_barrier := by
  refine AllOps.run_trace (P := fun op => (∃ t v, op = Op.gaspi_notify seg t rank v queueID)
      ∨ (∃ first num, op = Op.gaspi_notify_waitsome seg first num)
      ∨ (∃ id, op = Op.gaspi_notify_reset seg id) ∨ op = Op.gaspi_barrier) env ?_ [] ?_
  · unfold GASPI_nb_notifications_exchange
    split
    · exact AllOps.ret _
    · unfold exchange
      apply allOps_sendLoop
      · apply allOps_recvLoop
        · intro s1
          exact AllOps.die _ _ (Or.inr (Or.inr (Or.inr rfl))) (fun _ => AllOps.ret _)
        · intro first num
          exact Or.inr (Or.inl ⟨first, num, rfl⟩)
        · intro id
          exact Or.inr (Or.inr (Or.inl ⟨id, rfl⟩))
      · intro j _ _
        exact Or.inl ⟨_, _, rfl⟩
  · intro op hop
    cases hop

/-- C11 (as amended): count exchange accumulation.  For a group of `n ≥ 2`
ranks (`n` an `int`) in which every neighbour entry of a rank `r` names
(numbered from 1) a rank of the group that lists `r` back, no neighbour list
contains an entry twice, the communication counts are non-negative `int`s and
the running totals are `int`s: when all ranks call
`GASPI_nb_notifications_exchange`, from every state the group reaches some
schedule leads all ranks to their return; whenever all ranks have returned,
the running total of each rank is its value before the call plus the sum, over
its interfaces, of the count the corresponding neighbour holds for it, reduced
to the 32-bit `int` range, hence exactly that sum when the sum is below
`2^31`; and every operation of the call is a notify, a waitsome or a reset on
the destination offset segment or the barrier (the function receives no
pointer to the destination offset array). -/
theorem count_exchange_accumulates (n : Nat) (nbIntf : Nat → Nat)
    (neighborsList nbDCcomm : Nat → Nat → Int) (nbNotifications : Nat → Int)
    (seg queue : Nat)
    (h2 : 2 ≤ n) (hn : n < 2147483648)
    (hsym : ∀ r, r < n → ∀ i, i < nbIntf r → ∃ q : Nat, q < n
      ∧ neighborsList r i = (q : Int) + 1
      ∧ ∃ j, j < nbIntf q ∧ neighborsList q j = (r : Int) + 1)
    (hnodup : ∀ r, r < n → ∀ i j, i < nbIntf r → j < nbIntf r →
      neighborsList r i = neighborsList r j → i = j)
    (hcount : ∀ r, r < n → ∀ i, i < nbIntf r →
      0 ≤ nbDCcomm r i ∧ nbDCcomm r i < 2147483648)
    (htotal : ∀ r, r < n →
      -2147483648 ≤ nbNotifications r ∧ nbNotifications r < 2147483648) :
    (∀ sched, ∃ more, allReturned n (exec n (sched ++ more)
        (countExchangeWorld n nbIntf neighborsList nbDCcomm nbNotifications seg queue)) = true)
    ∧ (∀ sched, allReturned n (exec n sched
        (countExchangeWorld n nbIntf neighborsList nbDCcomm nbNotifications seg queue)) = true →
        ∀ r, r < n → ∀ received : Nat → Int,
          (∀ i q j, i < nbIntf r → q < n → j < nbIntf q →
            neighborsList r i = (q : Int) + 1 → neighborsList q j = (r : Int) + 1 →
            received i = nbDCcomm q j) →
          ∃ total,
            (exec n sched (countExchangeWorld n nbIntf neighborsList nbDCcomm nbNotifications
              seg queue)).procs r = Prog.ret total
            ∧ total = wrapInt (nbNotifications r + ∑ i ∈ Finset.range (nbIntf r), received i)
            ∧ (nbNotifications r + ∑ i ∈ Finset.range (nbIntf r), received i < 2147483648 →
                total = nbNotifications r + ∑ i ∈ Finset.range (nbIntf r), received i))
    ∧ (∀ (r : Nat) (env : Env),
        ∀ op ∈ ((GASPI_nb_notifications_exchange (neighborsList r) (nbDCcomm r)
            (nbNotifications r) (nbIntf r) n r seg queue).run env []).trace,
          (∃ t v, op = Op.gaspi_notify seg t r v queue)
          ∨ (∃ first num, op = Op.gaspi_notify_waitsome seg first num)
          ∨ (∃ id, op = Op.gaspi_notify_reset seg id) ∨ op = Op.gaspi_barrier) := by
  have hwf : (countRound n nbIntf neighborsList nbDCcomm nbNotifications seg
      queue).WellFormed := Round.wellFormed_of _ h2 hn hsym hnodup hcount
  have hround := Round.round_correct _ hwf
  rw [countExchangeWorld_eq n nbIntf neighborsList nbDCcomm nbNotifications seg queue h2]
  refine ⟨hround.1, ?_, ?_⟩
  · intro sched hall r hr received hrec
    have hstate := countRound_recvState
      (countRound n nbIntf neighborsList nbDCcomm nbNotifications seg queue) rfl hwf r hr
      (htotal r hr) received hrec (nbIntf r) (le_refl _)
    refine ⟨_, hround.2 sched hall r hr, hstate, ?_⟩
    intro hlt
    refine hstate.trans ?_
    apply wrapInt_of_int _ _ hlt
    have hnonneg : 0 ≤ ∑ i ∈ Finset.range (nbIntf r), received i := by
      apply Finset.sum_nonneg
      intro i hi
      have hi1 : i < nbIntf r := Finset.mem_range.mp hi
      obtain ⟨q, hq, hnl, j, hj, hnl2⟩ := hsym r hr i hi1
      rw [hrec i q j hi1 hq hj hnl hnl2]
      exact (hcount q hq j hj).1
    have := (htotal r hr).1
    show -2147483648 ≤ nbNotifications r + ∑ i ∈ Finset.range (nbIntf r), received i
    omega
  · intro r env
    exact count_exchange_ops env _ _ _ _ _ _ _ _

/-- Witness of C11: two ranks, totals 10 and 20 before the exchange, counts
`[3]` on rank 0 and `[4]` on rank 1; afterwards rank 0 holds 14 and rank 1
holds 23. -/
theorem count_exchange_accumulates_witness :
    (2 ≤ 2 ∧ 2 < 2147483648)
    ∧ allReturned 2 (exec 2 twoRankSchedule
        (countExchangeWorld 2 (fun _ => 1) twoRankNeighbors twoRankCommCounts twoRankTotals
          4 0)) = true
    ∧ (∃ total, (exec 2 twoRankSchedule
          (countExchangeWorld 2 (fun _ => 1) twoRankNeighbors twoRankCommCounts twoRankTotals
            4 0)).procs 0 = Prog.ret total ∧ total = 14)
    ∧ (∃ total, (exec 2 twoRankSchedule
          (countExchangeWorld 2 (fun _ => 1) twoRankNeighbors twoRankCommCounts twoRankTotals
            4 0)).procs 1 = Prog.ret total ∧ total = 23) := by
  have hsym : ∀ r, r < 2 → ∀ i, i < (fun _ : Nat => 1) r →
      ∃ q : Nat, q < 2 ∧ twoRankNeighbors r i = (q : Int) + 1
        ∧ ∃ j, j < (fun _ : Nat => 1) q ∧ twoRankNeighbors q j = (r : Int) + 1 := by
    intro r hr i _
    interval_cases r
    · exact ⟨1, by decide, rfl, 0, by decide, rfl⟩
    · exact ⟨0, by decide, rfl, 0, by decide, rfl⟩
  have hnodup : ∀ r, r < 2 → ∀ i j, i < (fun _ : Nat => 1) r → j < (fun _ : Nat => 1) r →
      twoRankNeighbors r i = twoRankNeighbors r j → i = j := by
    intro r _ i j hi hj _
    simp only at hi hj
    omega
  have hcount : ∀ r, r < 2 → ∀ i, i < (fun _ : Nat => 1) r →
      0 ≤ twoRankCommCounts r i ∧ twoRankCommCounts r i < 2147483648 := by
    intro r hr i _
    interval_cases r <;> simp [twoRankCommCounts]
  have htotal : ∀ r, r < 2 →
      -2147483648 ≤ twoRankTotals r ∧ twoRankTotals r < 2147483648 := by
    intro r hr
    interval_cases r <;> simp [twoRankTotals]
  have hall : allReturned 2 (exec 2 twoRankSchedule
      (countExchangeWorld 2 (fun _ => 1) twoRankNeighbors twoRankCommCounts twoRankTotals
        4 0)) = true := by decide
  have hmain := (count_exchange_accumulates 2 (fun _ => 1) twoRankNeighbors twoRankCommCounts
    twoRankTotals 4 0 (by decide) (by decide) hsym hnodup hcount htotal).2.1
    twoRankSchedule hall
  refine ⟨⟨by decide, by decide⟩, hall, ?_, ?_⟩
  · obtain ⟨total, h1, _, h3⟩ := hmain 0 (by decide) (fun _ => 4) (by
      intro i q j _ hq _ hnl _
      have hq1 : q = 1 := by
        simp [twoRankNeighbors] at hnl
        omega
      subst hq1
      rfl)
    exact ⟨total, h1, h3 (by decide)⟩
  · obtain ⟨total, h1, _, h3⟩ := hmain 1 (by decide) (fun _ => 3) (by
      intro i q j _ hq _ hnl _
      have hq1 : q = 0 := by
        simp [twoRankNeighbors] at hnl
        omega
      subst hq1
      rfl)
    exact ⟨total, h1, h3 (by decide)⟩

/-- C11 as stated fails: three ranks, totals 0 before the exchange, ranks 1
and 2 each hold the count 1073741824 for rank 0.  All ranks return, the sum
for rank 0 is 2147483648, and the running total of rank 0 is -2147483648. -/
theorem count_exchange_total_wraps :
    allReturned 3 (exec 3 threeRankSchedule
      (countExchangeWorld 3 threeRankNbIntf threeRankNeighbors threeRankCounts
        (fun _ => 0) 4 0)) = true
    ∧ (exec 3 threeRankSchedule
        (countExchangeWorld 3 threeRankNbIntf threeRankNeighbors threeRankCounts
          (fun _ => 0) 4 0)).procs 0 = Prog.ret (-2147483648)
    ∧ (0 : Int) + (threeRankCounts 1 0 + threeRankCounts 2 0) = 2147483648
    ∧ (-2147483648 : Int) ≠ 0 + (threeRankCounts 1 0 + threeRankCounts 2 0) := by
  refine ⟨by decide, by rfl, by decide, by decide⟩

end MiniFEM
namespace MiniFEM

/-! ## Pairing of notifies and waits in a round -/

theorem nodup_getElem_not_mem_eraseIdx {α : Type} (l : List α) (hl : l.Nodup) (k : Nat)
    (hk : k < l.length) : l[k] ∉ l.eraseIdx k := by
  intro hmem
  obtain ⟨i, hi, hik, hx⟩ := List.mem_eraseIdx_iff_getElem.mp hmem
  exact hik ((List.Nodup.getElem_inj_iff hl).mp hx)

theorem length_le_one_of_all_eq {α : Type} (l : List α) (hl : l.Nodup)
    (h : ∀ a ∈ l, ∀ b ∈ l, a = b) : l.length ≤ 1 := by
  match l, hl, h with
  | [], _, _ => simp
  | [_], _, _ => simp
  | a :: b :: t, hl, h =>
      exfalso
      have hab : a = b := h a (List.mem_cons_self _ _) b
        (List.mem_cons_of_mem _ (List.mem_cons_self _ _))
      rw [hab] at hl
      exact (List.nodup_cons.mp hl).1 (List.mem_cons_self _ _)

namespace Round

variable {σ : Type} (G : Round σ)

theorem peer_inj (hwf : G.WellFormed) {q j j1 : Nat} (hq : q < G.n) (hj : j < G.nbIntf q)
    (hj1 : j1 < G.nbIntf q) (h : G.peer q j = G.peer q j1) : j = j1 := by
  apply hwf.nodup q hq j j1 hj hj1
  have h1 := (G.peer_spec hwf hq hj).2.1
  have h2 := (G.peer_spec hwf hq hj1).2.1
  rw [h] at h1
  omega

theorem message_inj (hwf : G.WellFormed) {q j q1 j1 : Nat} (hq : q < G.n)
    (hj : j < G.nbIntf q) (hj1 : j1 < G.nbIntf q1) (h : G.message q j = G.message q1 j1) :
    q = q1 ∧ j = j1 := by
  have hid : (q : Int) = (q1 : Int) := congrArg Notification.notifyID h
  have hqq : q = q1 := by exact_mod_cast hid
  subst hqq
  exact ⟨rfl, G.peer_inj hwf hq hj hj1 (congrArg Notification.target h)⟩

theorem not_consumed_sendPos (r k i : Nat) (hi : i < G.nbIntf r) :
    ¬ consumed (G.sendPos r k) i := by
  unfold sendPos recvPos
  split
  · exact fun h => h
  · split
    · exact fun h => Nat.not_lt_zero i h
    · omega

theorem consumed_recvPos_lt (r k i : Nat) (hi : i < G.nbIntf r)
    (h : consumed (G.recvPos r k) i) : i < k := by
  unfold recvPos at h
  split at h
  · exact h
  · omega

/-- The index of a rank in the list of a neighbour is determined. -/
theorem index_unique (hwf : G.WellFormed) {r i i1 : Nat} {x : Int} (hr : r < G.n)
    (hi : i < G.nbIntf r) (hi1 : i1 < G.nbIntf r) (h : G.neighborsList r i = x)
    (h1 : G.neighborsList r i1 = x) : i = i1 :=
  hwf.nodup r hr i i1 hi hi1 (h.trans h1.symm)

/-- The state after the notify of rank `r` for interface `i`. -/
theorem send_world (hwf : G.WellFormed) {w : World σ} {pos : Nat → Pos} (h : G.Inv w pos)
    {r i : Nat} (hr : r < G.n) (hp : pos r = Pos.send i) :
    (stepRank G.n w r).slots = w.slots
      ∧ (stepRank G.n w r).inflight = w.inflight ++ [G.message r i] := by
  have hi : i < G.nbIntf r := by
    have := (h.at_pos r hr).2
    rw [hp] at this
    exact this
  obtain ⟨hq, hqi, hqw⟩ := G.peer_spec hwf hr hi
  have hprog : w.procs r = _ := ((h.at_pos r hr).1.trans (by rw [hp])).trans
    (G.progAt_send r i hi)
  have hstep := stepRank_notify G.n w r G.seg _ _ _ _ _ hprog
    (by rw [hqw]; omega) (by rw [hqw]; omega) (G.message_value_ne_zero hwf hr hi)
  have hmsg : (⟨(wrapInt (G.neighborsList r i - 1)).toNat, G.seg, (r : Int), G.payload r i⟩
      : Notification) = G.message r i := by
    unfold message
    rw [hqw]
    simp
  rw [hmsg] at hstep
  rw [hstep]
  exact ⟨rfl, rfl⟩

/-- The state after a wait of rank `r`. -/
theorem wait_world {w : World σ} {pos : Nat → Pos} (h : G.Inv w pos)
    {r i : Nat} (hr : r < G.n) (hp : pos r = Pos.wait i) :
    (stepRank G.n w r).slots = w.slots ∧ (stepRank G.n w r).inflight = w.inflight := by
  have hi : i < G.nbIntf r := by
    have := (h.at_pos r hr).2
    rw [hp] at this
    exact this
  have hprog : w.procs r = _ := ((h.at_pos r hr).1.trans (by rw [hp])).trans
    (G.progAt_wait r i hi)
  rw [stepRank_waitsome G.n w r G.seg _ _ hprog]
  split <;> exact ⟨rfl, rfl⟩

/-- The state after the reset of rank `r` for interface `i`. -/
theorem reset_world {w : World σ} {pos : Nat → Pos} (h : G.Inv w pos)
    {r i : Nat} (hr : r < G.n) (hp : pos r = Pos.reset i) :
    (stepRank G.n w r).slots
        = Function.update w.slots (r, G.seg, ((G.peer r i : Nat) : Int)) 0
      ∧ (stepRank G.n w r).inflight = w.inflight := by
  have hprog : w.procs r = G.progAt r (Pos.reset i) := (h.at_pos r hr).1.trans (by rw [hp])
  rw [stepRank_reset G.n w r G.seg (G.peer r i) _ hprog]
  exact ⟨rfl, rfl⟩

/-- The state after a delivery. -/
theorem deliver_world {w : World σ} {pos : Nat → Pos} (h : G.Inv w pos)
    {idx : Nat} (hlt : idx < w.inflight.length) :
    ∃ q0 j0, q0 < G.n ∧ j0 < G.nbIntf q0 ∧ w.inflight[idx] = G.message q0 j0
      ∧ (stepDeliver w idx).slots
          = Function.update w.slots (G.peer q0 j0, G.seg, (q0 : Int)) (G.payload q0 j0)
      ∧ (stepDeliver w idx).inflight = w.inflight.eraseIdx idx := by
  obtain ⟨q0, hq0, j0, hj0, _, hm0⟩ := h.transit _ (List.getElem_mem hlt)
  refine ⟨q0, j0, hq0, hj0, hm0, ?_, ?_⟩
  · unfold stepDeliver
    rw [List.getElem?_eq_getElem hlt, hm0]
    rfl
  · unfold stepDeliver
    rw [List.getElem?_eq_getElem hlt]

end Round

end MiniFEM
namespace MiniFEM
namespace Round

variable {σ : Type} (G : Round σ)

/-- The exact invariant holds before the round. -/
theorem exact_start : G.Exact (World.start G.prog) (fun r => G.sendPos r 0) := by
  refine ⟨List.nodup_nil, ?_, ?_, ?_, ?_⟩
  · intro q _ j _ hm
    cases hm
  · intro r _ q hne
    exact absurd rfl hne
  · intro r s id _
    rfl
  · intro r _ i hi hc
    exact absurd hc (G.not_consumed_sendPos r 0 i hi)

/-- The exact invariant after a notify. -/
theorem exact_send (hwf : G.WellFormed) {w : World σ} {pos : Nat → Pos} (h : G.Inv w pos)
    (e : G.Exact w pos) {r i : Nat} (hr : r < G.n) (hp : pos r = Pos.send i) :
    G.Exact (stepRank G.n w r) (Function.update pos r (G.sendPos r (i + 1))) := by
  have hi : i < G.nbIntf r := by
    have := (h.at_pos r hr).2
    rw [hp] at this
    exact this
  obtain ⟨hslots, hfl⟩ := G.send_world hwf h hr hp
  obtain ⟨hq, hqi, _⟩ := G.peer_spec hwf hr hi
  have hnotsent : ¬ sent (pos r) i := by
    rw [hp]
    exact Nat.lt_irrefl i
  have hcons : ∀ q j, j < G.nbIntf q →
      consumed (Function.update pos r (G.sendPos r (i + 1)) q) j → consumed (pos q) j := by
    intro q j hj hc
    by_cases hqr : q = r
    · subst hqr
      rw [Function.update_same] at hc
      exact absurd hc (G.not_consumed_sendPos q _ j hj)
    · rw [Function.update_noteq hqr] at hc
      exact hc
  have hsent : ∀ q j, j < G.nbIntf q → sent (pos q) j →
      sent (Function.update pos r (G.sendPos r (i + 1)) q) j := by
    intro q j hj hs
    by_cases hqr : q = r
    · subst hqr
      rw [Function.update_same]
      rw [hp] at hs
      exact G.sent_sendPos q (i + 1) j (Nat.lt_succ_of_lt hs)
    · rw [Function.update_noteq hqr]
      exact hs
  have hnew : G.message r i ∉ w.inflight := by
    intro hm
    obtain ⟨q, hq1, j, hj, hs, hmq⟩ := h.transit _ hm
    obtain ⟨e1, e2⟩ := G.message_inj hwf hr hi hj hmq
    subst e1
    subst e2
    exact hnotsent hs
  have hslot0 : w.slots (G.peer r i, G.seg, (r : Int)) = 0 := by
    by_contra hne
    obtain ⟨q, hq1, j, hj, hs, hpeer, _, hid, _⟩ := h.slot _ _ _ hq hne
    have hqq : r = q := by exact_mod_cast hid
    subst hqq
    have := G.peer_inj hwf hr hj hi hpeer
    subst this
    exact hnotsent hs
  refine ⟨?_, ?_, ?_, ?_, ?_⟩
  · rw [hfl]
    refine List.Nodup.append e.nodup (List.nodup_singleton _) ?_
    intro a ha hb
    rw [List.mem_singleton.mp hb] at ha
    exact hnew ha
  · intro q hq1 j hj hm
    rw [hfl] at hm
    rw [hslots]
    rcases List.mem_append.mp hm with hm1 | hm1
    · obtain ⟨h1, h2⟩ := e.in_transit q hq1 j hj hm1
      exact ⟨h1, fun i0 hi0 hnl hc => h2 i0 hi0 hnl (hcons _ _ hi0 hc)⟩
    · obtain ⟨e1, e2⟩ := G.message_inj hwf hq1 hj hi (List.mem_singleton.mp hm1)
      subst e1
      subst e2
      refine ⟨hslot0, ?_⟩
      intro i0 hi0 hnl hc
      have hc1 := hcons _ _ hi0 hc
      have hback := e.was_sent (G.peer q j) hq i0 hi0 hc1
      have hpp : G.peer (G.peer q j) i0 = q := G.peer_peer hnl
      rw [hpp] at hback
      exact hnotsent (hback j hj (by omega))
  · intro r1 hr1 q hne i0 hi0 hnl hc
    rw [hslots] at hne
    exact e.in_slot r1 hr1 q hne i0 hi0 hnl (hcons _ _ hi0 hc)
  · intro r1 s id hr1
    rw [hslots]
    exact e.outside r1 s id hr1
  · intro r1 hr1 i1 hi1 hc j hj hnl
    have hc1 := hcons _ _ hi1 hc
    exact hsent _ _ hj (e.was_sent r1 hr1 i1 hi1 hc1 j hj hnl)

/-- The exact invariant after a wait. -/
theorem exact_wait {w : World σ} {pos : Nat → Pos} (h : G.Inv w pos)
    (e : G.Exact w pos) {r i : Nat} (hr : r < G.n) (hp : pos r = Pos.wait i) :
    G.Exact (stepRank G.n w r) (Function.update pos r (Pos.reset i)) := by
  obtain ⟨hslots, hfl⟩ := G.wait_world h hr hp
  have hcons : ∀ q j, consumed (Function.update pos r (Pos.reset i) q) j →
      consumed (pos q) j := by
    intro q j hc
    by_cases hqr : q = r
    · subst hqr
      rw [Function.update_same] at hc
      rw [hp]
      exact hc
    · rw [Function.update_noteq hqr] at hc
      exact hc
  have hsent : ∀ q j, sent (pos q) j → sent (Function.update pos r (Pos.reset i) q) j := by
    intro q j hs
    by_cases hqr : q = r
    · subst hqr
      rw [Function.update_same]
      trivial
    · rw [Function.update_noteq hqr]
      exact hs
  refine ⟨?_, ?_, ?_, ?_, ?_⟩
  · rw [hfl]
    exact e.nodup
  · intro q hq1 j hj hm
    rw [hfl] at hm
    rw [hslots]
    obtain ⟨h1, h2⟩ := e.in_transit q hq1 j hj hm
    exact ⟨h1, fun i0 hi0 hnl hc => h2 i0 hi0 hnl (hcons _ _ hc)⟩
  · intro r1 hr1 q hne i0 hi0 hnl hc
    rw [hslots] at hne
    exact e.in_slot r1 hr1 q hne i0 hi0 hnl (hcons _ _ hc)
  · intro r1 s id hr1
    rw [hslots]
    exact e.outside r1 s id hr1
  · intro r1 hr1 i1 hi1 hc j hj hnl
    exact hsent _ _ (e.was_sent r1 hr1 i1 hi1 (hcons _ _ hc) j hj hnl)

/-- The exact invariant after a reset. -/
theorem exact_reset (hwf : G.WellFormed) {w : World σ} {pos : Nat → Pos} (h : G.Inv w pos)
    (e : G.Exact w pos) {r i : Nat} (hr : r < G.n) (hp : pos r = Pos.reset i) :
    G.Exact (stepRank G.n w r) (Function.update pos r (G.recvPos r (i + 1))) := by
  have hi : i < G.nbIntf r := by
    have := (h.at_pos r hr).2
    rw [hp] at this
    exact this
  obtain ⟨hslots, hfl⟩ := G.reset_world h hr hp
  obtain ⟨hq, hqi, _⟩ := G.peer_spec hwf hr hi
  have hfound := h.found r hr i hp
  have hle : ∀ key, Function.update w.slots (r, G.seg, ((G.peer r i : Nat) : Int)) 0 key ≠ 0 →
      key ≠ (r, G.seg, ((G.peer r i : Nat) : Int)) ∧ w.slots key ≠ 0 := by
    intro key hne
    by_cases hk : key = (r, G.seg, ((G.peer r i : Nat) : Int))
    · rw [hk, Function.update_same] at hne
      exact absurd rfl hne
    · rw [Function.update_noteq hk] at hne
      exact ⟨hk, hne⟩
  have hsent : ∀ q j, sent (pos q) j →
      sent (Function.update pos r (G.recvPos r (i + 1)) q) j := by
    intro q j hs
    by_cases hqr : q = r
    · subst hqr
      rw [Function.update_same]
      exact G.sent_recvPos q _ j
    · rw [Function.update_noteq hqr]
      exact hs
  -- what the new position of `r` has consumed beyond the old one is interface `i`
  have hcons : ∀ q j, j < G.nbIntf q →
      consumed (Function.update pos r (G.recvPos r (i + 1)) q) j →
      consumed (pos q) j ∨ (q = r ∧ j = i) := by
    intro q j hj hc
    by_cases hqr : q = r
    · subst hqr
      rw [Function.update_same] at hc
      have hlt := G.consumed_recvPos_lt q (i + 1) j hj hc
      by_cases hji : j = i
      · exact Or.inr ⟨rfl, hji⟩
      · left
        rw [hp]
        show j < i
        omega
    · rw [Function.update_noteq hqr] at hc
      exact Or.inl hc
  refine ⟨?_, ?_, ?_, ?_, ?_⟩
  · rw [hfl]
    exact e.nodup
  · intro q hq1 j hj hm
    rw [hfl] at hm
    rw [hslots]
    obtain ⟨h1, h2⟩ := e.in_transit q hq1 j hj hm
    constructor
    · by_cases hk : (G.peer q j, G.seg, (q : Int)) = (r, G.seg, ((G.peer r i : Nat) : Int))
      · rw [hk, Function.update_same]
      · rw [Function.update_noteq hk]
        exact h1
    · intro i0 hi0 hnl hc
      rcases hcons _ _ hi0 hc with hc1 | ⟨hpr, hii⟩
      · exact h2 i0 hi0 hnl hc1
      · rw [hpr, hii] at hnl
        have hqq : ((G.peer r i : Nat) : Int) = (q : Int) := by omega
        rw [hpr, ← hqq] at h1
        exact hfound h1
  · intro r1 hr1 q hne i0 hi0 hnl hc
    rw [hslots] at hne
    obtain ⟨hk, hne1⟩ := hle _ hne
    rcases hcons _ _ hi0 hc with hc1 | ⟨hpr, hii⟩
    · exact e.in_slot r1 hr1 q hne1 i0 hi0 hnl hc1
    · rw [hpr, hii] at hnl
      have hqq : ((G.peer r i : Nat) : Int) = (q : Int) := by omega
      apply hk
      rw [hpr, hqq]
  · intro r1 s id hr1
    rw [hslots]
    by_cases hk : (r1, s, id) = (r, G.seg, ((G.peer r i : Nat) : Int))
    · rw [hk, Function.update_same]
    · rw [Function.update_noteq hk]
      exact e.outside r1 s id hr1
  · intro r1 hr1 i1 hi1 hc j hj hnl
    apply hsent
    rcases hcons _ _ hi1 hc with hc1 | ⟨hpr, hii⟩
    · exact e.was_sent r1 hr1 i1 hi1 hc1 j hj hnl
    · subst hpr
      subst hii
      obtain ⟨q, hq1, j1, hj1, hs, hpeer, _, hid, _⟩ := h.slot _ _ _ hr1 hfound
      have hqq : G.peer r1 i1 = q := by exact_mod_cast hid
      subst hqq
      have hnl1 := G.nl_of_peer (hwf.range _ hq1 j1 hj1).1 hpeer
      have := G.index_unique hwf hq1 hj hj1 hnl hnl1
      rw [this]
      exact hs

/-- The exact invariant after a delivery. -/
theorem exact_deliver (hwf : G.WellFormed) {w : World σ} {pos : Nat → Pos} (h : G.Inv w pos)
    (e : G.Exact w pos) {idx : Nat} (hlt : idx < w.inflight.length) :
    G.Exact (stepDeliver w idx) pos := by
  obtain ⟨q0, j0, hq0, hj0, hm0, hslots, hfl⟩ := G.deliver_world h hlt
  have hp0 := (G.peer_spec hwf hq0 hj0).1
  have hmem0 : G.message q0 j0 ∈ w.inflight := by
    rw [← hm0]
    exact List.getElem_mem hlt
  obtain ⟨_, hcons0⟩ := e.in_transit q0 hq0 j0 hj0 hmem0
  refine ⟨?_, ?_, ?_, ?_, e.was_sent⟩
  · rw [hfl]
    exact List.Nodup.sublist (List.eraseIdx_sublist _ _) e.nodup
  · intro q hq1 j hj hm
    rw [hfl] at hm
    rw [hslots]
    obtain ⟨h1, h2⟩ := e.in_transit q hq1 j hj (List.mem_of_mem_eraseIdx hm)
    refine ⟨?_, h2⟩
    by_cases hk : (G.peer q j, G.seg, (q : Int)) = (G.peer q0 j0, G.seg, (q0 : Int))
    · exfalso
      have hid : (q : Int) = (q0 : Int) := congrArg (fun x => x.2.2) hk
      have hqq : q = q0 := by exact_mod_cast hid
      subst hqq
      have hjj := G.peer_inj hwf hq1 hj hj0 (congrArg Prod.fst hk)
      subst hjj
      rw [← hm0] at hm
      exact nodup_getElem_not_mem_eraseIdx _ e.nodup idx hlt hm
    · rw [Function.update_noteq hk]
      exact h1
  · intro r1 hr1 q hne i0 hi0 hnl
    rw [hslots] at hne
    by_cases hk : (r1, G.seg, (q : Int)) = (G.peer q0 j0, G.seg, (q0 : Int))
    · have hid : (q : Int) = (q0 : Int) := congrArg (fun x => x.2.2) hk
      have hqq : q = q0 := by exact_mod_cast hid
      have hrr : r1 = G.peer q0 j0 := congrArg Prod.fst hk
      subst hqq
      subst hrr
      exact hcons0 i0 hi0 hnl
    · rw [Function.update_noteq hk] at hne
      exact e.in_slot r1 hr1 q hne i0 hi0 hnl
  · intro r1 s id hr1
    rw [hslots]
    have hk : (r1, s, id) ≠ (G.peer q0 j0, G.seg, (q0 : Int)) := by
      intro hk
      have hrr : r1 = G.peer q0 j0 := congrArg Prod.fst hk
      omega
    rw [Function.update_noteq hk]
    exact e.outside r1 s id hr1

/-- When all ranks stand at the barrier or have returned, nothing is pending:
nothing is in transit and every slot is empty. -/
theorem nothing_pending (hwf : G.WellFormed) {w : World σ} {pos : Nat → Pos}
    (h : G.Inv w pos) (e : G.Exact w pos)
    (hall : ∀ r, r < G.n → pos r = Pos.barrier ∨ pos r = Pos.done) :
    w.inflight = [] ∧ ∀ key, w.slots key = 0 := by
  have hconsumed : ∀ r, r < G.n → ∀ i, consumed (pos r) i := by
    intro r hr i
    rcases hall r hr with h1 | h1 <;> rw [h1] <;> trivial
  constructor
  · apply List.eq_nil_iff_forall_not_mem.mpr
    intro m hm
    obtain ⟨q, hq, j, hj, _, hmq⟩ := h.transit m hm
    rw [hmq] at hm
    obtain ⟨i0, hi0, hnl⟩ := hwf.sym q hq j hj
    exact (e.in_transit q hq j hj hm).2 i0 hi0 hnl
      (hconsumed _ (G.peer_spec hwf hq hj).1 i0)
  · intro key
    obtain ⟨r, s, id⟩ := key
    by_cases hr : r < G.n
    · by_contra hne
      obtain ⟨q, hq, j, hj, _, hpeer, hseg, hid, _⟩ := h.slot r s id hr hne
      obtain ⟨i0, hi0, hnl⟩ := hwf.sym q hq j hj
      rw [hpeer] at hi0 hnl
      rw [hseg, hid] at hne
      exact e.in_slot r hr q hne i0 hi0 hnl (hconsumed r hr i0)
    · exact e.outside r s id (not_lt.mp hr)

/-- The exact invariant after the barrier. -/
theorem exact_barrier (hwf : G.WellFormed) {w : World σ} {pos : Nat → Pos} (h : G.Inv w pos)
    (e : G.Exact w pos) (hall : ∀ r, r < G.n → pos r = Pos.barrier) :
    G.Exact (stepBarrier G.n w) (fun _ => Pos.done) := by
  obtain ⟨hnil, hzero⟩ := G.nothing_pending hwf h e (fun r hr => Or.inl (hall r hr))
  have hsl : (stepBarrier G.n w).slots = w.slots := by
    unfold stepBarrier
    split <;> rfl
  have hfl : (stepBarrier G.n w).inflight = w.inflight := by
    unfold stepBarrier
    split <;> rfl
  refine ⟨?_, ?_, ?_, ?_, ?_⟩
  · rw [hfl]
    exact e.nodup
  · intro q _ j _ hm
    rw [hfl, hnil] at hm
    cases hm
  · intro r _ q hne
    rw [hsl] at hne
    exact absurd (hzero _) hne
  · intro r s id _
    rw [hsl]
    exact hzero _
  · intro _ _ _ _ _ _ _ _
    trivial

end Round
end MiniFEM
namespace MiniFEM
namespace Round

variable {σ : Type} (G : Round σ)

/-- Every step keeps both parts of the invariant. -/
theorem both_step (hwf : G.WellFormed) {w : World σ} {pos : Nat → Pos} (h : G.Inv w pos)
    (e : G.Exact w pos) (l : Label) :
    ∃ pos1, G.Inv (step G.n w l) pos1 ∧ G.Exact (step G.n w l) pos1 := by
  cases l with
  | rank r =>
      rw [step_rank]
      by_cases hr : r < G.n
      · rw [if_pos hr]
        cases hp : pos r with
        | send i => exact ⟨_, (G.inv_send hwf h hr hp).1, G.exact_send hwf h e hr hp⟩
        | wait i =>
            by_cases hs : w.slots (r, G.seg, ((G.peer r i : Nat) : Int)) = 0
            · rw [(G.inv_wait hwf h hr hp).1 hs]
              exact ⟨pos, h, e⟩
            · exact ⟨_, ((G.inv_wait hwf h hr hp).2 hs).1, G.exact_wait h e hr hp⟩
        | reset i => exact ⟨_, (G.inv_reset hwf h hr hp).1, G.exact_reset hwf h e hr hp⟩
        | barrier =>
            rw [stepRank_barrier G.n w r _ ((h.at_pos r hr).1.trans (by rw [hp]; rfl))]
            exact ⟨pos, h, e⟩
        | done =>
            rw [stepRank_ret G.n w r _ ((h.at_pos r hr).1.trans (by rw [hp]; rfl))]
            exact ⟨pos, h, e⟩
      · rw [if_neg hr]
        exact ⟨pos, h, e⟩
  | deliver idx =>
      rw [step_deliver]
      by_cases hi : idx < w.inflight.length
      · exact ⟨_, ((G.inv_deliver hwf h idx).2 hi).1, G.exact_deliver hwf h e hi⟩
      · rw [(G.inv_deliver hwf h idx).1 (not_lt.mp hi)]
        exact ⟨pos, h, e⟩
  | barrier =>
      rw [step_barrier]
      by_cases ha : ∀ r, r < G.n → pos r = Pos.barrier
      · exact ⟨_, ((G.inv_barrier hwf h).2 ha).1, G.exact_barrier hwf h e ha⟩
      · rw [(G.inv_barrier hwf h).1 (by push_neg at ha; exact ha)]
        exact ⟨pos, h, e⟩
  | allreduce =>
      rw [step_allreduce, G.inv_allreduce hwf h]
      exact ⟨pos, h, e⟩

/-- Both parts of the invariant hold after every schedule. -/
theorem both_exec (hwf : G.WellFormed) (sched : List Label) :
    ∀ (w : World σ) (pos : Nat → Pos), G.Inv w pos → G.Exact w pos →
      ∃ pos1, G.Inv (exec G.n sched w) pos1 ∧ G.Exact (exec G.n sched w) pos1 := by
  induction sched with
  | nil => intro w pos h e; exact ⟨pos, h, e⟩
  | cons l ls ih =>
      intro w pos h e
      obtain ⟨pos1, h1, e1⟩ := G.both_step hwf h e l
      exact ih _ pos1 h1 e1

/-- At most one notification is pending for a slot. -/
theorem pending_le_one (hwf : G.WellFormed) {w : World σ} {pos : Nat → Pos}
    (h : G.Inv w pos) (e : G.Exact w pos) (key : Nat × Nat × Int) : pending w key ≤ 1 := by
  have hfacts : ∀ m ∈ w.inflight.filter
      (fun m => decide ((m.target, m.segmentID, m.notifyID) = key)),
      ∃ q, q < G.n ∧ ∃ j, j < G.nbIntf q ∧ m = G.message q j
        ∧ (G.peer q j, G.seg, (q : Int)) = key ∧ G.message q j ∈ w.inflight := by
    intro m hm
    obtain ⟨hin, hk⟩ := List.mem_filter.mp hm
    obtain ⟨q, hq, j, hj, _, hmq⟩ := h.transit m hin
    refine ⟨q, hq, j, hj, hmq, ?_, hmq ▸ hin⟩
    rw [hmq] at hk
    exact of_decide_eq_true hk
  have hlen : (w.inflight.filter
      (fun m => decide ((m.target, m.segmentID, m.notifyID) = key))).length ≤ 1 := by
    apply length_le_one_of_all_eq _ (List.Nodup.filter _ e.nodup)
    intro a ha b hb
    obtain ⟨q, hq, j, hj, haq, hka, _⟩ := hfacts a ha
    obtain ⟨q1, hq1, j1, hj1, hbq, hkb, _⟩ := hfacts b hb
    have hkk := hka.trans hkb.symm
    have hid : (q : Int) = (q1 : Int) := congrArg (fun x => x.2.2) hkk
    have hqq : q = q1 := by exact_mod_cast hid
    subst hqq
    have hjj := G.peer_inj hwf hq hj hj1 (congrArg Prod.fst hkk)
    rw [haq, hbq, hjj]
  unfold pending
  by_cases hz : w.slots key = 0
  · rw [if_pos hz]
    omega
  · rw [if_neg hz]
    have hempty : w.inflight.filter
        (fun m => decide ((m.target, m.segmentID, m.notifyID) = key)) = [] := by
      apply List.eq_nil_iff_forall_not_mem.mpr
      intro m hm
      obtain ⟨q, hq, j, hj, _, hk, hin⟩ := hfacts m hm
      apply hz
      rw [← hk]
      exact (e.in_transit q hq j hj hin).1
    rw [hempty]
    simp

/-- Pairing in a round on well-formed inputs: in every state the group
reaches at most one notification is pending for a slot, and when all ranks
have returned nothing is in transit and every slot is empty. -/
theorem pairing (hwf : G.WellFormed) :
    (∀ sched key, pending (exec G.n sched (World.start G.prog)) key ≤ 1)
    ∧ (∀ sched, allReturned G.n (exec G.n sched (World.start G.prog)) = true →
        (exec G.n sched (World.start G.prog)).inflight = []
        ∧ ∀ key, (exec G.n sched (World.start G.prog)).slots key = 0) := by
  constructor
  · intro sched key
    obtain ⟨pos, h, e⟩ := G.both_exec hwf sched _ _ G.inv_start G.exact_start
    exact G.pending_le_one hwf h e key
  · intro sched hall
    obtain ⟨pos, h, e⟩ := G.both_exec hwf sched _ _ G.inv_start G.exact_start
    apply G.nothing_pending hwf h e
    intro r hr
    right
    unfold allReturned at hall
    rw [allRanks_iff] at hall
    have h1 := hall r hr
    simp only [(h.at_pos r hr).1] at h1
    exact (G.isReturned_progAt r _ (h.at_pos r hr).2).mp h1

/-- The notifies and the waits of a round correspond one to one: for the
operation of rank `a` at its interface `k` there is exactly one operation of
the other kind, of rank `b` at interface `l`, such that the one is addressed
to `a` as the other is to `b`. -/
theorem correspondence (hwf : G.WellFormed) (a k : Nat) (ha : a < G.n)
    (hk : k < G.nbIntf a) :
    ∃! bl : Nat × Nat, bl.1 < G.n ∧ bl.2 < G.nbIntf bl.1
      ∧ wrapInt (G.neighborsList bl.1 bl.2 - 1) = (a : Int)
      ∧ wrapInt (G.neighborsList a k - 1) = (bl.1 : Int) := by
  obtain ⟨hq, hqi, hqw⟩ := G.peer_spec hwf ha hk
  obtain ⟨j, hj, hnl⟩ := hwf.sym a ha k hk
  have hback := G.peer_spec hwf hq hj
  refine ⟨(G.peer a k, j), ⟨hq, hj, ?_, hqw⟩, ?_⟩
  · show wrapInt (G.neighborsList (G.peer a k) j - 1) = (a : Int)
    rw [hback.2.2, G.peer_peer hnl]
  · rintro ⟨b, l⟩ ⟨hb, hl, h1, h2⟩
    simp only at hb hl h1 h2
    have hbq : b = G.peer a k := by
      have : (b : Int) = ((G.peer a k : Nat) : Int) := h2.symm.trans hqw
      exact_mod_cast this
    subst hbq
    have hl1 := G.peer_spec hwf hq hl
    have hnl1 : G.neighborsList (G.peer a k) l = (a : Int) + 1 := by
      have := hl1.2.2.symm.trans h1
      have := hl1.2.1
      omega
    rw [G.index_unique hwf hq hl hj hnl1 hnl]

end Round
end MiniFEM
namespace MiniFEM

theorem notifyAt_addressed (data nl : Nat → Int) (rank : Int) (seg queue j : Nat)
    (t id : Int) :
    (∃ v, notifyAt data nl rank seg queue j = Op.gaspi_notify seg t id v queue)
      ↔ wrapInt (nl j - 1) = t ∧ rank = id := by
  unfold notifyAt
  constructor
  · rintro ⟨v, hv⟩
    injection hv with _ h1 h2 _ _
    exact ⟨h1, h2⟩
  · rintro ⟨h1, h2⟩
    exact ⟨_, by rw [h1, h2]⟩

/-- C13: notify/wait pairing under symmetry.  For a group of `n ≥ 2` ranks
(`n` an `int`) in which every neighbour entry of a rank `r` names (numbered
from 1) a rank of the group that lists `r` back, no neighbour list contains an
entry twice and the values exchanged are non-negative `int`s, in a round of
either exchange: for every wait (rank `r`, interface `i`) exactly one notify
(rank `q`, interface `j`) of the round is addressed to `r` with the
notification id that wait watches, and for every notify exactly one wait
watches the slot it writes; from every state the group reaches some schedule
leads all ranks to their return (no rank waits for ever); in every state
reached at most one notification is pending for a slot; and when all ranks
have returned nothing is in transit and every slot is empty. -/
theorem notify_wait_pairing (n : Nat) (nbIntf : Nat → Nat)
    (neighborsList intfIndex intfDestIndex nbDCcomm : Nat → Nat → Int)
    (nbNotifications : Nat → Int) (seg queue : Nat)
    (h2 : 2 ≤ n) (hn : n < 2147483648)
    (hsym : ∀ r, r < n → ∀ i, i < nbIntf r → ∃ q : Nat, q < n
      ∧ neighborsList r i = (q : Int) + 1
      ∧ ∃ j, j < nbIntf q ∧ neighborsList q j = (r : Int) + 1)
    (hnodup : ∀ r, r < n → ∀ i j, i < nbIntf r → j < nbIntf r →
      neighborsList r i = neighborsList r j → i = j)
    (hoff : ∀ r, r < n → ∀ i, i < nbIntf r →
      0 ≤ intfIndex r i ∧ intfIndex r i < 2147483648)
    (hcount : ∀ r, r < n → ∀ i, i < nbIntf r →
      0 ≤ nbDCcomm r i ∧ nbDCcomm r i < 2147483648) :
    (∀ (data : Nat → Nat → Int) (r i : Nat), r < n → i < nbIntf r →
        ∃! qj : Nat × Nat, qj.1 < n ∧ qj.2 < nbIntf qj.1
          ∧ ∃ v, notifyAt (data qj.1) (neighborsList qj.1) qj.1 seg queue qj.2
              = Op.gaspi_notify seg r (wrapInt (neighborsList r i - 1)) v queue)
    ∧ (∀ (data : Nat → Nat → Int) (q j : Nat), q < n → j < nbIntf q →
        ∃! ri : Nat × Nat, ri.1 < n ∧ ri.2 < nbIntf ri.1
          ∧ ∃ v, notifyAt (data q) (neighborsList q) q seg queue j
              = Op.gaspi_notify seg ri.1 (wrapInt (neighborsList ri.1 ri.2 - 1)) v queue)
    ∧ ((∀ sched, ∃ more, allReturned n (exec n (sched ++ more)
          (offsetExchangeWorld n nbIntf neighborsList intfIndex intfDestIndex seg queue))
          = true)
      ∧ (∀ sched key, pending (exec n sched
          (offsetExchangeWorld n nbIntf neighborsList intfIndex intfDestIndex seg queue)) key
          ≤ 1)
      ∧ (∀ sched, allReturned n (exec n sched
          (offsetExchangeWorld n nbIntf neighborsList intfIndex intfDestIndex seg queue))
          = true →
          (exec n sched (offsetExchangeWorld n nbIntf neighborsList intfIndex intfDestIndex
            seg queue)).inflight = []
          ∧ ∀ key, (exec n sched (offsetExchangeWorld n nbIntf neighborsList intfIndex
              intfDestIndex seg queue)).slots key = 0))
    ∧ ((∀ sched, ∃ more, allReturned n (exec n (sched ++ more)
          (countExchangeWorld n nbIntf neighborsList nbDCcomm nbNotifications seg queue))
          = true)
      ∧ (∀ sched key, pending (exec n sched
          (countExchangeWorld n nbIntf neighborsList nbDCcomm nbNotifications seg queue)) key
          ≤ 1)
      ∧ (∀ sched, allReturned n (exec n sched
          (countExchangeWorld n nbIntf neighborsList nbDCcomm nbNotifications seg queue))
          = true →
          (exec n sched (countExchangeWorld n nbIntf neighborsList nbDCcomm nbNotifications
            seg queue)).inflight = []
          ∧ ∀ key, (exec n sched (countExchangeWorld n nbIntf neighborsList nbDCcomm
              nbNotifications seg queue)).slots key = 0)) := by
  have hwf1 : (offsetRound n nbIntf neighborsList intfIndex intfDestIndex seg
      queue).WellFormed := Round.wellFormed_of _ h2 hn hsym hnodup hoff
  have hwf2 : (countRound n nbIntf neighborsList nbDCcomm nbNotifications seg
      queue).WellFormed := Round.wellFormed_of _ h2 hn hsym hnodup hcount
  refine ⟨?_, ?_, ?_, ?_⟩
  · intro data r i hr hi
    obtain ⟨bl, ⟨hb1, hb2, hb3, hb4⟩, huniq⟩ :=
      Round.correspondence (offsetRound n nbIntf neighborsList intfIndex intfDestIndex seg
        queue) hwf1 r i hr hi
    refine ⟨bl, ⟨hb1, hb2, (notifyAt_addressed _ _ _ _ _ _ _ _).mpr ⟨hb3, hb4.symm⟩⟩, ?_⟩
    rintro y ⟨hy1, hy2, hy3⟩
    obtain ⟨g1, g2⟩ := (notifyAt_addressed _ _ _ _ _ _ _ _).mp hy3
    exact huniq y ⟨hy1, hy2, g1, g2.symm⟩
  · intro data q j hq hj
    obtain ⟨bl, ⟨hb1, hb2, hb3, hb4⟩, huniq⟩ :=
      Round.correspondence (offsetRound n nbIntf neighborsList intfIndex intfDestIndex seg
        queue) hwf1 q j hq hj
    refine ⟨bl, ⟨hb1, hb2, (notifyAt_addressed _ _ _ _ _ _ _ _).mpr ⟨hb4, hb3.symm⟩⟩, ?_⟩
    rintro y ⟨hy1, hy2, hy3⟩
    obtain ⟨g1, g2⟩ := (notifyAt_addressed _ _ _ _ _ _ _ _).mp hy3
    exact huniq y ⟨hy1, hy2, g2.symm, g1⟩
  · rw [offsetExchangeWorld_eq n nbIntf neighborsList intfIndex intfDestIndex seg queue h2]
    exact ⟨(Round.round_correct _ hwf1).1, (Round.pairing _ hwf1).1, (Round.pairing _ hwf1).2⟩
  · rw [countExchangeWorld_eq n nbIntf neighborsList nbDCcomm nbNotifications seg queue h2]
    exact ⟨(Round.round_correct _ hwf2).1, (Round.pairing _ hwf2).1, (Round.pairing _ hwf2).2⟩

/-- Witness of C13: the two-rank scenario.  While both notifications are in
transit one is pending for the slot of rank 1 keyed by rank 0; after the
round nothing is in transit and the slots are empty. -/
theorem notify_wait_pairing_witness :
    (2 ≤ 2 ∧ 2 < 2147483648)
    ∧ pending (exec 2 [Label.rank 0, Label.rank 1]
        (offsetExchangeWorld 2 (fun _ => 1) twoRankNeighbors twoRankOffsets (fun _ _ => 0)
          4 0)) (1, 4, 0) = 1
    ∧ allReturned 2 (exec 2 twoRankSchedule
        (offsetExchangeWorld 2 (fun _ => 1) twoRankNeighbors twoRankOffsets (fun _ _ => 0)
          4 0)) = true
    ∧ (exec 2 twoRankSchedule
        (offsetExchangeWorld 2 (fun _ => 1) twoRankNeighbors twoRankOffsets (fun _ _ => 0)
          4 0)).inflight = []
    ∧ (∀ key, (exec 2 twoRankSchedule
        (offsetExchangeWorld 2 (fun _ => 1) twoRankNeighbors twoRankOffsets (fun _ _ => 0)
          4 0)).slots key = 0) := by
  have hsym : ∀ r, r < 2 → ∀ i, i < (fun _ : Nat => 1) r →
      ∃ q : Nat, q < 2 ∧ twoRankNeighbors r i = (q : Int) + 1
        ∧ ∃ j, j < (fun _ : Nat => 1) q ∧ twoRankNeighbors q j = (r : Int) + 1 := by
    intro r hr i _
    interval_cases r
    · exact ⟨1, by decide, rfl, 0, by decide, rfl⟩
    · exact ⟨0, by decide, rfl, 0, by decide, rfl⟩
  have hnodup : ∀ r, r < 2 → ∀ i j, i < (fun _ : Nat => 1) r → j < (fun _ : Nat => 1) r →
      twoRankNeighbors r i = twoRankNeighbors r j → i = j := by
    intro r _ i j hi hj _
    simp only at hi hj
    omega
  have hoff : ∀ r, r < 2 → ∀ i, i < (fun _ : Nat => 1) r →
      0 ≤ twoRankOffsets r i ∧ twoRankOffsets r i < 2147483648 := by
    intro r hr i _
    interval_cases r <;> simp [twoRankOffsets]
  have hcount : ∀ r, r < 2 → ∀ i, i < (fun _ : Nat => 1) r →
      0 ≤ twoRankCommCounts r i ∧ twoRankCommCounts r i < 2147483648 := by
    intro r hr i _
    interval_cases r <;> simp [twoRankCommCounts]
  have hall : allReturned 2 (exec 2 twoRankSchedule
      (offsetExchangeWorld 2 (fun _ => 1) twoRankNeighbors twoRankOffsets (fun _ _ => 0)
        4 0)) = true := by decide
  have hmain := (notify_wait_pairing 2 (fun _ => 1) twoRankNeighbors twoRankOffsets
    (fun _ _ => 0) twoRankCommCounts twoRankTotals 4 0 (by decide) (by decide) hsym hnodup
    hoff hcount).2.2.1
  exact ⟨⟨by decide, by decide⟩, by decide, hall, (hmain.2.2 twoRankSchedule hall).1,
    (hmain.2.2 twoRankSchedule hall).2⟩

end MiniFEM
namespace MiniFEM

/-! ## The bias through the send loop and the receive loop -/

/-- The destination offset array after the receive loop of the offset
exchange when every primitive succeeds: below the first interface of the loop
it is as before, and at an interface of the loop it holds the decoded value
that the reset of that interface read. -/
theorem recvLoop_table (env : Env) (hok : ∀ k op, (env k op).rc = ReturnCode.GASPI_SUCCESS)
    (nl : Nat → Int) (seg : Nat) :
    ∀ (count i : Nat) (s : Nat → Int) (tr : List Op), ∃ t,
      ((recvLoop nl seg storeDestIndex
          (fun s1 => SUCCESS_OR_DIE Op.gaspi_barrier fun _ => Prog.ret s1)
          count i s).run env tr).outcome = Outcome.returned t
      ∧ (∀ x, x < i → t x = s x)
      ∧ (∀ x, i ≤ x → x < i + count →
          ∃ id, t x = toInt (usub1 (env (tr.length + 2 * (x - i) + 1)
            (Op.gaspi_notify_reset seg id)).out)) := by
  intro count
  induction count with
  | zero =>
      intro i s tr
      refine ⟨s, ?_, fun _ _ => rfl, fun x h1 h2 => by omega⟩
      simp [recvLoop, run_die, hok, run_ret]
  | succ c ih =>
      intro i s tr
      unfold recvLoop
      rw [run_die, if_pos (hok _ _), run_die, if_pos (hok _ _)]
      obtain ⟨t, ht, hlow, hin⟩ := ih (i + 1)
        (storeDestIndex i (env (tr ++ [Op.gaspi_notify_waitsome seg
          (wrapInt (nl i - 1)) 1]).length (Op.gaspi_notify_reset seg (env tr.length
          (Op.gaspi_notify_waitsome seg (wrapInt (nl i - 1)) 1)).out)).out s)
        (tr ++ [Op.gaspi_notify_waitsome seg (wrapInt (nl i - 1)) 1]
          ++ [Op.gaspi_notify_reset seg (env tr.length
            (Op.gaspi_notify_waitsome seg (wrapInt (nl i - 1)) 1)).out])
      refine ⟨t, ht, ?_, ?_⟩
      · intro x hx
        rw [hlow x (by omega)]
        unfold storeDestIndex
        rw [Function.update_noteq (by omega)]
      · intro x h1 h2
        by_cases hxi : x = i
        · subst hxi
          refine ⟨(env tr.length (Op.gaspi_notify_waitsome seg (wrapInt (nl x - 1)) 1)).out,
            ?_⟩
          rw [hlow x (by omega)]
          unfold storeDestIndex
          rw [Function.update_same]
          simp
        · obtain ⟨id, hid⟩ := hin x (by omega) (by omega)
          refine ⟨id, ?_⟩
          rw [hid]
          simp only [List.length_append, List.length_singleton]
          rw [show tr.length + 1 + 1 + 2 * (x - (i + 1)) + 1 = tr.length + 2 * (x - i) + 1
            by omega]

/-- The destination offset array `GASPI_offset_exchange` returns when every
primitive succeeds holds, at interface `k`, the decoded value read by the
reset of interface `k` (the operation at position `nbIntf + 2k + 1`). -/
theorem offset_exchange_table (env : Env)
    (hok : ∀ k op, (env k op).rc = ReturnCode.GASPI_SUCCESS)
    (intfDestIndex intfIndex nl : Nat → Int) (nbBlocks rank : Int) (nbIntf seg queue : Nat)
    (h2 : 2 ≤ nbBlocks) (k : Nat) (hk : k < nbIntf) :
    ∃ t id, ((GASPI_offset_exchange intfDestIndex intfIndex nl nbIntf nbBlocks rank seg
        queue).run env []).outcome = Outcome.returned t
      ∧ t k = toInt (usub1 (env (nbIntf + 2 * k + 1) (Op.gaspi_notify_reset seg id)).out) := by
  rw [GASPI_offset_exchange, if_neg (not_lt.mpr h2)]
  unfold exchange
  rw [sendLoop_run_ok env hok, Int.toNat_ofNat]
  obtain ⟨t, ht, _, hin⟩ := recvLoop_table env hok nl seg nbIntf 0 intfDestIndex
    ([] ++ (List.range' 0 nbIntf).map (notifyAt intfIndex nl rank seg queue))
  obtain ⟨id, hid⟩ := hin k (Nat.zero_le _) (by omega)
  refine ⟨t, id, ht, ?_⟩
  rw [hid]
  simp

/-- The total `GASPI_nb_notifications_exchange` returns for one interface
when every primitive succeeds: the total before plus the decoded value read
by the reset (the operation at position 2). -/
theorem count_exchange_single (env : Env)
    (hok : ∀ k op, (env k op).rc = ReturnCode.GASPI_SUCCESS)
    (nl nbDCcomm : Nat → Int) (nbNotifications nbBlocks rank : Int) (seg queue : Nat)
    (h2 : 2 ≤ nbBlocks) :
    ∃ id, ((GASPI_nb_notifications_exchange nl nbDCcomm nbNotifications ((1 : Nat) : Int)
        nbBlocks rank seg queue).run env []).outcome
      = Outcome.returned (addNotifications 0
          (env 2 (Op.gaspi_notify_reset seg id)).out nbNotifications) := by
  rw [GASPI_nb_notifications_exchange, if_neg (not_lt.mpr h2)]
  unfold exchange
  rw [Int.toNat_ofNat]
  refine ⟨(env 1 (Op.gaspi_notify_waitsome seg (wrapInt (nl 0 - 1)) 1)).out, ?_⟩
  simp [sendLoop, recvLoop, run_die, run_ret, hok]

/-- C3: bias round trip.  Let `o` be a non-negative `int` held at interface
`i` of the data array of a rank (`nbBlocks ≥ 2`, every primitive succeeding).
The `i`-th operation of `GASPI_offset_exchange`, and of
`GASPI_nb_notifications_exchange`, is the notify to the neighbour of interface
`i` carrying a value `v` that is the number `o + 1`.  A rank whose reset for
its interface `k` reads this `v` returns from `GASPI_offset_exchange` with
`o` in entry `k` of its destination offset array, and a rank with one
interface and total 0 whose reset reads `v` returns from
`GASPI_nb_notifications_exchange` with total `o`. -/
theorem bias_round_trip (o : Int) (h0 : 0 ≤ o) (h1 : o < 2147483648)
    (env : Env) (hok : ∀ k op, (env k op).rc = ReturnCode.GASPI_SUCCESS)
    (intfDestIndex data neighborsList : Nat → Int) (nbNotifications nbBlocks rank : Int)
    (nbIntf i seg queueID : Nat) (h2 : 2 ≤ nbBlocks) (hi : i < nbIntf) (hdata : data i = o) :
    ∃ v : Nat,
      ((GASPI_offset_exchange intfDestIndex data neighborsList nbIntf nbBlocks rank seg
          queueID).run env []).trace[i]?
        = some (Op.gaspi_notify seg (wrapInt (neighborsList i - 1)) rank v queueID)
      ∧ ((GASPI_nb_notifications_exchange neighborsList data nbNotifications nbIntf nbBlocks
          rank seg queueID).run env []).trace[i]?
        = some (Op.gaspi_notify seg (wrapInt (neighborsList i - 1)) rank v queueID)
      ∧ (v : Int) = o + 1
      ∧ (∀ (env2 : Env) (tbl data2 nl2 : Nat → Int) (nbBlocks2 rank2 : Int)
          (nbIntf2 k seg2 queue2 : Nat), 2 ≤ nbBlocks2 → k < nbIntf2 →
          (∀ p op, (env2 p op).rc = ReturnCode.GASPI_SUCCESS) →
          (∀ id, (env2 (nbIntf2 + 2 * k + 1) (Op.gaspi_notify_reset seg2 id)).out = v) →
          ∃ t, ((GASPI_offset_exchange tbl data2 nl2 nbIntf2 nbBlocks2 rank2 seg2
              queue2).run env2 []).outcome = Outcome.returned t ∧ t k = o)
      ∧ (∀ (env2 : Env) (data2 nl2 : Nat → Int) (nbBlocks2 rank2 : Int) (seg2 queue2 : Nat),
          2 ≤ nbBlocks2 → (∀ p op, (env2 p op).rc = ReturnCode.GASPI_SUCCESS) →
          (∀ id, (env2 2 (Op.gaspi_notify_reset seg2 id)).out = v) →
          ((GASPI_nb_notifications_exchange nl2 data2 0 ((1 : Nat) : Int) nbBlocks2 rank2 seg2
              queue2).run env2 []).outcome = Outcome.returned o) := by
  have hnb : ¬ nbBlocks < 2 := not_lt.mpr h2
  have hm : ((nbIntf : Nat) : Int).toNat = nbIntf := Int.toNat_ofNat nbIntf
  have s1 := (exchange_shape env hok data neighborsList nbIntf rank seg queueID
    storeDestIndex intfDestIndex).2.2.1 i (by rw [hm]; exact hi)
  have s2 := (exchange_shape env hok data neighborsList nbIntf rank seg queueID
    addNotifications nbNotifications).2.2.1 i (by rw [hm]; exact hi)
  have hdec : toInt (usub1 (toUInt (wrapInt (o + 1)))) = o := decode_payload o h0 h1
  refine ⟨toUInt (wrapInt (o + 1)), ?_, ?_, ?_, ?_, ?_⟩
  · rw [GASPI_offset_exchange, if_neg hnb, s1, notifyAt, hdata]
  · rw [GASPI_nb_notifications_exchange, if_neg hnb, s2, notifyAt, hdata]
  · unfold toUInt wrapInt
    omega
  · intro env2 tbl data2 nl2 nbBlocks2 rank2 nbIntf2 k seg2 queue2 hb hk hok2 hv
    obtain ⟨t, id, ht, htk⟩ := offset_exchange_table env2 hok2 tbl data2 nl2 nbBlocks2 rank2
      nbIntf2 seg2 queue2 hb k hk
    exact ⟨t, ht, by rw [htk, hv id, hdec]⟩
  · intro env2 data2 nl2 nbBlocks2 rank2 seg2 queue2 hb hok2 hv
    obtain ⟨id, hid⟩ := count_exchange_single env2 hok2 nl2 data2 0 nbBlocks2 rank2 seg2
      queue2 hb
    have hadd : addNotifications 0 (toUInt (wrapInt (o + 1))) 0 = o := by
      unfold addNotifications toInt usub1 toUInt wrapInt
      omega
    rw [hid, hv id, hadd]

/-- Witness of C3: the sender holds the offset 5 for its interface 0 and
notifies 6; a receiver whose reset reads 6 stores 5 (offset exchange) or adds 5
to its total 0 (count exchange). -/
theorem bias_round_trip_witness :
    ((0 : Int) ≤ 5 ∧ (5 : Int) < 2147483648)
    ∧ (∀ k op, (envOk k op).rc = ReturnCode.GASPI_SUCCESS)
    ∧ ((GASPI_offset_exchange (fun _ => 0) (fun _ => 5) (fun _ => 2) ((1 : Nat) : Int) 2 0
          4 0).run envOk []).trace[0]? = some (Op.gaspi_notify 4 1 0 6 0)
    ∧ (∃ t, ((GASPI_offset_exchange (fun _ => 0) (fun _ => 7) (fun _ => 1) ((1 : Nat) : Int)
          2 1 4 0).run (envReset 6) []).outcome = Outcome.returned t ∧ t 0 = 5)
    ∧ ((GASPI_nb_notifications_exchange (fun _ => 1) (fun _ => 7) 0 ((1 : Nat) : Int) 2 1
          4 0).run (envReset 6) []).outcome = Outcome.returned 5 := by
  obtain ⟨v, hs, _, hv, hrecv, hcnt⟩ := bias_round_trip 5 (by decide) (by decide) envOk
    (fun _ _ => rfl) (fun _ => 0) (fun _ => 5) (fun _ => 2) 0 2 0 1 0 4 0 (by decide)
    (by decide) rfl
  have hv6 : v = 6 := by omega
  subst hv6
  refine ⟨⟨by decide, by decide⟩, fun _ _ => rfl, hs, ?_, ?_⟩
  · exact hrecv (envReset 6) (fun _ => 0) (fun _ => 7) (fun _ => 1) 2 1 1 0 4 0 (by decide)
      (by decide) (fun _ op => by cases op <;> rfl) (fun _ => rfl)
  · exact hcnt (envReset 6) (fun _ => 7) (fun _ => 1) 2 1 4 0 (by decide)
      (fun _ op => by cases op <;> rfl) (fun _ => rfl)

end MiniFEM
